import Mathlib

/-!
# Sliver-Clients: the survey client's file collection engine

A shallow embedding of `survey/linux/survey.go` (and the matching parts of the two
watcher clients).  Go strings are lists of characters, byte buffers are lists of
bytes, the local file system and standard output are an explicit state, and the
remote side is an oracle answering each request.

Library code that the program calls (package `strings`, `fmt`, `os`, `bufio`,
`compress/gzip`) is modelled next to the function that uses it; every such
definition says which library routine it stands for.
-/

namespace Survey

/-- Go `string`: a list of characters (well-formed text). -/
abbrev Str := List Char

/-- Go `[]byte`, also the content of a local file. -/
abbrev Bytes := List UInt8

/-! ## Package `strings` -/

/-- Go `strings.Split(s, sep)` for a one-character separator: the pieces between
the occurrences of `sep`; a string without the separator is its own single piece. -/
def Split (sep : Char) : Str → List Str
  | [] => [[]]
  | c :: cs =>
    if c = sep then [] :: Split sep cs
    else
      match Split sep cs with
      | [] => [[c]]
      | p :: ps => (c :: p) :: ps

/-- Go `strings.Join(parts, sep)`. -/
def Join (parts : List Str) (sep : Str) : Str :=
  sep.intercalate parts

/-- Go `strings.Contains(s, sub)` for a one-character `sub`. -/
def Contains (s : Str) (c : Char) : Bool :=
  s.contains c

/-- Go `unicode.IsSpace`: the white space characters `strings.TrimSpace` removes. -/
def isSpace (c : Char) : Bool :=
  let n := c.toNat
  n = 9 || n = 10 || n = 11 || n = 12 || n = 13 || n = 32 || n = 0x85 || n = 0xA0 ||
  n = 0x1680 || (0x2000 ≤ n && n ≤ 0x200a) || n = 0x2028 || n = 0x2029 || n = 0x202f ||
  n = 0x205f || n = 0x3000

/-- Go `strings.TrimSpace`: leading and trailing white space removed. -/
def TrimSpace (s : Str) : Str :=
  ((s.dropWhile isSpace).reverse.dropWhile isSpace).reverse

/-! ## Package `fmt`: `Sprintf` called with a format and no operand

`downloadFile` and the sweeps build their paths with `fmt.Sprintf(a + b)`: the
concatenation is the *format*, and there is no operand.  Text without `%` is
copied; a `%` starts a directive, which with no operand can only print `%`
(for `%%`) or one of the `%!` error markers. -/

/-- One of the flag characters `#0+- ` that may follow `%`. -/
def isFlag (c : Char) : Bool :=
  c = '#' || c = '0' || c = '+' || c = '-' || c = ' '

/-- Go `fmt.parsenum` on the text that remains: `(isnum, rest)`.  The digits are
consumed; once the number read so far exceeds `1e6` the scan gives up and the
whole remaining text is consumed. -/
def parsenum : Nat → Bool → Str → Bool × Str
  | _, isnum, [] => (isnum, [])
  | num, isnum, c :: cs =>
    if c.isDigit then
      if num > 1000000 then (false, [])
      else parsenum (num * 10 + (c.toNat - 48)) true cs
    else (isnum, c :: cs)

/-- Go `fmt.parseArgNumber` on text that starts with `[`: `(wid, ok)`, the number
of characters to skip and whether a well-formed `[n]` was read. -/
def parseArgNumber (s : Str) : Nat × Bool :=
  if s.length < 3 then (1, false)
  else
    match (s.drop 1).indexOf? ']' with
    | none => (1, false)
    | some k =>
      let inner := (s.drop 1).take k
      let r := parsenum 0 false inner
      if r.1 && r.2.isEmpty then (k + 2, true) else (k + 2, false)

/-- State of one directive: whether the argument number is still good, and whether
the previous item was an index. -/
structure Directive where
  goodArgNum : Bool
  afterIndex : Bool
  written : Str
  rest : Str

/-- Go `pp.argNumber` with no operand: an index `[n]` can never select an operand,
so it always clears `goodArgNum`. -/
def argNumber (d : Directive) : Directive :=
  match d.rest with
  | '[' :: _ =>
    let r := parseArgNumber d.rest
    { d with goodArgNum := false, afterIndex := r.2, rest := d.rest.drop r.1 }
  | _ => { d with afterIndex := false }

/-- Width of a directive: `*` has no operand to read (`%!(BADWIDTH)`), otherwise digits. -/
def width (d : Directive) : Directive :=
  match d.rest with
  | '*' :: cs =>
    { d with written := d.written ++ "%!(BADWIDTH)".toList, afterIndex := false, rest := cs }
  | _ =>
    let r := parsenum 0 false d.rest
    { d with goodArgNum := d.goodArgNum && !(d.afterIndex && r.1), rest := r.2 }

/-- Precision of a directive: present only after a `.`. -/
def precision (d : Directive) : Directive :=
  match d.rest with
  | '.' :: cs =>
    let d1 := argNumber { d with goodArgNum := d.goodArgNum && !d.afterIndex, rest := cs }
    match d1.rest with
    | '*' :: cs1 =>
      { d1 with written := d1.written ++ "%!(BADPREC)".toList, afterIndex := false, rest := cs1 }
    | _ => { d1 with rest := (parsenum 0 false d1.rest).2 }
  | _ => d

/-- The verb that ends a directive, with no operand left to print. -/
def verb (d : Directive) : Str × Str :=
  match d.rest with
  | [] => (d.written ++ "%!(NOVERB)".toList, [])
  | v :: cs =>
    if v = '%' then (d.written ++ ['%'], cs)
    else if !d.goodArgNum then (d.written ++ "%!".toList ++ [v] ++ "(BADINDEX)".toList, cs)
    else (d.written ++ "%!".toList ++ [v] ++ "(MISSING)".toList, cs)

/-- What the directive that follows a `%` prints, and the text left after it. -/
def directive (s : Str) : Str × Str :=
  let d0 : Directive := ⟨true, false, [], s.dropWhile isFlag⟩
  let d1 := argNumber d0
  let d2 := precision (width d1)
  let d3 := if d2.afterIndex then d2 else argNumber d2
  verb d3

/-- The loop of Go `pp.doPrintf` with an empty operand list; `fuel` bounds the
number of characters and directives processed. -/
def doPrintf : Nat → Str → Str
  | 0, _ => []
  | _, [] => []
  | fuel + 1, c :: cs =>
    if c = '%' then
      let r := directive cs
      r.1 ++ doPrintf fuel r.2
    else c :: doPrintf fuel cs

/-- Go `fmt.Sprintf(format)` with no operand. -/
def Sprintf (format : Str) : Str :=
  doPrintf (format.length + 1) format

/-! ## Package `os`: the local file system

A node is named by the list of its path components from the root.  Path names are
resolved component by component: an empty component and `.` stay in place, `..`
goes to the parent, and every directory that is walked through must exist.
Permissions, symbolic links and device errors are outside the model: an operation
fails only for the reasons listed in `Errno`. -/

/-- The error numbers the model distinguishes. -/
inductive Errno where
  | ENOENT
  | ENOTDIR
  | EEXIST
  | EISDIR
  deriving DecidableEq, Repr

/-- The message of an error number (Go `syscall.Errno.Error`). -/
def Errno.text : Errno → Str
  | Errno.ENOENT => "no such file or directory".toList
  | Errno.ENOTDIR => "not a directory".toList
  | Errno.EEXIST => "file exists".toList
  | Errno.EISDIR => "is a directory".toList

/-- Go `os.PathError.Error`: operation, path and cause. -/
def pathError (op name : Str) (e : Errno) : Str :=
  op ++ [' '] ++ name ++ ": ".toList ++ e.text

/-- A directory, or a regular file with its content. -/
inductive Node where
  | dir
  | file (content : Bytes)
  deriving DecidableEq, Repr

/-- Absolute location of a node: its components from the root. -/
abbrev Loc := List Str

/-- The nodes of a file system, in creation order. -/
abbrev Nodes := List (Loc × Node)

/-- First node stored at a location. -/
def lookup (p : Loc) : Nodes → Option Node
  | [] => none
  | (q, n) :: rest => if q = p then some n else lookup p rest

/-- Store a node: in place when the location is taken, at the end otherwise. -/
def store (p : Loc) (n : Node) : Nodes → Nodes
  | [] => [(p, n)]
  | (q, m) :: rest => if q = p then (q, n) :: rest else (q, m) :: store p n rest

/-- The local file system: the working directory of the process and the nodes. -/
structure FS where
  cwd : Loc
  nodes : Nodes
  deriving DecidableEq, Repr

/-- The node at a location; the root is always a directory. -/
def FS.find (fs : FS) (p : Loc) : Option Node :=
  if p = [] then some Node.dir else lookup p fs.nodes

/-- Where resolution of a path name starts: the root for an absolute name. -/
def FS.start (fs : FS) (name : Str) : Loc :=
  match name with
  | '/' :: _ => []
  | _ => fs.cwd

/-- Walk one component from the directory `cur`. -/
def FS.step (fs : FS) (cur : Loc) (seg : Str) : Except Errno Loc :=
  match fs.find cur with
  | none => Except.error Errno.ENOENT
  | some (Node.file _) => Except.error Errno.ENOTDIR
  | some Node.dir =>
    if seg = [] ∨ seg = ['.'] then Except.ok cur
    else if seg = ['.', '.'] then Except.ok cur.dropLast
    else Except.ok (cur ++ [seg])

/-- Walk a list of components. -/
def FS.walk (fs : FS) : Loc → List Str → Except Errno Loc
  | cur, [] => Except.ok cur
  | cur, seg :: rest =>
    match fs.step cur seg with
    | Except.error e => Except.error e
    | Except.ok nxt => fs.walk nxt rest

/-- Components of a name without the empty ones at its end (trailing slashes). -/
def trimSegs (segs : List Str) : List Str :=
  (segs.reverse.dropWhile (fun s => s = [])).reverse

/-- Go `os.Stat`: the node a name resolves to. -/
def Stat (fs : FS) (name : Str) : Except Errno Node :=
  if name = [] then Except.error Errno.ENOENT
  else
    match fs.walk (fs.start name) (Split '/' name) with
    | Except.error e => Except.error e
    | Except.ok p =>
      match fs.find p with
      | none => Except.error Errno.ENOENT
      | some n => Except.ok n

/-- Go `os.IsNotExist` on the error of a call. -/
def IsNotExist {α : Type} (r : Except Errno α) : Bool :=
  match r with
  | Except.error Errno.ENOENT => true
  | _ => false

/-- Resolve the directory that holds the last component of a name: the parent
location and the last component, with trailing slashes set aside. -/
def FS.parent (fs : FS) (name : Str) : Except Errno (Option (Loc × Str)) :=
  if name = [] then Except.error Errno.ENOENT
  else
    match (trimSegs (Split '/' name)).reverse with
    | [] => Except.ok none
    | last :: revInit =>
      match fs.walk (fs.start name) revInit.reverse with
      | Except.error e => Except.error e
      | Except.ok par =>
        match fs.find par with
        | none => Except.error Errno.ENOENT
        | some (Node.file _) => Except.error Errno.ENOTDIR
        | some Node.dir => Except.ok (some (par, last))

/-- Go `os.Mkdir(name, 0777)`: one new directory inside an existing one. -/
def Mkdir (fs : FS) (name : Str) : Except Errno FS :=
  match fs.parent name with
  | Except.error e => Except.error e
  | Except.ok none => Except.error Errno.EEXIST
  | Except.ok (some (par, last)) =>
    if last = ['.'] ∨ last = ['.', '.'] then Except.error Errno.EEXIST
    else
      match fs.find (par ++ [last]) with
      | some _ => Except.error Errno.EEXIST
      | none => Except.ok { fs with nodes := store (par ++ [last]) Node.dir fs.nodes }

/-- Go `os.OpenFile(name, os.O_CREATE|os.O_WRONLY, 0777)`: the file system after the
call and the location of the open file.  A missing file is created empty; an
existing file is opened as it is: the flags do not include `O_TRUNC`.  The
failures of the model are those of path resolution (ENOENT, ENOTDIR) and of a
name that stands for a directory (EISDIR); the real call can fail in more ways (a
name that is too long, a directory that cannot be written, a full disk), so the
success of the model's call says nothing about the success of the real one. -/
def OpenFileCreateWronly (fs : FS) (name : Str) : Except Errno (FS × Loc) :=
  match fs.parent name with
  | Except.error e => Except.error e
  | Except.ok none => Except.error Errno.EISDIR
  | Except.ok (some (par, last)) =>
    if last = ['.'] ∨ last = ['.', '.'] ∨ trimSegs (Split '/' name) ≠ Split '/' name then
      Except.error Errno.EISDIR
    else
      match fs.find (par ++ [last]) with
      | some Node.dir => Except.error Errno.EISDIR
      | some (Node.file _) => Except.ok (fs, par ++ [last])
      | none =>
        Except.ok ({ fs with nodes := store (par ++ [last]) (Node.file []) fs.nodes },
          par ++ [last])

/-- Go `File.WriteString` on a file just opened for writing: the bytes go to
offset 0 and replace what was there; bytes of the old content beyond the new ones
stay. -/
def WriteString (fs : FS) (h : Loc) (data : Bytes) : FS :=
  match fs.find h with
  | some (Node.file old) =>
    { fs with nodes := store h (Node.file (data ++ old.drop data.length)) fs.nodes }
  | _ => fs

/-- Go `os.OpenFile(name, os.O_RDONLY, 0777)` followed by reading the file: the
content read, or `none` when the open succeeds on a directory and the read fails. -/
def OpenFileRdonly (fs : FS) (name : Str) : Except Errno (Option Bytes) :=
  match Stat fs name with
  | Except.error e => Except.error e
  | Except.ok Node.dir => Except.ok none
  | Except.ok (Node.file c) => Except.ok (some c)

/-- Go `os.ReadFile`: the whole content of a regular file. -/
def ReadFile (fs : FS) (name : Str) : Except Errno Bytes :=
  match Stat fs name with
  | Except.error e => Except.error e
  | Except.ok Node.dir => Except.error Errno.EISDIR
  | Except.ok (Node.file c) => Except.ok c

/-! ## Package `compress/gzip` and `bufio` -/

/-- What `gzip.NewReader` followed by `io.Copy` gives on a payload: the reader
cannot be created, the copy fails, or the decompressed bytes. -/
inductive GzipResult where
  | readerErr (msg : Str)
  | copyErr (msg : Str)
  | ok (data : Bytes)
  deriving DecidableEq, Repr

/-- Decompression of a payload.  `gzip.NewReader` reads the ten fixed header bytes
and checks the two magic bytes and the method; the rest of the format (optional
header fields, the deflate stream, the trailer) is the parameter `inflate`. -/
def gunzip (inflate : Bytes → GzipResult) (data : Bytes) : GzipResult :=
  if data.length < 10 then
    GzipResult.readerErr (if data = [] then "EOF".toList else "unexpected EOF".toList)
  else if data.take 3 ≠ [0x1f, 0x8b, 8] then
    GzipResult.readerErr "gzip: invalid header".toList
  else inflate data

/-- Go `bufio.MaxScanTokenSize`: a line must fit a buffer of this many bytes. -/
def MaxScanTokenSize : Nat := 64 * 1024

/-- Go `bufio.dropCR`: a line without its final carriage return. -/
def dropCR (line : Bytes) : Bytes :=
  if line.getLast? = some 13 then line.dropLast else line

/-- Go `bufio.Scanner` with `ScanLines` over a whole file: the lines handed out by
`Scan`, and whether scanning stopped with `ErrTooLong`.  `cur` is the part of the
current line read so far. -/
def scanLines : Bytes → Bytes → List Bytes × Bool
  | cur, [] => (if cur = [] then [] else [dropCR cur], false)
  | cur, b :: rest =>
    if b = 10 then
      let r := scanLines [] rest
      (dropCR cur :: r.1, r.2)
    else if cur.length + 1 ≥ MaxScanTokenSize then ([], true)
    else scanLines (cur ++ [b]) rest

/-! ## State of a run -/

/-- One item written to standard output (or to the log): a line of text, a line of
bytes echoed from a file, or a rendered table given by its rows of cells. -/
inductive Printed where
  | text (s : Str)
  | bytes (b : Bytes)
  | table (header : List Str) (rows : List (List Str))
  deriving DecidableEq, Repr

/-- A request sent to the remote side. -/
inductive Request where
  | Ls (path : Str)
  | Download (path : Str)
  | Execute (path : Str) (args : List Str)
  | Ps
  | Netstat
  | Ifconfig
  deriving DecidableEq, Repr

/-- The state a run acts on: the local file system, what was printed, and the
requests sent so far. -/
structure World where
  fs : FS
  out : List Printed
  requests : List Request
  deriving DecidableEq, Repr

/-- How a call ends: it returns to its caller, the process exits with status 1
(`log.Fatal`, `os.Exit(1)`), the process stops on a run-time panic, or the call
loops for ever. -/
inductive Outcome (α : Type) where
  | done (a : α) (w : World)
  | fatal (w : World)
  | crash (w : World)
  | hang (w : World)

/-- The state a call ends in. -/
def Outcome.world {α : Type} : Outcome α → World
  | Outcome.done _ w => w
  | Outcome.fatal w => w
  | Outcome.crash w => w
  | Outcome.hang w => w

/-- Whether the call returned to its caller. -/
def Outcome.returned {α : Type} : Outcome α → Bool
  | Outcome.done _ _ => true
  | _ => false

/-- Sequencing: the next step runs only when the previous one returned. -/
def Outcome.andThen {α β : Type} (o : Outcome α) (f : α → World → Outcome β) : Outcome β :=
  match o with
  | Outcome.done a w => f a w
  | Outcome.fatal w => Outcome.fatal w
  | Outcome.crash w => Outcome.crash w
  | Outcome.hang w => Outcome.hang w

/-- Go `fmt.Println` of one line of text. -/
def println (s : Str) (w : World) : World :=
  { w with out := w.out ++ [Printed.text s] }

/-- Source `makeBorder`: the header between two rules of 70 `=`. -/
def makeBorder (header : Str) (w : World) : World :=
  println (List.replicate 70 '=')
    (println ("[*] ".toList ++ header) (println (List.replicate 70 '=') w))

/-! ## `downloadFile` and `rebuildDirs` -/

/-- The protobuf message `sliverpb.Download`, as far as the client reads it. -/
structure Download where
  Exists : Bool
  Encoder : Str
  Data : Bytes
  deriving DecidableEq, Repr

/-- What `rpc.Download` returns: the response (or nil) and the error (or nil),
the error given by its message. -/
structure DownloadReply where
  download : Option Download
  err : Option Str
  deriving DecidableEq, Repr

/-- The loop of source `rebuildDirs`: `pathTrack` holds the tag and the components
walked so far, the second argument the components still to visit; the last
component of the path is not visited. -/
def rebuildLoop : List Str → List Str → World → World
  | _, [], w => w
  | _, [_], w => w
  | pathTrack, line :: next :: rest, w =>
    let dir := Join pathTrack ['/'] ++ ['/'] ++ line
    if IsNotExist (Stat w.fs dir) then
      match Mkdir w.fs dir with
      | Except.error e =>
        println ("Error creating directory: ".toList ++ pathError "mkdir".toList dir e) w
      | Except.ok fs1 => rebuildLoop (pathTrack ++ [line]) (next :: rest) { w with fs := fs1 }
    else rebuildLoop (pathTrack ++ [line]) (next :: rest) w

/-- Source `rebuildDirs`: make the tag directory when it is missing (the result of
that `Mkdir` is not looked at), then every directory on the way to the file. -/
def rebuildDirs (path fileTag : Str) (w : World) : World :=
  let pathParts := Split '/' path
  let w1 :=
    if IsNotExist (Stat w.fs fileTag) then
      match Mkdir w.fs fileTag with
      | Except.error _ => w
      | Except.ok fs1 => { w with fs := fs1 }
    else w
  rebuildLoop [fileTag] pathParts w1

/-- The local path `downloadFile` opens: `fmt.Sprintf(fileTag + "/" + path)`. -/
def fullPath (fileTag path : Str) : Str :=
  Sprintf (fileTag ++ ['/'] ++ path)

/-- Go `fmt.Println` of a `[]string` operand: the elements between brackets,
separated by spaces. -/
def showStrings (xs : List Str) : Str :=
  ['['] ++ Join xs [' '] ++ [']']

/-- The diagnostics of source `downloadFile` for the error of the rpc call. -/
def reportError (err : Option Str) (path : Str) (w : World) : World :=
  match err with
  | none => w
  | some msg =>
    if Contains msg ':' then
      let errString := Split ':' msg
      if errString.length ≥ 3 ∧
          TrimSpace (errString.getD 2 []) = "no such file or directory".toList then
        println ("[!] No such file or directory: ".toList ++ path) w
      else
        println ("[!] Unexpected error: ".toList ++ showStrings errString) w
    else w

/-- The view step of source `downloadFile`: the file is opened again and echoed
line by line; a scanner error ends the process through `log.Fatalf`. -/
def viewFile (name : Str) (w : World) : Outcome Unit :=
  match OpenFileRdonly w.fs name with
  | Except.error e =>
    Outcome.done () (println ("[!] Error creating file: ".toList ++ pathError "open".toList name e) w)
  | Except.ok none =>
    Outcome.fatal (println ("[!] Error reading file: ".toList ++
      pathError "read".toList name Errno.EISDIR) w)
  | Except.ok (some content) =>
    let r := scanLines [] content
    let w1 := { w with out := w.out ++ r.1.map Printed.bytes }
    if r.2 then
      Outcome.fatal (println "[!] Error reading file: bufio.Scanner: token too long".toList w1)
    else Outcome.done () w1

/-- Source `downloadFile`, from the statement after the rpc call on: `reply` is
what `rpc.Download` returned for `path`. -/
def downloadReply (inflate : Bytes → GzipResult) (reply : DownloadReply)
    (path fileTag : Str) (quiet view : Bool) (w : World) : Outcome Unit :=
  let w1 := if !quiet then makeBorder ("Download Request: ".toList ++ path) w else w
  let w2 := reportError reply.err path w1
  let w3 := rebuildDirs path fileTag w2
  match reply.download with
  | none => Outcome.done () w3
  | some download =>
    if download.Exists then
      if download.Encoder = "gzip".toList then
        match gunzip inflate download.Data with
        | GzipResult.readerErr msg =>
          Outcome.done () (println ("[!] Error creating gzip reader: ".toList ++ msg) w3)
        | GzipResult.copyErr msg =>
          Outcome.done () (println ("[!] Error decompressing data: ".toList ++ msg) w3)
        | GzipResult.ok decompressedData =>
          match OpenFileCreateWronly w3.fs (fullPath fileTag path) with
          | Except.error e =>
            Outcome.done () (println ("[!] Error creating file: ".toList ++
              pathError "open".toList (fullPath fileTag path) e) w3)
          | Except.ok (fs1, file) =>
            let w4 := { w3 with fs := WriteString fs1 file decompressedData }
            let w5 := if !quiet then println ("[*] Download Successful: ".toList ++ path) w4 else w4
            if view then viewFile (fullPath fileTag path) w5 else Outcome.done () w5
      else Outcome.done () w3
    else Outcome.done () w3

/-! ## The remote side -/

/-- The protobuf message `clientpb.Session`, as far as the clients read it. -/
structure Session where
  ID : Str
  Name : Str
  Hostname : Str
  Username : Str
  UID : Str
  GID : Str
  PID : Int
  RemoteAddress : Str
  deriving DecidableEq, Repr

/-- The protobuf message `sliverpb.FileInfo`. -/
structure FileInfo where
  Name : Str
  IsDir : Bool
  Size : Int
  ModTime : Int
  Mode : Str
  deriving DecidableEq, Repr

/-- The protobuf message `sliverpb.Ls`; `Response` is nil or carries the error text. -/
structure Ls where
  Path : Str
  Files : List FileInfo
  Response : Option Str
  deriving DecidableEq, Repr

/-- What `rpc.Ls` returns: the response (or nil) and the error (or nil). -/
structure LsReply where
  ls : Option Ls
  err : Option Str
  deriving DecidableEq, Repr

/-- The protobuf message `sliverpb.Execute`. -/
structure Execute where
  Status : Nat
  Stdout : Str
  Stderr : Str
  deriving DecidableEq, Repr

/-- What `rpc.Execute` returns. -/
structure ExecuteReply where
  execute : Option Execute
  err : Option Str
  deriving DecidableEq, Repr

/-- The protobuf message `commonpb.Process`. -/
structure Process where
  Pid : Int
  Ppid : Int
  Owner : Str
  Executable : Str
  CmdLine : List Str
  deriving DecidableEq, Repr

/-- What `rpc.Ps` returns: the process list (or nil) and the error (or nil). -/
structure PsReply where
  ps : Option (List Process)
  err : Option Str
  deriving DecidableEq, Repr

/-- The protobuf message `sliverpb.SockTabEntry.SockAddr`. -/
structure SockAddr where
  Ip : Str
  Port : Nat
  deriving DecidableEq, Repr

/-- The protobuf message `sliverpb.SockTabEntry`; `Process` may be nil. -/
structure SockTabEntry where
  LocalAddr : SockAddr
  RemoteAddr : SockAddr
  SkState : Str
  Protocol : Str
  Process : Option Process
  deriving DecidableEq, Repr

/-- What `rpc.Netstat` returns. -/
structure NetstatReply where
  netstat : Option (List SockTabEntry)
  err : Option Str
  deriving DecidableEq, Repr

/-- The protobuf message `sliverpb.NetInterface`. -/
structure NetInterface where
  Index : Int
  Name : Str
  MAC : Str
  IPAddresses : List Str
  deriving DecidableEq, Repr

/-- What `rpc.Ifconfig` returns. -/
structure IfconfigReply where
  interfaces : Option (List NetInterface)
  err : Option Str
  deriving DecidableEq, Repr

/-- The remote side as the client sees it: the answer to each request may depend on
the request and on all the requests sent before it. -/
structure Remote where
  Ls : List Request → Str → LsReply
  Download : List Request → Str → DownloadReply
  Execute : List Request → Str → List Str → ExecuteReply
  Ps : List Request → PsReply
  Netstat : List Request → NetstatReply
  Ifconfig : List Request → IfconfigReply

/-- What the run uses from outside the repository besides the remote side: the rest
of the gzip format, and the output of the local script `./taint.sh` (or `none`
when it cannot be run), and `util.ByteCountBinary` of the sliver library. -/
structure Local where
  inflate : Bytes → GzipResult
  taint : Str → Option Str
  byteCount : Int → Str

/-- One statement of a function body. -/
abbrev Step := World → Outcome Unit

/-- Statements run one after the other. -/
def seq : List Step → Step
  | [], w => Outcome.done () w
  | s :: rest, w => (s w).andThen fun _ w1 => seq rest w1

/-- A Go `for _, x := range xs` loop. -/
def forEach {α : Type} (xs : List α) (body : α → Step) : Step :=
  seq (xs.map body)

/-- A statement that only prints a line. -/
def say (s : Str) : Step :=
  fun w => Outcome.done () (println s w)

/-- Source `makeBorder` as a statement. -/
def border (header : Str) : Step :=
  fun w => Outcome.done () (makeBorder header w)

/-- Constant `console.Normal` of the sliver client library. -/
def Normal : Str := [Char.ofNat 27] ++ "[0m".toList

/-- Constant `console.Bold` of the sliver client library. -/
def Bold : Str := [Char.ofNat 27] ++ "[1m".toList

/-- Constant `console.Green` of the sliver client library. -/
def Green : Str := [Char.ofNat 27] ++ "[32m".toList

/-- Source `downloadFile`: the request is sent, then the reply is handled. -/
def downloadFile (env : Local) (rpc : Remote) (path fileTag : Str) (quiet view : Bool) : Step :=
  fun w =>
    downloadReply env.inflate (rpc.Download w.requests path) path fileTag quiet view
      { w with requests := w.requests ++ [Request.Download path] }

/-- Source `rawListDirectory`: the entries of a remote directory.  A transport
error is printed; reading the response of a nil reply is a nil dereference; a
response that carries an error text ends the process through `log.Fatal`. -/
def rawListDirectory (rpc : Remote) (path : Str) (w : World) : Outcome (List FileInfo) :=
  let reply := rpc.Ls w.requests path
  let w1 := { w with requests := w.requests ++ [Request.Ls path] }
  let w2 := match reply.err with
    | some e => println e w1
    | none => w1
  match reply.ls with
  | none => Outcome.crash w2
  | some ls =>
    match ls.Response with
    | some e => if e ≠ [] then Outcome.fatal (println e w2) else Outcome.done ls.Files w2
    | none => Outcome.done ls.Files w2

/-- The history files looked for in a home directory. -/
def histFiles : List Str :=
  [".zsh_history", ".bash_history", ".ash_history", ".cshrc_history", ".ksh_history",
   ".fish_history", ".dash_history", ".sqlite_history", ".wget-hsts", ".viminfo",
   ".mysql_history", ".lesshst", ".gitconfig", ".bashrc", ".zshrc"].map String.toList

/-- Source `findHistoriesUser`. -/
def findHistoriesUser (env : Local) (rpc : Remote) (fileTag targetPath : Str) : Step :=
  fun w =>
    (rawListDirectory rpc targetPath w).andThen fun files w1 =>
      let directories := files.map fun fi => fi.Name
      forEach directories (fun i w2 =>
        let fullHomePath := Sprintf ("/home/".toList ++ i)
        (rawListDirectory rpc fullHomePath w2).andThen fun homeDirectory w3 =>
          forEach homeDirectory (fun history =>
            let partialPath := Sprintf (fullHomePath ++ ['/'])
            forEach histFiles (fun histFile w4 =>
              if history.Name = histFile then
                downloadFile env rpc (Sprintf (partialPath ++ history.Name)) fileTag true false w4
              else Outcome.done () w4)) w3) w1

/-- Source `findHistoriesRoot`. -/
def findHistoriesRoot (env : Local) (rpc : Remote) (fileTag targetPath : Str) : Step :=
  fun w =>
    (rawListDirectory rpc targetPath w).andThen fun rootFiles w1 =>
      forEach rootFiles (fun i =>
        forEach histFiles (fun histFile w2 =>
          if i.Name = histFile then
            downloadFile env rpc (Sprintf ("/root/".toList ++ histFile)) fileTag true false w2
          else Outcome.done () w2)) w1

/-- The sweep shared by source `getEctConf`, `getSystemdConf` and
`getLibSystemdSystem`: list `listed`, download every entry that is not a directory
as `dir + name`. -/
def sweep (env : Local) (rpc : Remote) (fileTag title listed dir : Str) : Step :=
  fun w =>
    (rawListDirectory rpc listed (makeBorder title w)).andThen fun files w1 =>
      forEach files (fun fi w2 =>
        if !fi.IsDir then
          downloadFile env rpc (Sprintf (dir ++ fi.Name)) fileTag true false w2
        else Outcome.done () w2) w1

/-- Source `getEctConf`. -/
def getEctConf (env : Local) (rpc : Remote) (fileTag : Str) : Step :=
  sweep env rpc fileTag "Grabbing files /etc/*.conf".toList "/etc/*.conf".toList "/etc/".toList

/-- Source `getSystemdConf`. -/
def getSystemdConf (env : Local) (rpc : Remote) (fileTag : Str) : Step :=
  sweep env rpc fileTag "Grabbing files /etc/systemd/*.conf".toList
    "/etc/systemd/*.conf".toList "/etc/systemd/".toList

/-- Source `getLibSystemdSystem`. -/
def getLibSystemdSystem (env : Local) (rpc : Remote) (fileTag : Str) : Step :=
  sweep env rpc fileTag "Grabbing files /lib/systemd/system/*".toList
    "/lib/systemd/system".toList "/lib/systemd/system/".toList

/-! ## Enumeration and presentation -/

/-- Go `strconv.Atoi`: the value and whether the conversion succeeded.  A syntax
error gives 0; a value outside the 64-bit range gives the nearest bound. -/
def Atoi (s : Str) : Int × Bool :=
  let neg := s.head? = some '-'
  let digits := if s.head? = some '-' ∨ s.head? = some '+' then s.drop 1 else s
  if digits = [] ∨ ¬ digits.all Char.isDigit then (0, false)
  else
    let n : Nat := digits.foldl (fun a c => a * 10 + (c.toNat - 48)) 0
    if neg then (if n > 2 ^ 63 then (-(2 ^ 63 : Int), false) else (-(n : Int), true))
    else (if n ≥ 2 ^ 63 then ((2 ^ 63 : Int) - 1, false) else ((n : Int), true))

/-- Go `%d` of an integer. -/
def showInt (n : Int) : Str := (toString n).toList

/-- Go `string(data)` for the bytes of a file: one character per byte. -/
def bytesToStr (b : Bytes) : Str := b.map fun x => Char.ofNat x.toNat

/-- Source `procRow`: the four cells of a process row. -/
def procRow (proc : Process) (cmdLine : Bool) : List Str :=
  if cmdLine then
    let args := if proc.CmdLine.length ≥ 2 then Join proc.CmdLine [' '] else proc.Executable
    [showInt proc.Pid ++ Normal, showInt proc.Ppid ++ Normal, proc.Owner ++ Normal, args ++ Normal]
  else
    [showInt proc.Pid ++ Normal, showInt proc.Ppid ++ Normal, proc.Owner ++ Normal,
     proc.Executable ++ Normal]

/-- The header row of the process table in source `processList`. -/
def processHeader : List Str :=
  ["PPID", "PID", "User", "Command"].map String.toList

/-- Source `processList`: the table is recorded with its rows in the order they are
appended (sorting and rendering are the table library's). -/
def processList (rpc : Remote) : Step :=
  fun w =>
    let w1 := makeBorder "Process List".toList w
    let reply := rpc.Ps w1.requests
    let w2 := { w1 with requests := w1.requests ++ [Request.Ps] }
    let w3 := match reply.err with
      | some e => println e w2
      | none => w2
    match reply.ps with
    | none => Outcome.crash w3
    | some processes =>
      Outcome.done () { w3 with out := w3.out ++
        [Printed.table processHeader (processes.map fun proc => procRow proc true)] }

/-- The row of one entry in source `getConnections`, or `none` when building it
dereferences the nil process of the entry. -/
def connectionRow (targetSession : Session) (entry : SockTabEntry) : Option (List Str) :=
  let pid := match entry.Process with
    | some p => showInt p.Pid ++ ['/'] ++ p.Executable
    | none => []
  let srcAddr := entry.LocalAddr.Ip ++ [':'] ++ showInt entry.LocalAddr.Port
  let dstAddr := entry.RemoteAddr.Ip ++ [':'] ++ showInt entry.RemoteAddr.Port
  match entry.Process with
  | none => none
  | some p =>
    if p.Pid = targetSession.PID then
      some [Green ++ entry.Protocol ++ Normal, Green ++ srcAddr ++ Normal,
        Green ++ dstAddr ++ Normal, Green ++ entry.SkState ++ Normal, Green ++ pid ++ Normal]
    else some [entry.Protocol, srcAddr, dstAddr, entry.SkState, pid]

/-- The rows of the connection table, or `none` when an entry stops the run. -/
def connectionRows (targetSession : Session) : List SockTabEntry → Option (List (List Str))
  | [] => some []
  | entry :: rest =>
    match connectionRow targetSession entry with
    | none => none
    | some row =>
      match connectionRows targetSession rest with
      | none => none
      | some rows => some (row :: rows)

/-- The header row of the connection table. -/
def connectionHeader : List Str :=
  ["Protocol", "Local Address", "Foreign Address", "State", "PID/Program name"].map String.toList

/-- Source `getConnections`. -/
def getConnections (targetSession : Session) (rpc : Remote) : Step :=
  fun w =>
    let w1 := makeBorder "Connections".toList w
    let reply := rpc.Netstat w1.requests
    let w2 := { w1 with requests := w1.requests ++ [Request.Netstat] }
    let w3 := match reply.err with
      | some e => println e w2
      | none => w2
    match reply.netstat with
    | none => Outcome.crash w3
    | some entries =>
      match connectionRows targetSession entries with
      | none => Outcome.crash w3
      | some rows => Outcome.done () { w3 with out := w3.out ++ [Printed.table connectionHeader rows] }

/-- Source `listDirectory`: the listing is recorded as a table whose header is the
path line and whose rows hold mode, size, modification time in seconds and name. -/
def listDirectory (env : Local) (rpc : Remote) (path : Str) : Step :=
  fun w =>
    let reply := rpc.Ls w.requests path
    let w1 := { w with requests := w.requests ++ [Request.Ls path] }
    let w2 := match reply.err with
      | some e => println e w1
      | none => w1
    match reply.ls with
    | none => Outcome.crash w2
    | some ls =>
      if ls.Response.isSome ∧ ls.Response ≠ some [] then
        Outcome.fatal (println (ls.Response.getD []) w2)
      else
        let numberOfFiles := ls.Files.length
        let totalSize := (ls.Files.map fun f => f.Size).sum
        let items := if numberOfFiles = 1 then " item, ".toList else " items, ".toList
        let pathInfo := ls.Path ++ " (".toList ++ showInt numberOfFiles ++ items ++
          env.byteCount totalSize ++ [')']
        let w3 := makeBorder ("Path Info: ".toList ++ pathInfo) w2
        Outcome.done () { w3 with out := w3.out ++ [Printed.table [pathInfo]
          (ls.Files.map fun f => [f.Mode, showInt f.Size, showInt f.ModTime, f.Name])] }

/-- Source `formatExecuteOutput`: the lines of the output joined again. -/
def formatExecuteOutput (rawOutput : Str) : Str :=
  Join (Split (Char.ofNat 10) rawOutput) [Char.ofNat 10]

/-- Source `executeBinary`. -/
def executeBinary (rpc : Remote) (path : Str) (args : List Str) (quiet : Bool) : Step :=
  fun w =>
    let reply := rpc.Execute w.requests path args
    let w1 := { w with requests := w.requests ++ [Request.Execute path args] }
    let w2 := if !quiet then
        makeBorder ("Execute Binary: ".toList ++ path ++ [' '] ++ Join args [' ']) w1
      else w1
    let w3 := reportError reply.err path w2
    match reply.execute with
    | none => Outcome.done () w3
    | some execute =>
      if execute.Status = 0 then Outcome.done () (println (formatExecuteOutput execute.Stdout) w3)
      else Outcome.done () (println (formatExecuteOutput execute.Stderr) w3)

/-- Source `binExists`: the listing of the path has exactly one entry. -/
def binExists (rpc : Remote) (path : Str) (w : World) : Outcome Bool :=
  (rawListDirectory rpc path w).andThen fun files w1 =>
    Outcome.done (decide (files.length = 1)) w1

/-- Source `isLoopback`. -/
def isLoopback (ip : Str) : Bool :=
  ip.take 3 = "127".toList || ip.take 3 = "::1".toList

/-- The addresses of an interface that source `getInterfaces` shows: those with a
subnet length from 1 to 32 that are not loopback addresses. -/
def shownAddresses (ips : List Str) : List Str :=
  ips.filter fun ip =>
    let subnet : Int :=
      if Contains ip '/' then
        let r := Atoi ((Split '/' ip).getLastD [])
        if r.2 then r.1 else -1
      else -1
    decide (0 < subnet) && decide (subnet ≤ 32) && !isLoopback ip

/-- The items source `getInterfaces` prints for the interfaces from position
`index` on; `total` is the number of interfaces. -/
def interfaceTables (total : Nat) : Nat → List NetInterface → List Printed
  | _, [] => []
  | index, iface :: rest =>
    let ips := shownAddresses iface.IPAddresses
    if ips.length < 1 then interfaceTables total (index + 1) rest
    else
      [Printed.table ((Bold ++ iface.Name ++ Normal) ::
          ["#", "IP Addresses", "MAC Address"].map String.toList)
        (ips.map fun ip => [showInt iface.Index, ip, iface.MAC])] ++
      (if index + 1 < total then [Printed.text []] else []) ++
      interfaceTables total (index + 1) rest

/-- Source `getInterfaces`. -/
def getInterfaces (rpc : Remote) : Step :=
  fun w =>
    let reply := rpc.Ifconfig w.requests
    let w1 := { w with requests := w.requests ++ [Request.Ifconfig] }
    let w2 := match reply.err with
      | some e => println e w1
      | none => w1
    match reply.interfaces with
    | none => Outcome.crash w2
    | some ifaces =>
      Outcome.done () { w2 with out := w2.out ++ interfaceTables ifaces.length 0 ifaces }

/-- Source `getInfo`: the string fields and the process id of the session; the two
time fields are rendered by the time library and are not recorded. -/
def getInfo (targetSession : Session) : Step :=
  fun w =>
    let w1 := makeBorder "Session Information".toList w
    Outcome.done () { w1 with out := w1.out ++ [Printed.table []
      [["Session ID".toList, targetSession.ID], ["Name".toList, targetSession.Name],
       ["Hostname".toList, targetSession.Hostname], ["Username".toList, targetSession.Username],
       ["UID".toList, targetSession.UID], ["GID".toList, targetSession.GID],
       ["PID".toList, showInt targetSession.PID],
       ["Remote Address".toList, targetSession.RemoteAddress]]] }

/-- Source `resolveBpf`. -/
def resolveBpf (bpfValue : Str) : Str :=
  let bpfValueInt := (Atoi bpfValue).1
  if bpfValueInt = 0 then
    "Unrestricted access -> Unprivileged users (non-root) are allowed to load BPF programs and maps without restrictions".toList
  else if bpfValueInt = 1 then
    "BPF is restricted for unprivileged users -> Unprivileged users are completely prohibited from loading BPF programs or creating BPF maps".toList
  else if bpfValueInt = 2 then
    "Permanently disable unprivileged BPF -> Unprivileged BPF usage is permanently disabled".toList
  else "Value not found".toList

/-- Source `resolvePtrace`. -/
def resolvePtrace (ptraceValue : Str) : Str :=
  let ptraceValueInt := (Atoi ptraceValue).1
  if ptraceValueInt = 0 then
    "No restrictions -> Any process can attach to another process that it has the appropriate permissions for".toList
  else if ptraceValueInt = 1 then
    "Restricted to parent processes -> Process can attach to its child processes".toList
  else if ptraceValueInt = 2 then
    "Admin-only debugging -> Normal users cannot use ptrace, even on their own child processes, unless explicitly granted the capability".toList
  else if ptraceValueInt = 3 then
    "No ptrace -> This is suitable for systems where debugging and process introspection are entirely unnecessary or prohibited".toList
  else "Value not found".toList

/-- Source `readFileAsString`: the content, or the empty string with an error. -/
def readFileAsString (fs : FS) (filename : Str) : Str × Option Errno :=
  match ReadFile fs filename with
  | Except.error e => ([], some e)
  | Except.ok data => (bytesToStr data, none)

/-- Source `taintScript`: the output of `./taint.sh`, or the error line. -/
def taintScript (env : Local) (val : Str) : Step :=
  fun w =>
    match env.taint val with
    | none => Outcome.done () (println "Error executing script".toList w)
    | some output => Outcome.done () (println output w)

/-! ## `main` -/

/-- The prompt loop of source `handleMultipleSessions`.  Every round makes a new
`bufio.Scanner` on standard input and keeps the first line it returns; the list
holds these lines, one per round.  On a terminal they are the lines typed.  On
piped input the scanner of the first round takes all of the input, so the list has
that one line however many lines were piped.  Once the list is used up every
further scanner returns the empty line, which is not a number: the loop never
ends. -/
def promptLoop (sessions : List Session) : List Str → World → Outcome Session
  | [], w => Outcome.hang (println "[!] Invalid selection".toList (println ">>> ".toList w))
  | sessionSelection :: rest, w =>
    let w1 := println ">>> ".toList w
    let r := Atoi sessionSelection
    if !r.2 then promptLoop sessions rest (println "[!] Invalid selection".toList w1)
    else if 0 ≤ r.1 ∧ r.1 < sessions.length then
      match sessions.get? r.1.toNat with
      | some session => Outcome.done session w1
      | none => Outcome.crash w1
    else promptLoop sessions rest (println "[!] Invalid selection".toList w1)

/-- Source `handleMultipleSessions`. -/
def handleMultipleSessions (sessions : List Session) (stdin : List Str) (w : World) :
    Outcome Session :=
  let w1 := println "[+] Which session should this module be run against:".toList
    (println "[+] Multiple Sessions Detected [+]".toList w)
  let w2 := { w1 with out := w1.out ++ [Printed.table
    ((Bold ++ "Sessions".toList ++ Normal) :: ["#", "ID", "Hostname", "Remote Address"].map String.toList)
    (sessions.enum.map fun x => [showInt x.1, x.2.ID, x.2.Hostname, x.2.RemoteAddress])] }
  promptLoop sessions stdin w2

/-- The choice of the target session in source `main`: the prompt when there are
several sessions, element 0 of the list otherwise. -/
def selectSession (sessions : List Session) (stdin : List Str) (w : World) : Outcome Session :=
  if sessions.length > 1 then handleMultipleSessions sessions stdin w
  else
    match sessions with
    | [] => Outcome.crash w
    | session :: _ => Outcome.done session w

/-- A statement guarded by source `binExists`. -/
def whenBinExists (rpc : Remote) (path : Str) (body : Step) : Step :=
  fun w => (binExists rpc path w).andThen fun found w1 =>
    if found then body w1 else Outcome.done () w1

/-- A statement guarded by `targetSession.GID == "0"`. -/
def whenRoot (targetSession : Session) (body : Step) : Step :=
  fun w => if targetSession.GID = ['0'] then body w else Outcome.done () w

/-- A control file is fetched with `view` on, read back from the mirror and
interpreted. -/
def checkControlFile (env : Local) (rpc : Remote) (fileTag path : Str)
    (interpret : Str → Step) : Step :=
  seq [border ("Checking: ".toList ++ path),
    downloadFile env rpc path fileTag true true,
    fun w => interpret (readFileAsString w.fs (fileTag ++ path)).1 w]

/-- The statements of source `main` once the target session is chosen. -/
def survey (env : Local) (rpc : Remote) (targetSession : Session) : List Step :=
  let fileTag := targetSession.RemoteAddress
  let fetch := fun (path : String) => downloadFile env rpc path.toList fileTag true false
  [ getInfo targetSession,
    border "System Info".toList,
    whenBinExists rpc "/usr/bin/uptime".toList (seq [
      say (Bold ++ "Uptime:".toList ++ Normal),
      executeBinary rpc "/usr/bin/uptime".toList [] true]),
    whenBinExists rpc "/usr/bin/cat".toList (seq [
      say (Bold ++ "Distro:".toList ++ Normal),
      executeBinary rpc "/usr/bin/cat".toList ["/etc/os-release".toList] true]),
    whenBinExists rpc "/usr/bin/uname".toList (seq [
      say (Bold ++ "Kernel Release:".toList ++ Normal),
      executeBinary rpc "/usr/bin/uname".toList ["-r".toList] true,
      say (Bold ++ "Arch:".toList ++ Normal),
      executeBinary rpc "/usr/bin/uname".toList ["-m".toList] true]),
    whenBinExists rpc "/usr/bin/grep".toList (seq [
      say (Bold ++ "System Memory".toList ++ Normal),
      executeBinary rpc "/usr/bin/grep".toList
        ["-E".toList, "MemTotal|MemAvailable|MemFree".toList, "/proc/meminfo".toList] true]),
    processList rpc,
    getConnections targetSession rpc,
    listDirectory env rpc ['/'],
    whenRoot targetSession (listDirectory env rpc "/root".toList),
    border "Grabbing files /etc/".toList,
    fetch "/etc/passwd",
    fetch "/etc/hosts",
    fetch "/etc/os-release",
    fetch "/etc/hosts.allow",
    fetch "/etc/hosts.deny",
    fetch "/etc/rsyslog.conf",
    fetch "/etc/ssh/sshd_config",
    fetch "/etc/crontab",
    fetch "/etc/hostname",
    whenRoot targetSession (seq [fetch "/etc/shadow", fetch "/etc/sudoers"]),
    border "Grabbing history files".toList,
    findHistoriesUser env rpc fileTag "/home".toList,
    whenRoot targetSession (findHistoriesRoot env rpc fileTag "/root".toList),
    getEctConf env rpc fileTag,
    getSystemdConf env rpc fileTag,
    getLibSystemdSystem env rpc fileTag,
    border "Interfaces".toList,
    getInterfaces rpc,
    border "Arp".toList,
    executeBinary rpc "/usr/bin/cat".toList ["/proc/net/arp".toList] true,
    border "Routing Table".toList,
    executeBinary rpc "/usr/sbin/route".toList ["-n".toList] true,
    checkControlFile env rpc fileTag "/proc/sys/kernel/yama/ptrace_scope".toList
      (fun ptraceScope => say (resolvePtrace ptraceScope)),
    checkControlFile env rpc fileTag "/proc/sys/kernel/tainted".toList
      (fun taintedValue => taintScript env taintedValue),
    checkControlFile env rpc fileTag "/proc/sys/kernel/unprivileged_bpf_disabled".toList
      (fun bpfValue => say (resolveBpf bpfValue)) ]

/-- Source `main`.  `connection` is the result of source `makeConnection`: the
error of the connection attempt, or the session list returned by the server (nil
when the request for it failed). -/
def main (env : Local) (rpc : Remote) (configPath : Str)
    (connection : Except Str (Option (List Session))) (stdin : List Str) (w : World) :
    Outcome Unit :=
  if configPath = [] then
    Outcome.fatal (println "[!] Specify a client config to load".toList w)
  else
    match connection with
    | Except.error e => Outcome.fatal (println e w)
    | Except.ok none =>
      Outcome.crash (println "[!] Failed to get sessions".toList
        (println "[*] Connected to sliver server".toList w))
    | Except.ok (some sessions) =>
      (selectSession sessions stdin (println "[*] Connected to sliver server".toList w)).andThen
        fun targetSession w1 => seq (survey env rpc targetSession) w1

/-! ## Vocabulary of the properties -/

/-- The bytes of an ASCII text. -/
def ascii (s : String) : Bytes := s.toList.map fun c => c.toNat.toUInt8

/-- The regular files of a file system, with their contents. -/
def FS.files (fs : FS) : List (Loc × Bytes) :=
  fs.nodes.filterMap fun x =>
    match x.2 with
    | Node.file c => some (x.1, c)
    | Node.dir => none

/-- The directories of a file system. -/
def FS.dirs (fs : FS) : List Loc :=
  fs.nodes.filterMap fun x =>
    match x.2 with
    | Node.file _ => none
    | Node.dir => some x.1

/-- A printed item is the `Unexpected error` diagnostic of source `downloadFile`. -/
def isUnexpected (p : Printed) : Prop :=
  match p with
  | Printed.text s => "[!] Unexpected error:".toList <+: s
  | _ => False

/-- A printed item is the `No such file or directory` diagnostic of source `downloadFile`. -/
def isNotFound (p : Printed) : Prop :=
  match p with
  | Printed.text s => "[!] No such file or directory:".toList <+: s
  | _ => False

/-- A printed item is neither of the two diagnostics for the error of the rpc call. -/
def isOther (p : Printed) : Prop :=
  ¬ isUnexpected p ∧ ¬ isNotFound p

/-- The lines source `downloadFile` prints for the error of the rpc call. -/
def errorLines (err : Option Str) (path : Str) : List Printed :=
  (reportError err path ⟨⟨[], []⟩, [], []⟩).out

/-! ## Concrete runs used by the properties -/

/-- A local environment: the payloads decompress to "0" and a newline. -/
def sampleLocal : Local :=
  ⟨fun _ => GzipResult.ok (ascii "0\n"), fun _ => some [], fun _ => "0 B".toList⟩

/-- A session of an unprivileged user. -/
def userSession : Session :=
  ⟨"1f".toList, "implant".toList, "host".toList, "alice".toList, "1000".toList,
    "1000".toList, 4242, "10.0.0.5:4444".toList⟩

/-- A remote side that answers every request without error, with empty listings and
absent files. -/
def quietRemote : Remote where
  Ls := fun _ p => ⟨some ⟨p, [], none⟩, none⟩
  Download := fun _ _ => ⟨some ⟨false, [], []⟩, none⟩
  Execute := fun _ _ _ => ⟨some ⟨0, [], []⟩, none⟩
  Ps := fun _ => ⟨some [], none⟩
  Netstat := fun _ => ⟨some [], none⟩
  Ifconfig := fun _ => ⟨some [], none⟩

/-- The quiet remote side, except that the listing of "/home" carries an error. -/
def remoteWithoutHome : Remote :=
  { quietRemote with
    Ls := fun _ p =>
      if p = "/home".toList then ⟨some ⟨p, [], some "open /home: no such file or directory".toList⟩, none⟩
      else ⟨some ⟨p, [], none⟩, none⟩ }

/-- The quiet remote side, except that the listing of "/etc/*.conf" names an entry
"shadow". -/
def remoteNamingShadow : Remote :=
  { quietRemote with
    Ls := fun _ p =>
      if p = "/etc/*.conf".toList then ⟨some ⟨p, [⟨"shadow".toList, false, 1024, 0, "-rw-r-----".toList⟩], none⟩, none⟩
      else ⟨some ⟨p, [], none⟩, none⟩ }

/-- A session of the super-user. -/
def rootSession : Session :=
  ⟨"2a".toList, "implant".toList, "host".toList, "root".toList, "0".toList,
    "0".toList, 4242, "10.0.0.5:4444".toList⟩

/-- The quiet remote side, except that the listing of "/usr/bin/uptime" carries an
error. -/
def remoteWithoutUptime : Remote :=
  { quietRemote with
    Ls := fun _ p =>
      if p = "/usr/bin/uptime".toList then
        ⟨some ⟨p, [], some "open /usr/bin/uptime: no such file or directory".toList⟩, none⟩
      else ⟨some ⟨p, [], none⟩, none⟩ }

/-- The requests that source `main` guards by `targetSession.GID == "0"`: the listing
of "/root" and the downloads of "/etc/shadow" and "/etc/sudoers". -/
def gated (r : Request) : Prop :=
  r = Request.Ls "/root".toList ∨ r = Request.Download "/etc/shadow".toList ∨
    r = Request.Download "/etc/sudoers".toList

/-- From the state `w` the call sends requests that all satisfy `Q`, and keeps the
requests sent before. -/
def Sends {α : Type} (Q : Request → Prop) (w : World) (o : Outcome α) : Prop :=
  ∃ new, o.world.requests = w.requests ++ new ∧ ∀ r ∈ new, Q r

/-- The file system `fs1` keeps every node of `fs`: directories stay directories,
files stay files (their content may differ), and the working directory is the
same. -/
def Ext (fs fs1 : FS) : Prop :=
  fs1.cwd = fs.cwd ∧
  (∀ p, fs.find p = some Node.dir → fs1.find p = some Node.dir) ∧
  (∀ p c, fs.find p = some (Node.file c) → ∃ c1, fs1.find p = some (Node.file c1))

/-- The file systems `fs` and `fs1` have the same directories. -/
def SameDirs (fs fs1 : FS) : Prop :=
  fs1.cwd = fs.cwd ∧ ∀ p, fs1.find p = some Node.dir → fs.find p = some Node.dir

/-- A printed item reports an error: a line that starts with "[!] " or "Error ". -/
def isError (p : Printed) : Prop :=
  match p with
  | Printed.text s => "[!] ".toList <+: s ∨ "Error ".toList <+: s
  | _ => False

/-- The statements of source `downloadFile` that follow the call of `rebuildDirs`:
what is done with the response in the state `w3` that `rebuildDirs` left. -/
def storeReply (inflate : Bytes → GzipResult) (download : Option Download)
    (path fileTag : Str) (quiet view : Bool) (w3 : World) : Outcome Unit :=
  match download with
  | none => Outcome.done () w3
  | some download =>
    if download.Exists then
      if download.Encoder = "gzip".toList then
        match gunzip inflate download.Data with
        | GzipResult.readerErr msg =>
          Outcome.done () (println ("[!] Error creating gzip reader: ".toList ++ msg) w3)
        | GzipResult.copyErr msg =>
          Outcome.done () (println ("[!] Error decompressing data: ".toList ++ msg) w3)
        | GzipResult.ok decompressedData =>
          match OpenFileCreateWronly w3.fs (fullPath fileTag path) with
          | Except.error e =>
            Outcome.done () (println ("[!] Error creating file: ".toList ++
              pathError "open".toList (fullPath fileTag path) e) w3)
          | Except.ok (fs1, file) =>
            let w4 := { w3 with fs := WriteString fs1 file decompressedData }
            let w5 := if !quiet then println ("[*] Download Successful: ".toList ++ path) w4 else w4
            if view then viewFile (fullPath fileTag path) w5 else Outcome.done () w5
      else Outcome.done () w3
    else Outcome.done () w3

/-- The state of source `downloadFile` before `rebuildDirs` is called: the banner
and the diagnostics for the error of the rpc call are printed. -/
def announce (err : Option Str) (path : Str) (quiet : Bool) (w : World) : World :=
  reportError err path
    (if !quiet then makeBorder ("Download Request: ".toList ++ path) w else w)

/-- A printed item is the diagnostic of source `rebuildDirs` for a directory that
cannot be made. -/
def isDirectoryError (p : Printed) : Prop :=
  match p with
  | Printed.text s => "Error creating directory:".toList <+: s
  | _ => False

/-- The map literal `bpfValues` of source `resolveBpf`, as the list of its entries. -/
def bpfValues : List (Int × Str) :=
  [(0, "Unrestricted access -> Unprivileged users (non-root) are allowed to load BPF programs and maps without restrictions".toList),
   (1, "BPF is restricted for unprivileged users -> Unprivileged users are completely prohibited from loading BPF programs or creating BPF maps".toList),
   (2, "Permanently disable unprivileged BPF -> Unprivileged BPF usage is permanently disabled".toList)]

/-- The map literal `ptraceValues` of source `resolvePtrace`, as the list of its entries. -/
def ptraceValues : List (Int × Str) :=
  [(0, "No restrictions -> Any process can attach to another process that it has the appropriate permissions for".toList),
   (1, "Restricted to parent processes -> Process can attach to its child processes".toList),
   (2, "Admin-only debugging -> Normal users cannot use ptrace, even on their own child processes, unless explicitly granted the capability".toList),
   (3, "No ptrace -> This is suitable for systems where debugging and process introspection are entirely unnecessary or prohibited".toList)]

/-- The loop `for key, value := range m` of source `resolveBpf` and `resolvePtrace`,
the entries of the map visited in the order `order`: the value of the first entry
whose key is the wanted one, "Value not found" after the last entry. -/
def rangeLookup : List (Int × Str) → Int → Str
  | [], _ => "Value not found".toList
  | (key, value) :: rest, wanted => if key = wanted then value else rangeLookup rest wanted

/-- Source `resolveBpf` when the run time visits the map in the order `order`. -/
def resolveBpfIn (order : List (Int × Str)) (bpfValue : Str) : Str :=
  rangeLookup order (Atoi bpfValue).1

/-- Source `resolvePtrace` when the run time visits the map in the order `order`. -/
def resolvePtraceIn (order : List (Int × Str)) (ptraceValue : Str) : Str :=
  rangeLookup order (Atoi ptraceValue).1

/-- The directories the description of `rebuildDirs` names for a tag and the
segments s0 .. s(n-1) of a path: tag/s0, tag/s0/s1, ..., tag/s0/.../s(n-2), the
tag joined to the first i + 1 segments for every i below n - 1. -/
def mirrorDirs (fileTag : Str) (segments : List Str) : List Str :=
  (List.range (segments.length - 1)).map fun i => Join (fileTag :: segments.take (i + 1)) ['/']

/-- A directory is ensured: it is created when `Stat` says that it does not exist,
and left alone otherwise.  The result is the file system after the step, or the
error of the creation that failed. -/
def ensureDir (fs : FS) (dir : Str) : Except Errno FS :=
  if IsNotExist (Stat fs dir) then Mkdir fs dir else Except.ok fs

/-- Directories are ensured one after the other, in the order of the list; after
the first creation that fails nothing more is done. -/
def ensureAll : List Str → FS → FS
  | [], fs => fs
  | dir :: rest, fs =>
    match ensureDir fs dir with
    | Except.error _ => fs
    | Except.ok fs1 => ensureAll rest fs1

/-- The first statements of source `rebuildDirs`: the tag directory is ensured and
the result of its creation is not looked at. -/
def ensureTag (fs : FS) (fileTag : Str) : FS :=
  match ensureDir fs fileTag with
  | Except.error _ => fs
  | Except.ok fs1 => fs1

/-- The entries of the listing the remote side returns for `path` after the
requests `history` (none when it returns no listing). -/
def listed (rpc : Remote) (history : List Request) (path : Str) : List FileInfo :=
  match (rpc.Ls history path).ls with
  | some ls => ls.Files
  | none => []

/-- The listing request for `path` after the requests `history` is answered with a
listing and without error text, so that source `rawListDirectory` returns it. -/
def listingReturned (rpc : Remote) (history : List Request) (path : Str) : Prop :=
  ∃ ls, (rpc.Ls history path).ls = some ls ∧ (ls.Response = none ∨ ls.Response = some [])

/-- The requests that the description of the history sweep names for the users
`users` of the "/home" listing, after the requests `history`: for each user in
turn the listing of "/home/<u>", then one download "/home/<u>/<n>" for every entry
of that listing whose name `n` is one of the history-file names, in listing
order. -/
def historyRequests (rpc : Remote) : List Str → List Request → List Request
  | [], _ => []
  | u :: rest, history =>
    let home := "/home/".toList ++ u
    let new := Request.Ls home ::
      ((listed rpc history home).filter fun fi => decide (fi.Name ∈ histFiles)).map
        fun fi => Request.Download (home ++ ['/'] ++ fi.Name)
    new ++ historyRequests rpc rest (history ++ new)

/-- The downloads that the description of the three directory sweeps names for a
listing: one download "<dir>/<name>" for every entry that is not a directory, in
listing order. -/
def sweepDownloads (dir : Str) (files : List FileInfo) : List Request :=
  (files.filter fun fi => !fi.IsDir).map fun fi => Request.Download (dir ++ ['/'] ++ fi.Name)

/-- A remote side with one user: "/home" lists the directory `user`, "/home/<user>"
lists ".bash_history" and "notes.txt", every other listing fails as on a machine
where the path does not exist, and no file is there to download. -/
def homeRemote (user : Str) : Remote :=
  { quietRemote with
    Ls := fun _ p =>
      if p = "/home".toList then
        ⟨some ⟨p, [⟨user, true, 4096, 0, "drwxr-x---".toList⟩], none⟩, none⟩
      else if p = "/home/".toList ++ user then
        ⟨some ⟨p, [⟨".bash_history".toList, false, 120, 0, "-rw-------".toList⟩,
          ⟨"notes.txt".toList, false, 12, 0, "-rw-r--r--".toList⟩], none⟩, none⟩
      else ⟨some ⟨p, [], some "no such file or directory".toList⟩, none⟩ }

/-- A remote side on which every listing holds the entries `files`. -/
def remoteListing (files : List FileInfo) : Remote :=
  { quietRemote with Ls := fun _ p => ⟨some ⟨p, files, none⟩, none⟩ }

/-- The deepest directory the description of `rebuildDirs` names for a tag and a
path: the last of tag/s0, ..., tag/s0/.../s(n-2), and the tag itself when the
path has no "/". -/
def deepestDir (fileTag path : Str) : Str :=
  (mirrorDirs fileTag (Split '/' path)).getLastD fileTag

/-- The last segment of a path split on "/". -/
def lastSegment (path : Str) : Str :=
  (Split '/' path).getLastD []

/-- The cell of a table row that stands under the header cell `name`: the cell at
the position of the first header cell with that text. -/
def cellUnder : List Str → List Str → Str → Option Str
  | h :: header, c :: row, name => if h = name then some c else cellUnder header row name
  | _, _, _ => none

/-- A process as the remote side reports it: "sshd" with PID 812, started by
PID 1. -/
def sampleProcess : Process :=
  ⟨812, 1, "root".toList, "sshd".toList, ["/usr/sbin/sshd".toList, "-D".toList]⟩

/-- A connection table with a listening socket whose process the implant could not
read (no process attached), between a socket of `sampleProcess` and the socket of
the implant itself (PID 4242, the PID of `userSession`). -/
def entriesWithBareSocket : List SockTabEntry :=
  [⟨⟨"10.0.0.5".toList, 22⟩, ⟨"10.0.0.9".toList, 50122⟩, "ESTABLISHED".toList, "tcp".toList,
      some sampleProcess⟩,
   ⟨⟨"0.0.0.0".toList, 631⟩, ⟨"0.0.0.0".toList, 0⟩, "LISTEN".toList, "tcp".toList, none⟩,
   ⟨⟨"10.0.0.5".toList, 4444⟩, ⟨"10.0.0.1".toList, 8888⟩, "ESTABLISHED".toList, "tcp".toList,
      some ⟨4242, 1, "alice".toList, "implant".toList, []⟩⟩]

/-- The quiet remote side, except that the connection table is
`entriesWithBareSocket`. -/
def remoteWithBareSocket : Remote :=
  { quietRemote with Netstat := fun _ => ⟨some entriesWithBareSocket, none⟩ }


/-- The quiet remote side, except that the process list holds `sampleProcess`. -/
def remoteWithProcess : Remote :=
  { quietRemote with Ps := fun _ => ⟨some [sampleProcess], none⟩ }

/-! # Proofs -/

/-! ## `Sprintf` without operand -/

theorem doPrintf_plain (s : Str) : ∀ fuel, s.length < fuel → '%' ∉ s → doPrintf fuel s = s := by
  induction s with
  | nil => intro fuel _ _; cases fuel <;> rfl
  | cons c cs ih =>
    intro fuel hlen hno
    cases fuel with
    | zero => simp at hlen
    | succ n =>
      have hc : c ≠ '%' := fun h => hno (by simp [h])
      have hcs : '%' ∉ cs := fun h => hno (by simp [h])
      simp only [doPrintf, if_neg hc]
      rw [ih n (by simpa using hlen) hcs]

theorem Sprintf_plain (s : Str) (h : '%' ∉ s) : Sprintf s = s :=
  doPrintf_plain s _ (Nat.lt_succ_self _) h

/-! ## Files are touched by the write only -/

theorem store_dir_files (p : Loc) (nodes : Nodes) (h : lookup p nodes = none) :
    (FS.mk c (store p Node.dir nodes)).files = (FS.mk c nodes).files := by
  induction nodes with
  | nil => simp [store, FS.files]
  | cons x rest ih =>
    obtain ⟨q, m⟩ := x
    by_cases hq : q = p
    · simp [lookup, hq] at h
    · simp only [lookup, if_neg hq] at h
      have := ih h
      simp only [FS.files] at this ⊢
      simp [store, hq, List.filterMap_cons, this]

theorem Mkdir_files (fs fs1 : FS) (name : Str) (h : Mkdir fs name = Except.ok fs1) :
    fs1.files = fs.files := by
  unfold Mkdir at h
  split at h
  · cases h
  · cases h
  · split at h
    · cases h
    · split at h
      · cases h
      · rename_i par last _ _ _ hfind
        cases h
        have hl : lookup (par ++ [last]) fs.nodes = none := by
          unfold FS.find at hfind
          split at hfind
          · cases hfind
          · exact hfind
        exact store_dir_files _ _ hl

theorem println_fs (s : Str) (w : World) : (println s w).fs = w.fs := rfl

theorem makeBorder_fs (h : Str) (w : World) : (makeBorder h w).fs = w.fs := rfl

theorem reportError_fs (err : Option Str) (path : Str) (w : World) :
    (reportError err path w).fs = w.fs := by
  unfold reportError
  split
  · rfl
  · split
    · simp only []
      split <;> rfl
    · rfl

theorem rebuildLoop_files (parts : List Str) :
    ∀ (track : List Str) (w : World), (rebuildLoop track parts w).fs.files = w.fs.files := by
  induction parts with
  | nil => intro track w; rfl
  | cons line rest ih =>
    intro track w
    cases rest with
    | nil => rfl
    | cons next rest1 =>
      simp only [rebuildLoop]
      split
      · split
        · rfl
        · rename_i fs1 hmk
          rw [ih]
          exact Mkdir_files _ _ _ hmk
      · exact ih _ _

theorem rebuildDirs_files (path fileTag : Str) (w : World) :
    (rebuildDirs path fileTag w).fs.files = w.fs.files := by
  unfold rebuildDirs
  simp only []
  rw [rebuildLoop_files]
  split
  · split
    · rfl
    · rename_i fs1 hmk
      exact Mkdir_files _ _ _ hmk
  · rfl

/-- The files after the directories are rebuilt are the files before the call. -/
theorem prepared_files (err : Option Str) (path fileTag : Str) (quiet : Bool) (w : World) :
    (rebuildDirs path fileTag (reportError err path
      (if !quiet then makeBorder ("Download Request: ".toList ++ path) w else w))).fs.files
      = w.fs.files := by
  rw [rebuildDirs_files, reportError_fs]
  cases quiet <;> rfl

/-! ## C1 -/

/-- C1 (counterexample): for tag "10.0.0.5:4444" and path "/etc/passwd" the local
path opened is "10.0.0.5:4444//etc/passwd", which is not the tag followed by the
path. -/
theorem C1_separator_inserted :
    fullPath "10.0.0.5:4444".toList "/etc/passwd".toList = "10.0.0.5:4444//etc/passwd".toList ∧
    fullPath "10.0.0.5:4444".toList "/etc/passwd".toList ≠
      "10.0.0.5:4444".toList ++ "/etc/passwd".toList := by
  decide

/-! ## C2 -/

/-- C2 (the code at the failing input): the mirror holds "abcdef" at
`t/etc/passwd`, the payload decompresses to "xy"; after the successful write the
file holds "xycdef": four bytes of the old content survive. -/
theorem C2_old_bytes_survive :
    lookup ["t".toList, "etc".toList, "passwd".toList]
      (downloadReply (fun _ => GzipResult.ok (ascii "xy"))
        ⟨some ⟨true, "gzip".toList, [0x1f, 0x8b, 8, 0, 0, 0, 0, 0, 0, 3, 0]⟩, none⟩
        "/etc/passwd".toList "t".toList true false
        ⟨⟨[], [(["t".toList], Node.dir), (["t".toList, "etc".toList], Node.dir),
          (["t".toList, "etc".toList, "passwd".toList], Node.file (ascii "abcdef"))]⟩,
          [], []⟩).world.fs.nodes
      = some (Node.file (ascii "xycdef")) := by
  decide

/-! ## C4, C5 -/

/-- C4: for every response with exists = true and an encoder tag other than "gzip"
(the empty tag included), `downloadFile` leaves the local files as they were: none
is created, none is modified. -/
theorem C4_other_encoding_writes_nothing (inflate : Bytes → GzipResult) (download : Download)
    (err : Option Str) (path fileTag : Str) (quiet view : Bool) (w : World)
    (hex : download.Exists = true) (henc : download.Encoder ≠ "gzip".toList) :
    (downloadReply inflate ⟨some download, err⟩ path fileTag quiet view w).world.fs.files
      = w.fs.files := by
  simp only [downloadReply, hex, if_true, if_neg henc, Outcome.world]
  exact prepared_files err path fileTag quiet w

/-- C4 (witness): a response with the empty encoder tag. -/
theorem C4_other_encoding_writes_nothing_witness :
    (downloadReply (fun _ => GzipResult.ok (ascii "xy")) ⟨some ⟨true, [], ascii "raw"⟩, none⟩
      "/etc/passwd".toList "t".toList true false ⟨⟨[], []⟩, [], []⟩).world.fs.files
      = (FS.mk [] []).files :=
  C4_other_encoding_writes_nothing _ ⟨true, [], ascii "raw"⟩ none _ _ true false
    ⟨⟨[], []⟩, [], []⟩ rfl (by decide)

/-- C5: for every response with exists = false, and for every fetch that returns
no response, `downloadFile` leaves the local files as they were. -/
theorem C5_absent_writes_nothing (inflate : Bytes → GzipResult) (reply : DownloadReply)
    (path fileTag : Str) (quiet view : Bool) (w : World)
    (h : ∀ d, reply.download = some d → d.Exists = false) :
    (downloadReply inflate reply path fileTag quiet view w).world.fs.files = w.fs.files := by
  unfold downloadReply
  simp only []
  split
  · exact prepared_files reply.err path fileTag quiet w
  · rename_i d hd
    have hf := h d hd
    simp only [hf, Bool.false_eq_true, if_false, Outcome.world]
    exact prepared_files reply.err path fileTag quiet w

/-- C5 (witness): a response with exists = false, and a fetch without response. -/
theorem C5_absent_writes_nothing_witness :
    (downloadReply (fun _ => GzipResult.ok (ascii "xy")) ⟨some ⟨false, [], []⟩, none⟩
      "/etc/passwd".toList "t".toList true false ⟨⟨[], []⟩, [], []⟩).world.fs.files
      = (FS.mk [] []).files :=
  C5_absent_writes_nothing _ ⟨some ⟨false, [], []⟩, none⟩ _ _ true false ⟨⟨[], []⟩, [], []⟩
    (by intro d hd; cases hd; rfl)

/-! ## What `downloadFile` prints -/

theorem reportError_out (err : Option Str) (path : Str) (w : World) :
    (reportError err path w).out = w.out ++ errorLines err path := by
  unfold errorLines reportError
  split
  · simp
  · split
    · simp only []
      split <;> simp [println]
    · simp

theorem reportError_requests (err : Option Str) (path : Str) (w : World) :
    (reportError err path w).requests = w.requests := by
  unfold reportError
  split
  · rfl
  · split
    · simp only []
      split <;> rfl
    · rfl

theorem rebuildLoop_out (parts : List Str) :
    ∀ (track : List Str) (w : World), ∃ extra,
      (rebuildLoop track parts w).out = w.out ++ extra ∧ ∀ p ∈ extra, isOther p := by
  induction parts with
  | nil => intro track w; exact ⟨[], by simp [rebuildLoop], by simp⟩
  | cons line rest ih =>
    intro track w
    cases rest with
    | nil => exact ⟨[], by simp [rebuildLoop], by simp⟩
    | cons next rest1 =>
      simp only [rebuildLoop]
      split
      · split
        · refine ⟨[Printed.text _], rfl, ?_⟩
          intro p hp
          simp only [List.mem_singleton] at hp
          subst hp
          simp [isOther, isUnexpected, isNotFound, String.toList]
        · exact ih _ _
      · exact ih _ _

theorem rebuildDirs_out (path fileTag : Str) (w : World) : ∃ extra,
    (rebuildDirs path fileTag w).out = w.out ++ extra ∧ ∀ p ∈ extra, isOther p := by
  unfold rebuildDirs
  simp only []
  obtain ⟨extra, h1, h2⟩ := rebuildLoop_out (Split '/' path) [fileTag]
    (if IsNotExist (Stat w.fs fileTag) = true then
      match Mkdir w.fs fileTag with
      | Except.error _ => w
      | Except.ok fs1 => { w with fs := fs1 }
    else w)
  refine ⟨extra, ?_, h2⟩
  rw [h1]
  congr 1
  split
  · split <;> rfl
  · rfl

theorem isOther_bytes (b : Bytes) : isOther (Printed.bytes b) := by
  simp [isOther, isUnexpected, isNotFound]

theorem isOther_literal_read (m : Str) :
    isOther (Printed.text ("[!] Error reading file: ".toList ++ m)) := by
  simp [isOther, isUnexpected, isNotFound, String.toList]

theorem isOther_literal_open (m : Str) :
    isOther (Printed.text ("[!] Error creating file: ".toList ++ m)) := by
  simp [isOther, isUnexpected, isNotFound, String.toList]

theorem viewFile_out (name : Str) (w : World) : ∃ extra,
    (viewFile name w).world.out = w.out ++ extra ∧ ∀ p ∈ extra, isOther p := by
  unfold viewFile
  split
  · rename_i e _
    refine ⟨[Printed.text ("[!] Error creating file: ".toList ++ pathError "open".toList name e)],
      rfl, ?_⟩
    intro p hp
    simp only [List.mem_singleton] at hp
    subst hp
    exact isOther_literal_open _
  · refine ⟨[Printed.text ("[!] Error reading file: ".toList ++
      pathError "read".toList name Errno.EISDIR)], rfl, ?_⟩
    intro p hp
    simp only [List.mem_singleton] at hp
    subst hp
    exact isOther_literal_read _
  · rename_i content _
    simp only []
    split
    · refine ⟨(scanLines [] content).1.map Printed.bytes ++
        [Printed.text ("[!] Error reading file: ".toList ++
          "bufio.Scanner: token too long".toList)], ?_, ?_⟩
      · simp [Outcome.world, println, String.toList]
      · intro p hp
        rcases List.mem_append.1 hp with hp | hp
        · obtain ⟨b, _, rfl⟩ := List.mem_map.1 hp
          exact isOther_bytes b
        · simp only [List.mem_singleton] at hp
          subst hp
          exact isOther_literal_read _
    · refine ⟨(scanLines [] content).1.map Printed.bytes, rfl, ?_⟩
      intro p hp
      obtain ⟨b, _, rfl⟩ := List.mem_map.1 hp
      exact isOther_bytes b

theorem isOther_literal_gzip (m : Str) :
    isOther (Printed.text ("[!] Error creating gzip reader: ".toList ++ m)) := by
  simp [isOther, isUnexpected, isNotFound, String.toList]

theorem isOther_literal_copy (m : Str) :
    isOther (Printed.text ("[!] Error decompressing data: ".toList ++ m)) := by
  simp [isOther, isUnexpected, isNotFound, String.toList]

theorem isOther_literal_done (m : Str) :
    isOther (Printed.text ("[*] Download Successful: ".toList ++ m)) := by
  simp [isOther, isUnexpected, isNotFound, String.toList]

theorem isOther_border (h : Str) : ∀ p ∈ [Printed.text (List.replicate 70 '='),
    Printed.text ("[*] ".toList ++ h), Printed.text (List.replicate 70 '=')], isOther p := by
  intro p hp
  simp only [List.mem_cons, List.mem_singleton, List.not_mem_nil, or_false] at hp
  rcases hp with rfl | rfl | rfl <;>
    simp [isOther, isUnexpected, isNotFound, String.toList, List.replicate]

/-- The output of `downloadFile`: what was printed before, the banner unless quiet,
the lines for the error of the rpc call, and lines that are neither of the two
error diagnostics. -/
theorem downloadReply_out (inflate : Bytes → GzipResult) (reply : DownloadReply)
    (path fileTag : Str) (quiet view : Bool) (w : World) : ∃ pre post,
    (downloadReply inflate reply path fileTag quiet view w).world.out
      = w.out ++ pre ++ errorLines reply.err path ++ post ∧
    (∀ p ∈ pre, isOther p) ∧ (∀ p ∈ post, isOther p) := by
  obtain ⟨pre, hpre, hpreO⟩ : ∃ pre,
      (if (!quiet) = true then makeBorder ("Download Request: ".toList ++ path) w else w).out
        = w.out ++ pre ∧ ∀ p ∈ pre, isOther p := by
    cases quiet
    · exact ⟨[Printed.text (List.replicate 70 '='),
        Printed.text ("[*] ".toList ++ ("Download Request: ".toList ++ path)),
        Printed.text (List.replicate 70 '=')], by simp [makeBorder, println], isOther_border _⟩
    · exact ⟨[], by simp, by simp⟩
  obtain ⟨dirs, hdirs, hdirsO⟩ := rebuildDirs_out path fileTag (reportError reply.err path
    (if (!quiet) = true then makeBorder ("Download Request: ".toList ++ path) w else w))
  rw [reportError_out, hpre] at hdirs
  have key : ∀ (o : Outcome Unit) (post : List Printed),
      o.world.out = (rebuildDirs path fileTag (reportError reply.err path
        (if (!quiet) = true then makeBorder ("Download Request: ".toList ++ path) w else w))).out
        ++ post → (∀ p ∈ post, isOther p) →
      ∃ pre post, o.world.out = w.out ++ pre ++ errorLines reply.err path ++ post ∧
        (∀ p ∈ pre, isOther p) ∧ (∀ p ∈ post, isOther p) := by
    intro o post ho hpost
    refine ⟨pre, dirs ++ post, ?_, hpreO, ?_⟩
    · rw [ho, hdirs]; simp
    · intro p hp
      rcases List.mem_append.1 hp with hp | hp
      · exact hdirsO p hp
      · exact hpost p hp
  unfold downloadReply
  simp only []
  split
  · exact key _ [] (by simp [Outcome.world]) (by simp)
  · split
    · split
      · split
        · exact key _ [Printed.text _] rfl
            (by intro p hp; simp only [List.mem_singleton] at hp; subst hp
                exact isOther_literal_gzip _)
        · exact key _ [Printed.text _] rfl
            (by intro p hp; simp only [List.mem_singleton] at hp; subst hp
                exact isOther_literal_copy _)
        · split
          · exact key _ [Printed.text _] rfl
              (by intro p hp; simp only [List.mem_singleton] at hp; subst hp
                  exact isOther_literal_open _)
          · rename_i data _ _ fs1 file _
            split
            · obtain ⟨extra, he, heO⟩ := viewFile_out (fullPath fileTag path)
                (if (!quiet) = true then
                  println ("[*] Download Successful: ".toList ++ path)
                    { (rebuildDirs path fileTag (reportError reply.err path
                        (if (!quiet) = true then
                          makeBorder ("Download Request: ".toList ++ path) w else w))) with
                      fs := WriteString fs1 file data }
                else
                    { (rebuildDirs path fileTag (reportError reply.err path
                        (if (!quiet) = true then
                          makeBorder ("Download Request: ".toList ++ path) w else w))) with
                      fs := WriteString fs1 file data })
              cases quiet
              · refine key _ ([Printed.text ("[*] Download Successful: ".toList ++ path)] ++ extra)
                  ?_ ?_
                · rw [he]; simp [println]
                · intro p hp
                  rcases List.mem_append.1 hp with hp | hp
                  · simp only [List.mem_singleton] at hp
                    subst hp
                    exact isOther_literal_done _
                  · exact heO p hp
              · exact key _ extra (by rw [he]; simp) heO
            · cases quiet
              · refine key _ [Printed.text ("[*] Download Successful: ".toList ++ path)] ?_ ?_
                · simp [Outcome.world, println]
                · intro p hp
                  simp only [List.mem_singleton] at hp
                  subst hp
                  exact isOther_literal_done _
              · exact key _ [] (by simp [Outcome.world]) (by simp)
      · exact key _ [] (by simp [Outcome.world]) (by simp)
    · exact key _ [] (by simp [Outcome.world]) (by simp)

/-! ## C6, C7 -/

theorem Split_of_not_mem (sep : Char) (s : Str) (h : sep ∉ s) : Split sep s = [s] := by
  induction s with
  | nil => rfl
  | cons c cs ih =>
    have hc : c ≠ sep := fun e => h (by simp [e])
    have hcs : sep ∉ cs := fun e => h (by simp [e])
    simp [Split, hc, ih hcs]

theorem Contains_of_pieces (msg : Str) (h : (Split ':' msg).length ≥ 3) :
    Contains msg ':' = true := by
  by_contra hc
  have hn : ':' ∉ msg := by
    intro hm
    apply hc
    simp [Contains, hm]
  rw [Split_of_not_mem _ _ hn] at h
  simp at h

/-- C6 (counterexample): the message "open /x: no such file or directory" contains
the marker, yet `downloadFile` prints the `Unexpected error` diagnostic for it and
no `No such file or directory` diagnostic. -/
theorem C6_marker_not_enough :
    "no such file or directory".toList <:+: "open /x: no such file or directory".toList ∧
    (downloadReply (fun _ => GzipResult.ok []) ⟨none, some "open /x: no such file or directory".toList⟩
      "/x".toList "t".toList true false ⟨⟨[], []⟩, [], []⟩).world.out
      = [Printed.text "[!] Unexpected error: [open /x  no such file or directory]".toList] :=
  ⟨⟨"open /x: ".toList, [], by decide⟩, by decide⟩

/-- C6 (amended): for every transport error whose message, split at ":", has at
least three pieces of which the third, with the white space around it removed, is
"no such file or directory", `downloadFile` prints "[!] No such file or directory:
<path>", and nothing else it prints in that call is an `Unexpected error`
diagnostic. -/
theorem C6_not_found_classified (inflate : Bytes → GzipResult) (download : Option Download)
    (msg path fileTag : Str) (quiet view : Bool) (w : World)
    (h3 : (Split ':' msg).length ≥ 3)
    (hm : TrimSpace ((Split ':' msg).getD 2 []) = "no such file or directory".toList) :
    ∃ pre post,
      (downloadReply inflate ⟨download, some msg⟩ path fileTag quiet view w).world.out
        = w.out ++ pre ++ [Printed.text ("[!] No such file or directory: ".toList ++ path)] ++ post ∧
      ∀ p ∈ pre ++ post, ¬ isUnexpected p := by
  obtain ⟨pre, post, hout, hpre, hpost⟩ :=
    downloadReply_out inflate ⟨download, some msg⟩ path fileTag quiet view w
  refine ⟨pre, post, ?_, ?_⟩
  · rw [hout]
    have : errorLines (some msg) path
        = [Printed.text ("[!] No such file or directory: ".toList ++ path)] := by
      simp only [errorLines, reportError, Contains_of_pieces msg h3, if_true]
      rw [if_pos ⟨h3, hm⟩]
      rfl
    rw [this]
  · intro p hp
    rcases List.mem_append.1 hp with hp | hp
    · exact (hpre p hp).1
    · exact (hpost p hp).1

/-- C6 (witness): the message of a sliver server for a missing file. -/
theorem C6_not_found_classified_witness :
    (Split ':' "rpc error: code = Unknown desc = open /x: no such file or directory".toList).length
      ≥ 3 ∧
    TrimSpace ((Split ':'
      "rpc error: code = Unknown desc = open /x: no such file or directory".toList).getD 2 [])
      = "no such file or directory".toList ∧
    ∃ pre post,
      (downloadReply (fun _ => GzipResult.ok []) ⟨none,
        some "rpc error: code = Unknown desc = open /x: no such file or directory".toList⟩
        "/x".toList "t".toList true false ⟨⟨[], []⟩, [], []⟩).world.out
        = [] ++ pre ++ [Printed.text ("[!] No such file or directory: ".toList ++ "/x".toList)]
          ++ post ∧
      ∀ p ∈ pre ++ post, ¬ isUnexpected p :=
  ⟨by decide, by decide,
    C6_not_found_classified _ none _ _ _ true false ⟨⟨[], []⟩, [], []⟩ (by decide) (by decide)⟩

/-- C7 (counterexample): for the transport error "context deadline exceeded", which
has no ":", `downloadFile` prints nothing at all. -/
theorem C7_error_without_colon_silent :
    (downloadReply (fun _ => GzipResult.ok []) ⟨none, some "context deadline exceeded".toList⟩
      "/x".toList "t".toList true false ⟨⟨[], []⟩, [], []⟩).world.out = [] := by
  decide

/-- C7 (amended): for every transport error whose message contains ":" and is not
classified as not found, `downloadFile` prints "[!] Unexpected error:" followed by
the pieces of the message between its colons. -/
theorem C7_unexpected_reported (inflate : Bytes → GzipResult) (download : Option Download)
    (msg path fileTag : Str) (quiet view : Bool) (w : World)
    (hc : Contains msg ':' = true)
    (hn : ¬ ((Split ':' msg).length ≥ 3 ∧
      TrimSpace ((Split ':' msg).getD 2 []) = "no such file or directory".toList)) :
    ∃ pre post,
      (downloadReply inflate ⟨download, some msg⟩ path fileTag quiet view w).world.out
        = w.out ++ pre ++
          [Printed.text ("[!] Unexpected error: ".toList ++ showStrings (Split ':' msg))] ++ post := by
  obtain ⟨pre, post, hout, _, _⟩ :=
    downloadReply_out inflate ⟨download, some msg⟩ path fileTag quiet view w
  refine ⟨pre, post, ?_⟩
  rw [hout]
  have : errorLines (some msg) path
      = [Printed.text ("[!] Unexpected error: ".toList ++ showStrings (Split ':' msg))] := by
    simp only [errorLines, reportError, hc, if_true]
    rw [if_neg hn]
    rfl
  rw [this]

/-- C7 (witness): a deadline error as the rpc layer words it. -/
theorem C7_unexpected_reported_witness :
    Contains "rpc error: code = DeadlineExceeded desc = context deadline exceeded".toList ':'
      = true ∧
    ∃ pre post,
      (downloadReply (fun _ => GzipResult.ok []) ⟨none,
        some "rpc error: code = DeadlineExceeded desc = context deadline exceeded".toList⟩
        "/x".toList "t".toList true false ⟨⟨[], []⟩, [], []⟩).world.out
        = [] ++ pre ++ [Printed.text ("[!] Unexpected error: ".toList ++ showStrings
            (Split ':' "rpc error: code = DeadlineExceeded desc = context deadline exceeded".toList))]
          ++ post :=
  ⟨by decide,
    C7_unexpected_reported _ none _ _ _ true false ⟨⟨[], []⟩, [], []⟩ (by decide) (by decide)⟩

/-! ## C8 -/

theorem scanLines_long_line (n : Nat) : ∀ cur : Bytes, cur.length < MaxScanTokenSize →
    MaxScanTokenSize ≤ cur.length + n → (scanLines cur (List.replicate n 97)).2 = true := by
  induction n with
  | zero => intro cur h1 h2; omega
  | succ k ih =>
    intro cur h1 h2
    have h10 : ¬ ((97 : UInt8) = 10) := by decide
    simp only [List.replicate_succ, scanLines, if_neg h10]
    by_cases hfull : cur.length + 1 ≥ MaxScanTokenSize
    · simp [hfull]
    · simp only [if_neg hfull]
      apply ih
      · simp; omega
      · simp; omega

/-- The view of a freshly mirrored control file, for any decompressed content. -/
theorem view_control_file (data : Bytes) :
    (downloadReply (fun _ => GzipResult.ok data)
      ⟨some ⟨true, "gzip".toList, [0x1f, 0x8b, 8, 0, 0, 0, 0, 0, 0, 3, 0]⟩, none⟩
      "/proc/sys/kernel/tainted".toList "10.0.0.5:4444".toList true true
      ⟨⟨[], []⟩, [], []⟩).returned
      = !(scanLines [] (data ++ List.drop data.length [])).2 := by
  show (if (scanLines [] (data ++ List.drop data.length [])).2 = true then _ else _ : Outcome Unit).returned = _
  cases (scanLines [] (data ++ List.drop data.length [])).2 <;> rfl

/-- C8 (the code at the failing input): `downloadFile` is called with `view` on for
"/proc/sys/kernel/tainted" and the payload decompresses to one line of 65536
bytes; the call does not return to its caller: the process ends in `log.Fatalf`. -/
theorem C8_view_scanner_error_is_fatal :
    (downloadReply (fun _ => GzipResult.ok (List.replicate 65536 97))
      ⟨some ⟨true, "gzip".toList, [0x1f, 0x8b, 8, 0, 0, 0, 0, 0, 0, 3, 0]⟩, none⟩
      "/proc/sys/kernel/tainted".toList "10.0.0.5:4444".toList true true
      ⟨⟨[], []⟩, [], []⟩).returned = false := by
  rw [view_control_file]
  simp only [List.drop_nil, List.append_nil]
  rw [scanLines_long_line 65536 [] (by decide) (by decide)]
  rfl

/-! ## C9 -/

set_option maxRecDepth 100000 in
/-- C9 (counterexample): the listing of "/home" carries an error; the run ends there:
it does not return, and neither the "/etc/*.conf" listing nor the fetch of the
first control file is ever requested. -/
theorem C9_failed_home_listing_stops_run :
    (main sampleLocal remoteWithoutHome "cfg".toList (Except.ok (some [userSession])) []
      ⟨⟨[], []⟩, [], []⟩).returned = false ∧
    Request.Ls "/home".toList ∈ (main sampleLocal remoteWithoutHome "cfg".toList
      (Except.ok (some [userSession])) [] ⟨⟨[], []⟩, [], []⟩).world.requests ∧
    Request.Ls "/etc/*.conf".toList ∉ (main sampleLocal remoteWithoutHome "cfg".toList
      (Except.ok (some [userSession])) [] ⟨⟨[], []⟩, [], []⟩).world.requests ∧
    Request.Download "/proc/sys/kernel/yama/ptrace_scope".toList ∉
      (main sampleLocal remoteWithoutHome "cfg".toList
        (Except.ok (some [userSession])) [] ⟨⟨[], []⟩, [], []⟩).world.requests := by
  decide


/-- C9 (amended): when a listing response carries a non-empty error string the
process ends at that listing (`log.Fatal`): the rest of the sweep that issued it
and every later statement of the run are not executed, and the listing is the last
request sent. -/
theorem C9_listing_error_ends_run (rpc : Remote) (path : Str) (w : World) (ls : Ls) (e : Str)
    (hls : (rpc.Ls w.requests path).ls = some ls) (hresp : ls.Response = some e) (he : e ≠ [])
    (k : List FileInfo → World → Outcome Unit) (later : List Step) :
    (seq ((fun w1 => (rawListDirectory rpc path w1).andThen k) :: later) w).returned = false ∧
    (seq ((fun w1 => (rawListDirectory rpc path w1).andThen k) :: later) w).world.requests
      = w.requests ++ [Request.Ls path] := by
  have h : rawListDirectory rpc path w = Outcome.fatal (println e
      (match (rpc.Ls w.requests path).err with
        | some m => println m { w with requests := w.requests ++ [Request.Ls path] }
        | none => { w with requests := w.requests ++ [Request.Ls path] })) := by
    unfold rawListDirectory
    simp only [hls, hresp, ne_eq, he, not_false_eq_true, if_true]
  simp only [seq, h, Outcome.andThen, Outcome.returned, Outcome.world, true_and]
  cases (rpc.Ls w.requests path).err <;> rfl

/-- C9 (witness): the history sweep on a remote side whose "/home" listing fails,
followed by the "/etc/*.conf" sweep. -/
theorem C9_listing_error_ends_run_witness :
    (seq [findHistoriesUser sampleLocal remoteWithoutHome "10.0.0.5:4444".toList "/home".toList,
      getEctConf sampleLocal remoteWithoutHome "10.0.0.5:4444".toList]
      ⟨⟨[], []⟩, [], []⟩).returned = false ∧
    (seq [findHistoriesUser sampleLocal remoteWithoutHome "10.0.0.5:4444".toList "/home".toList,
      getEctConf sampleLocal remoteWithoutHome "10.0.0.5:4444".toList]
      ⟨⟨[], []⟩, [], []⟩).world.requests = [] ++ [Request.Ls "/home".toList] :=
  C9_listing_error_ends_run remoteWithoutHome "/home".toList ⟨⟨[], []⟩, [], []⟩
    ⟨"/home".toList, [], some "open /home: no such file or directory".toList⟩
    "open /home: no such file or directory".toList rfl rfl (by decide) _ _

/-! ## The requests of a run -/

theorem Sends.same {α : Type} {Q : Request → Prop} {w : World} {o : Outcome α}
    (h : o.world.requests = w.requests) : Sends Q w o :=
  ⟨[], by simp [h], by simp⟩

theorem Sends.one {α : Type} {Q : Request → Prop} {w : World} {o : Outcome α} (r : Request)
    (h : o.world.requests = w.requests ++ [r]) (hr : Q r) : Sends Q w o :=
  ⟨[r], h, by simpa using hr⟩

theorem Sends.andThen {α β : Type} {Q : Request → Prop} {w : World} {o : Outcome α}
    {f : α → World → Outcome β} (h1 : Sends Q w o)
    (h2 : ∀ a w1, o = Outcome.done a w1 → Sends Q w1 (f a w1)) : Sends Q w (o.andThen f) := by
  cases o with
  | done a w1 =>
    obtain ⟨n1, e1, q1⟩ := h1
    obtain ⟨n2, e2, q2⟩ := h2 a w1 rfl
    refine ⟨n1 ++ n2, ?_, ?_⟩
    · simp only [Outcome.andThen]
      rw [e2]
      simp only [Outcome.world] at e1
      rw [e1, List.append_assoc]
    · intro r hr
      rcases List.mem_append.1 hr with hr | hr
      · exact q1 r hr
      · exact q2 r hr
  | fatal w1 => exact h1
  | crash w1 => exact h1
  | hang w1 => exact h1

theorem Sends.seq {Q : Request → Prop} (steps : List Step)
    (h : ∀ s ∈ steps, ∀ w, Sends Q w (s w)) : ∀ w, Sends Q w (seq steps w) := by
  induction steps with
  | nil => intro w; exact Sends.same rfl
  | cons s rest ih =>
    intro w
    simp only [Survey.seq]
    apply Sends.andThen (h s (List.mem_cons_self _ _) w)
    intro _ w1 _
    exact ih (fun t ht => h t (List.mem_cons_of_mem _ ht)) w1

theorem Sends.forEach {α : Type} {Q : Request → Prop} (xs : List α) (body : α → Step)
    (h : ∀ x ∈ xs, ∀ w, Sends Q w (body x w)) : ∀ w, Sends Q w (forEach xs body w) := by
  apply Sends.seq
  intro s hs
  obtain ⟨x, hx, rfl⟩ := List.mem_map.1 hs
  exact h x hx

theorem rebuildLoop_requests (parts : List Str) :
    ∀ (track : List Str) (w : World), (rebuildLoop track parts w).requests = w.requests := by
  induction parts with
  | nil => intro track w; rfl
  | cons line rest ih =>
    intro track w
    cases rest with
    | nil => rfl
    | cons next rest1 =>
      simp only [rebuildLoop]
      split
      · split
        · rfl
        · rw [ih]
      · exact ih _ _

theorem rebuildDirs_requests (path fileTag : Str) (w : World) :
    (rebuildDirs path fileTag w).requests = w.requests := by
  unfold rebuildDirs
  simp only []
  rw [rebuildLoop_requests]
  split
  · split <;> rfl
  · rfl

theorem viewFile_requests (name : Str) (w : World) :
    (viewFile name w).world.requests = w.requests := by
  unfold viewFile
  split
  · rfl
  · rfl
  · simp only []
    split <;> rfl

theorem downloadReply_requests (inflate : Bytes → GzipResult) (reply : DownloadReply)
    (path fileTag : Str) (quiet view : Bool) (w : World) :
    (downloadReply inflate reply path fileTag quiet view w).world.requests = w.requests := by
  have h3 : (rebuildDirs path fileTag (reportError reply.err path
      (if (!quiet) = true then makeBorder ("Download Request: ".toList ++ path) w else w))).requests
      = w.requests := by
    rw [rebuildDirs_requests, reportError_requests]
    cases quiet <;> rfl
  unfold downloadReply
  simp only []
  split
  · exact h3
  · split
    · split
      · split
        · exact h3
        · exact h3
        · split
          · exact h3
          · split
            · rw [viewFile_requests]
              cases quiet <;> exact h3
            · cases quiet <;> exact h3
      · exact h3
    · exact h3

theorem downloadFile_sends {Q : Request → Prop} (env : Local) (rpc : Remote)
    (path fileTag : Str) (quiet view : Bool) (hQ : Q (Request.Download path)) (w : World) :
    Sends Q w (downloadFile env rpc path fileTag quiet view w) := by
  apply Sends.one (Request.Download path) _ hQ
  unfold downloadFile
  rw [downloadReply_requests]

theorem rawListDirectory_requests (rpc : Remote) (path : Str) (w : World) :
    (rawListDirectory rpc path w).world.requests = w.requests ++ [Request.Ls path] := by
  unfold rawListDirectory
  simp only []
  cases (rpc.Ls w.requests path).err <;> cases (rpc.Ls w.requests path).ls with
  | none => rfl
  | some ls =>
    simp only []
    cases ls.Response with
    | none => rfl
    | some e => simp only []; split <;> rfl

theorem rawListDirectory_sends {Q : Request → Prop} (rpc : Remote) (path : Str)
    (hQ : Q (Request.Ls path)) (w : World) : Sends Q w (rawListDirectory rpc path w) :=
  Sends.one (Request.Ls path) (rawListDirectory_requests rpc path w) hQ

theorem say_sends {Q : Request → Prop} (s : Str) (w : World) : Sends Q w (say s w) :=
  Sends.same rfl

theorem border_sends {Q : Request → Prop} (s : Str) (w : World) : Sends Q w (border s w) :=
  Sends.same rfl

theorem getInfo_sends {Q : Request → Prop} (t : Session) (w : World) :
    Sends Q w (getInfo t w) :=
  Sends.same rfl

theorem taintScript_sends {Q : Request → Prop} (env : Local) (v : Str) (w : World) :
    Sends Q w (taintScript env v w) := by
  apply Sends.same
  unfold taintScript
  split <;> rfl

theorem executeBinary_sends {Q : Request → Prop} (rpc : Remote) (path : Str) (args : List Str)
    (quiet : Bool) (hQ : Q (Request.Execute path args)) (w : World) :
    Sends Q w (executeBinary rpc path args quiet w) := by
  apply Sends.one (Request.Execute path args) _ hQ
  unfold executeBinary
  simp only []
  split
  · simp only [Outcome.world]
    rw [reportError_requests]
    cases quiet <;> rfl
  · split <;>
    · simp only [Outcome.world, println]
      rw [reportError_requests]
      cases quiet <;> rfl

theorem processList_sends {Q : Request → Prop} (rpc : Remote) (hQ : Q Request.Ps) (w : World) :
    Sends Q w (processList rpc w) := by
  apply Sends.one Request.Ps _ hQ
  unfold processList
  simp only []
  cases (rpc.Ps (makeBorder "Process List".toList w).requests).err <;>
    cases (rpc.Ps (makeBorder "Process List".toList w).requests).ps <;> rfl

theorem getConnections_sends {Q : Request → Prop} (t : Session) (rpc : Remote)
    (hQ : Q Request.Netstat) (w : World) : Sends Q w (getConnections t rpc w) := by
  apply Sends.one Request.Netstat _ hQ
  unfold getConnections
  simp only []
  cases (rpc.Netstat (makeBorder "Connections".toList w).requests).err <;>
    cases (rpc.Netstat (makeBorder "Connections".toList w).requests).netstat with
    | none => rfl
    | some entries =>
      simp only []
      cases connectionRows t entries <;> rfl

theorem getInterfaces_sends {Q : Request → Prop} (rpc : Remote)
    (hQ : Q Request.Ifconfig) (w : World) : Sends Q w (getInterfaces rpc w) := by
  apply Sends.one Request.Ifconfig _ hQ
  unfold getInterfaces
  simp only []
  cases (rpc.Ifconfig w.requests).err <;> cases (rpc.Ifconfig w.requests).interfaces <;> rfl

theorem listDirectory_requests (env : Local) (rpc : Remote) (path : Str) (w : World) :
    (listDirectory env rpc path w).world.requests = w.requests ++ [Request.Ls path] := by
  unfold listDirectory
  simp only []
  cases (rpc.Ls w.requests path).err <;> cases (rpc.Ls w.requests path).ls with
  | none => rfl
  | some ls =>
    simp only []
    split <;> rfl

theorem listDirectory_sends {Q : Request → Prop} (env : Local) (rpc : Remote) (path : Str)
    (hQ : Q (Request.Ls path)) (w : World) : Sends Q w (listDirectory env rpc path w) :=
  Sends.one (Request.Ls path) (listDirectory_requests env rpc path w) hQ

theorem whenBinExists_sends {Q : Request → Prop} (rpc : Remote) (path : Str) (body : Step)
    (hQ : Q (Request.Ls path)) (hb : ∀ w, Sends Q w (body w)) (w : World) :
    Sends Q w (whenBinExists rpc path body w) := by
  unfold whenBinExists binExists
  apply Sends.andThen
  · apply Sends.andThen (rawListDirectory_sends rpc path hQ w)
    intro _ w1 _
    exact Sends.same rfl
  · intro found w1 _
    cases found
    · exact Sends.same rfl
    · exact hb w1

theorem whenRoot_sends {Q : Request → Prop} (t : Session) (body : Step)
    (hb : t.GID = ['0'] → ∀ w, Sends Q w (body w)) (w : World) :
    Sends Q w (whenRoot t body w) := by
  unfold whenRoot
  split
  · rename_i h
    exact hb h w
  · exact Sends.same rfl

theorem checkControlFile_sends {Q : Request → Prop} (env : Local) (rpc : Remote)
    (fileTag path : Str) (interpret : Str → Step) (hQ : Q (Request.Download path))
    (hi : ∀ v w, Sends Q w (interpret v w)) (w : World) :
    Sends Q w (checkControlFile env rpc fileTag path interpret w) := by
  unfold checkControlFile
  apply Sends.seq
  intro s hs
  simp only [List.mem_cons, List.mem_singleton, List.not_mem_nil, or_false] at hs
  rcases hs with rfl | rfl | rfl
  · exact border_sends _
  · exact downloadFile_sends env rpc path fileTag true true hQ
  · intro w1
    exact hi _ w1

/-- Formatting keeps the first two characters of a format that starts with two
characters other than `%`. -/
theorem Sprintf_head2 (a b : Char) (rest : Str) (ha : a ≠ '%') (hb : b ≠ '%') :
    ∃ t, Sprintf (a :: b :: rest) = a :: b :: t := by
  refine ⟨doPrintf (rest.length + 1) rest, ?_⟩
  simp [Sprintf, doPrintf, ha, hb]

theorem home_download_path (i name : Str) : ∃ t,
    Sprintf (Sprintf (Sprintf ("/home/".toList ++ i) ++ ['/']) ++ name) = '/' :: 'h' :: t := by
  obtain ⟨t1, h1⟩ := Sprintf_head2 '/' 'h' ("ome/".toList ++ i) (by decide) (by decide)
  have e1 : Sprintf ("/home/".toList ++ i) = '/' :: 'h' :: t1 := h1
  obtain ⟨t2, h2⟩ := Sprintf_head2 '/' 'h' (t1 ++ ['/']) (by decide) (by decide)
  obtain ⟨t3, h3⟩ := Sprintf_head2 '/' 'h' (t2 ++ name) (by decide) (by decide)
  refine ⟨t3, ?_⟩
  rw [e1]
  simp only [List.cons_append]
  rw [h2]
  simp only [List.cons_append]
  rw [h3]

theorem findHistoriesUser_sends {Q : Request → Prop} (env : Local) (rpc : Remote)
    (fileTag : Str)
    (hls : ∀ t, Q (Request.Ls ('/' :: 'h' :: t)))
    (hdl : ∀ t, Q (Request.Download ('/' :: 'h' :: t))) (w : World) :
    Sends Q w (findHistoriesUser env rpc fileTag "/home".toList w) := by
  unfold findHistoriesUser
  apply Sends.andThen (rawListDirectory_sends rpc _ (hls "ome".toList) w)
  intro files w1 _
  apply Sends.forEach
  intro i _ w2
  obtain ⟨t1, h1⟩ := Sprintf_head2 '/' 'h' ("ome/".toList ++ i) (by decide) (by decide)
  have e1 : Sprintf ("/home/".toList ++ i) = '/' :: 'h' :: t1 := h1
  apply Sends.andThen (rawListDirectory_sends rpc _ (by rw [e1]; exact hls t1) w2)
  intro homeDirectory w3 _
  apply Sends.forEach
  intro history _
  apply Sends.forEach
  intro histFile _ w4
  split
  · apply downloadFile_sends
    obtain ⟨t, ht⟩ := home_download_path i history.Name
    rw [ht]
    exact hdl t
  · exact Sends.same rfl

theorem findHistoriesRoot_sends {Q : Request → Prop} (env : Local) (rpc : Remote)
    (fileTag targetPath : Str) (hQ : ∀ r, Q r) (w : World) :
    Sends Q w (findHistoriesRoot env rpc fileTag targetPath w) := by
  unfold findHistoriesRoot
  apply Sends.andThen (rawListDirectory_sends rpc _ (hQ _) w)
  intro files w1 _
  apply Sends.forEach
  intro i _
  apply Sends.forEach
  intro histFile _ w2
  split
  · exact downloadFile_sends _ _ _ _ _ _ (hQ _) w2
  · exact Sends.same rfl

theorem sweep_sends {Q : Request → Prop} (env : Local) (rpc : Remote)
    (fileTag title listed dir : Str) (hls : Q (Request.Ls listed))
    (hdl : ∀ (history : List Request) (ls : Ls) (fi : FileInfo),
      (rpc.Ls history listed).ls = some ls → fi ∈ ls.Files → fi.IsDir = false →
      Q (Request.Download (Sprintf (dir ++ fi.Name)))) (w : World) :
    Sends Q w (sweep env rpc fileTag title listed dir w) := by
  unfold sweep
  have hreq : (rawListDirectory rpc listed (makeBorder title w)).world.requests
      = w.requests ++ [Request.Ls listed] := rawListDirectory_requests rpc listed _
  apply Sends.andThen (Sends.one (Request.Ls listed) hreq hls)
  intro files w1 hdone
  have hfiles : ∃ ls, (rpc.Ls w.requests listed).ls = some ls ∧ files = ls.Files := by
    unfold rawListDirectory at hdone
    simp only [] at hdone
    have hr : (makeBorder title w).requests = w.requests := rfl
    rw [hr] at hdone
    cases hl : (rpc.Ls w.requests listed).ls with
    | none => rw [hl] at hdone; cases hdone
    | some ls =>
      rw [hl] at hdone
      simp only [] at hdone
      refine ⟨ls, rfl, ?_⟩
      cases hresp : ls.Response with
      | none => rw [hresp] at hdone; simp only [] at hdone; cases hdone; rfl
      | some e =>
        rw [hresp] at hdone
        simp only [] at hdone
        split at hdone
        · cases hdone
        · cases hdone; rfl
  obtain ⟨ls, hl, rfl⟩ := hfiles
  apply Sends.forEach
  intro fi hfi w2
  cases hd : fi.IsDir
  · simp only [Bool.not_false, if_true]
    exact downloadFile_sends _ _ _ _ _ _ (hdl _ ls fi hl hfi hd) w2
  · exact Sends.same rfl

theorem verb_percent (d : Directive) : '%' ∈ (verb d).1 := by
  unfold verb
  split
  · simp [String.toList]
  · split
    · simp
    · split <;> simp [String.toList]

theorem doPrintf_percent (s : Str) :
    ∀ fuel, s.length < fuel → '%' ∈ s → '%' ∈ doPrintf fuel s := by
  induction s with
  | nil => intro fuel _ h; simp at h
  | cons c cs ih =>
    intro fuel hlen hin
    cases fuel with
    | zero => simp at hlen
    | succ n =>
      by_cases hc : c = '%'
      · simp only [doPrintf, if_pos hc]
        exact List.mem_append_left _ (verb_percent _)
      · simp only [doPrintf, if_neg hc]
        have : '%' ∈ cs := by
          rcases List.mem_cons.1 hin with h | h
          · exact absurd h.symm hc
          · exact h
        exact List.mem_cons_of_mem _ (ih n (by simpa using hlen) this)

/-- A formatted text without `%` is the format itself. -/
theorem Sprintf_eq_plain (s t : Str) (ht : '%' ∉ t) (h : Sprintf s = t) : s = t := by
  by_cases hs : '%' ∈ s
  · exact absurd (h ▸ doPrintf_percent s _ (Nat.lt_succ_self _) hs) ht
  · rw [Sprintf_plain s hs] at h; exact h

theorem Sprintf_ne (s t : Str) (ht : '%' ∉ t) (h : s ≠ t) : Sprintf s ≠ t :=
  fun e => h (Sprintf_eq_plain s t ht e)

/-- Every statement of the run sends only requests that satisfy `Q`, when `Q` holds
of every request but the gated ones, of the gated ones for a root session, and of
the downloads that the "/etc/*.conf" listing leads to. -/
theorem survey_sends {Q : Request → Prop} (env : Local) (rpc : Remote) (t : Session)
    (hex : ∀ p a, Q (Request.Execute p a)) (hps : Q Request.Ps) (hnet : Q Request.Netstat)
    (hif : Q Request.Ifconfig)
    (hls : ∀ p, p ≠ "/root".toList → Q (Request.Ls p))
    (hdl : ∀ p, p ≠ "/etc/shadow".toList → p ≠ "/etc/sudoers".toList → Q (Request.Download p))
    (hroot : t.GID = ['0'] → ∀ r, Q r)
    (hconf : ∀ (history : List Request) (ls : Ls) (fi : FileInfo),
      (rpc.Ls history "/etc/*.conf".toList).ls = some ls → fi ∈ ls.Files → fi.IsDir = false →
      Q (Request.Download (Sprintf ("/etc/".toList ++ fi.Name)))) :
    ∀ s ∈ survey env rpc t, ∀ w, Sends Q w (s w) := by
  unfold survey
  simp only []
  repeat' (refine List.forall_mem_cons.2 ⟨?_, ?_⟩)
  all_goals first
    | exact getInfo_sends _
    | exact border_sends _
    | exact processList_sends _ hps
    | exact getConnections_sends _ _ hnet
    | exact getInterfaces_sends _ hif
    | exact executeBinary_sends _ _ _ _ (hex _ _)
    | exact listDirectory_sends _ _ _ (hls _ (by decide))
    | exact downloadFile_sends _ _ _ _ _ _ (hdl _ (by decide) (by decide))
    | exact whenRoot_sends _ _ (fun h => listDirectory_sends _ _ _ (hroot h _))
    | exact whenRoot_sends _ _ (fun h => findHistoriesRoot_sends _ _ _ _ (hroot h))
    | exact findHistoriesUser_sends _ _ _ (fun _ => hls _ (by simp [String.toList]))
        (fun _ => hdl _ (by simp [String.toList]) (by simp [String.toList]))
    | exact sweep_sends _ _ _ _ _ _ (hls _ (by decide)) hconf
    | exact sweep_sends _ _ _ _ _ _ (hls _ (by decide)) (fun _ _ fi _ _ _ =>
        hdl _ (Sprintf_ne _ _ (by decide) (by simp [String.toList]))
          (Sprintf_ne _ _ (by decide) (by simp [String.toList])))
    | exact checkControlFile_sends _ _ _ _ _ (hdl _ (by decide) (by decide))
        (fun _ => say_sends _)
    | exact checkControlFile_sends _ _ _ _ _ (hdl _ (by decide) (by decide))
        (fun _ => taintScript_sends _ _)
    | exact whenBinExists_sends _ _ _ (hls _ (by decide)) (Sends.seq _ (by
        repeat' (refine List.forall_mem_cons.2 ⟨?_, ?_⟩)
        all_goals first
          | exact say_sends _
          | exact executeBinary_sends _ _ _ _ (hex _ _)
          | (intro x hx; cases hx)))
    | exact whenRoot_sends _ _ (fun h => Sends.seq _ (by
        repeat' (refine List.forall_mem_cons.2 ⟨?_, ?_⟩)
        all_goals first
          | exact downloadFile_sends _ _ _ _ _ _ (hroot h _)
          | (intro x hx; cases hx)))
    | (intro x hx; cases hx)


theorem promptLoop_requests (sessions : List Session) (stdin : List Str) :
    ∀ w, (promptLoop sessions stdin w).world.requests = w.requests := by
  induction stdin with
  | nil => intro w; rfl
  | cons line rest ih =>
    intro w
    simp only [promptLoop]
    split
    · rw [ih]; rfl
    · split
      · split <;> rfl
      · rw [ih]; rfl

theorem selectSession_requests (sessions : List Session) (stdin : List Str) (w : World) :
    (selectSession sessions stdin w).world.requests = w.requests := by
  unfold selectSession
  split
  · unfold handleMultipleSessions
    simp only []
    rw [promptLoop_requests]
    rfl
  · split <;> rfl

/-- The run after the session is chosen sends only requests that satisfy `Q`. -/
theorem main_sends {Q : Request → Prop} (env : Local) (rpc : Remote) (configPath : Str)
    (sessions : List Session) (stdin : List Str) (w w1 : World) (t : Session)
    (hsel : selectSession sessions stdin (println "[*] Connected to sliver server".toList w)
      = Outcome.done t w1)
    (hall : ∀ s ∈ survey env rpc t, ∀ w, Sends Q w (s w)) :
    Sends Q w (main env rpc configPath (Except.ok (some sessions)) stdin w) := by
  unfold main
  split
  · exact Sends.same rfl
  · simp only [hsel, Outcome.andThen]
    have h1 : w1.requests = w.requests := by
      have := selectSession_requests sessions stdin (println "[*] Connected to sliver server".toList w)
      rw [hsel] at this
      exact this
    obtain ⟨new, hn, hq⟩ := Sends.seq _ hall w1
    exact ⟨new, by rw [hn, h1], hq⟩

/-- When a run of statements returns, a request that one of them always sends has
been sent. -/
theorem seq_reaches (r : Request) : ∀ (steps : List Step) (i : Nat) (s : Step) (w : World),
    (∀ t ∈ steps, ∀ w, Sends (fun _ => True) w (t w)) → steps.get? i = some s →
    (∀ w, (s w).returned = true → r ∈ (s w).world.requests) →
    (seq steps w).returned = true → r ∈ (seq steps w).world.requests := by
  intro steps
  induction steps with
  | nil => intro i s w _ hi; simp at hi
  | cons a rest ih =>
    intro i s w hmono hi hs hret
    simp only [seq] at hret ⊢
    cases ha : a w with
    | done u w1 =>
      rw [ha] at hret
      simp only [Outcome.andThen] at hret ⊢
      cases i with
      | zero =>
        simp only [List.get?_cons_zero, Option.some.injEq] at hi
        subst hi
        have h1 : r ∈ w1.requests := by
          have := hs w (by rw [ha]; rfl)
          rw [ha] at this
          exact this
        obtain ⟨new, hn, _⟩ := Sends.seq rest
          (fun t ht => hmono t (List.mem_cons_of_mem _ ht)) w1
        rw [hn]
        exact List.mem_append_left _ h1
      | succ j =>
        simp only [List.get?_cons_succ] at hi
        exact ih j s w1 (fun t ht => hmono t (List.mem_cons_of_mem _ ht)) hi hs hret
    | fatal w1 => rw [ha] at hret; simp [Outcome.andThen, Outcome.returned] at hret
    | crash w1 => rw [ha] at hret; simp [Outcome.andThen, Outcome.returned] at hret
    | hang w1 => rw [ha] at hret; simp [Outcome.andThen, Outcome.returned] at hret

/-! ## C10 -/

theorem downloadFile_requests (env : Local) (rpc : Remote) (path fileTag : Str)
    (quiet view : Bool) (w : World) :
    (downloadFile env rpc path fileTag quiet view w).world.requests
      = w.requests ++ [Request.Download path] := by
  unfold downloadFile
  rw [downloadReply_requests]

set_option maxRecDepth 100000 in
/-- C10 (counterexample): for a session with GID "1000" and a remote side whose
"/etc/*.conf" listing names an entry "shadow", the run requests the download of
"/etc/shadow"; for a session with GID "0" and a remote side whose first listing
fails, the run requests none of the three. -/
theorem C10_gate_is_not_the_only_way :
    userSession.GID ≠ ['0'] ∧
    Request.Download "/etc/shadow".toList ∈
      (main sampleLocal remoteNamingShadow "cfg".toList (Except.ok (some [userSession])) []
        ⟨⟨[], []⟩, [], []⟩).world.requests ∧
    rootSession.GID = ['0'] ∧
    (main sampleLocal remoteWithoutUptime "cfg".toList (Except.ok (some [rootSession])) []
        ⟨⟨[], []⟩, [], []⟩).world.requests = [Request.Ls "/usr/bin/uptime".toList] := by
  decide

/-- C10 (amended): let `t` be the session the run selects.  If the GID of `t` is
not "0" and no listing returned for "/etc/*.conf" holds a non-directory entry
named "shadow" or "sudoers", the run sends no listing of "/root" and no download
of "/etc/shadow" or "/etc/sudoers", whatever else the remote side does.  If the
GID of `t` is "0", every run that reaches its end has sent all three. -/
theorem C10_privilege_gating (env : Local) (rpc : Remote) (configPath : Str)
    (sessions : List Session) (stdin : List Str) (w w1 : World) (t : Session)
    (hsel : selectSession sessions stdin (println "[*] Connected to sliver server".toList w)
      = Outcome.done t w1) :
    (t.GID ≠ ['0'] →
      (∀ (history : List Request) (ls : Ls) (fi : FileInfo),
        (rpc.Ls history "/etc/*.conf".toList).ls = some ls → fi ∈ ls.Files → fi.IsDir = false →
        fi.Name ≠ "shadow".toList ∧ fi.Name ≠ "sudoers".toList) →
      (∀ r ∈ w.requests, ¬ gated r) →
      ∀ r ∈ (main env rpc configPath (Except.ok (some sessions)) stdin w).world.requests,
        ¬ gated r) ∧
    (t.GID = ['0'] →
      (main env rpc configPath (Except.ok (some sessions)) stdin w).returned = true →
      Request.Ls "/root".toList ∈
        (main env rpc configPath (Except.ok (some sessions)) stdin w).world.requests ∧
      Request.Download "/etc/shadow".toList ∈
        (main env rpc configPath (Except.ok (some sessions)) stdin w).world.requests ∧
      Request.Download "/etc/sudoers".toList ∈
        (main env rpc configPath (Except.ok (some sessions)) stdin w).world.requests) := by
  constructor
  · intro hgid hnames hclean r hr
    have hall : ∀ s ∈ survey env rpc t, ∀ w, Sends (fun r => ¬ gated r) w (s w) := by
      apply survey_sends
      · intro p a; simp [gated]
      · simp [gated]
      · simp [gated]
      · simp [gated]
      · intro p hp hg
        rcases hg with h | h | h
        · exact hp (Request.Ls.inj h)
        · cases h
        · cases h
      · intro p h1 h2 hg
        rcases hg with h | h | h
        · cases h
        · exact h1 (Request.Download.inj h)
        · exact h2 (Request.Download.inj h)
      · intro h; exact absurd h hgid
      · intro history ls fi hl hfi hd
        obtain ⟨n1, n2⟩ := hnames history ls fi hl hfi hd
        have e1 : Sprintf ("/etc/".toList ++ fi.Name) ≠ "/etc/shadow".toList :=
          Sprintf_ne _ _ (by decide) (by simpa [String.toList] using n1)
        have e2 : Sprintf ("/etc/".toList ++ fi.Name) ≠ "/etc/sudoers".toList :=
          Sprintf_ne _ _ (by decide) (by simpa [String.toList] using n2)
        intro hg
        rcases hg with h | h | h
        · cases h
        · exact e1 (Request.Download.inj h)
        · exact e2 (Request.Download.inj h)
    obtain ⟨new, hn, hq⟩ := main_sends env rpc configPath sessions stdin w w1 t hsel hall
    rw [hn] at hr
    rcases List.mem_append.1 hr with hr | hr
    · exact hclean r hr
    · exact hq r hr
  · intro hgid hret
    have hmono : ∀ s ∈ survey env rpc t, ∀ w, Sends (fun _ => True) w (s w) :=
      survey_sends env rpc t (fun _ _ => trivial) trivial trivial trivial
        (fun _ _ => trivial) (fun _ _ _ => trivial) (fun _ _ => trivial)
        (fun _ _ _ _ _ _ => trivial)
    have hmain : main env rpc configPath (Except.ok (some sessions)) stdin w
        = seq (survey env rpc t) w1 := by
      unfold main at hret ⊢
      split
      · rename_i hc
        rw [if_pos hc] at hret
        cases hret
      · simp only [hsel, Outcome.andThen]
    rw [hmain] at hret ⊢
    have hfetch : ∀ (p : Str) (i : Nat),
        [downloadFile env rpc "/etc/shadow".toList t.RemoteAddress true false,
          downloadFile env rpc "/etc/sudoers".toList t.RemoteAddress true false].get? i
          = some (downloadFile env rpc p t.RemoteAddress true false) →
        ∀ w, (whenRoot t (seq [downloadFile env rpc "/etc/shadow".toList t.RemoteAddress true false,
          downloadFile env rpc "/etc/sudoers".toList t.RemoteAddress true false]) w).returned = true →
        Request.Download p ∈
          (whenRoot t (seq [downloadFile env rpc "/etc/shadow".toList t.RemoteAddress true false,
            downloadFile env rpc "/etc/sudoers".toList t.RemoteAddress true false]) w).world.requests := by
      intro p i hi w2 hr2
      simp only [whenRoot, if_pos hgid] at hr2 ⊢
      refine seq_reaches _ _ i _ w2 ?_ hi ?_ hr2
      · intro s hs
        simp only [List.mem_cons, List.mem_singleton, List.not_mem_nil, or_false] at hs
        rcases hs with rfl | rfl <;> exact downloadFile_sends _ _ _ _ _ _ trivial
      · intro w3 _
        rw [downloadFile_requests]
        simp
    refine ⟨?_, ?_, ?_⟩
    · refine seq_reaches _ _ 9 (whenRoot t (listDirectory env rpc "/root".toList)) w1 hmono rfl
        ?_ hret
      intro w2 _
      simp only [whenRoot, if_pos hgid]
      rw [listDirectory_requests]
      simp
    · exact seq_reaches _ _ 20 _ w1 hmono rfl (hfetch "/etc/shadow".toList 0 rfl) hret
    · exact seq_reaches _ _ 20 _ w1 hmono rfl (hfetch "/etc/sudoers".toList 1 rfl) hret

set_option maxRecDepth 100000 in
/-- C10 (witness): the quiet remote side with an unprivileged session, and with a
root session. -/
theorem C10_privilege_gating_witness :
    (userSession.GID ≠ ['0'] ∧
      ∀ r ∈ (main sampleLocal quietRemote "cfg".toList (Except.ok (some [userSession])) []
        ⟨⟨[], []⟩, [], []⟩).world.requests, ¬ gated r) ∧
    (rootSession.GID = ['0'] ∧
      (main sampleLocal quietRemote "cfg".toList (Except.ok (some [rootSession])) []
        ⟨⟨[], []⟩, [], []⟩).returned = true ∧
      Request.Ls "/root".toList ∈
        (main sampleLocal quietRemote "cfg".toList (Except.ok (some [rootSession])) []
          ⟨⟨[], []⟩, [], []⟩).world.requests ∧
      Request.Download "/etc/shadow".toList ∈
        (main sampleLocal quietRemote "cfg".toList (Except.ok (some [rootSession])) []
          ⟨⟨[], []⟩, [], []⟩).world.requests ∧
      Request.Download "/etc/sudoers".toList ∈
        (main sampleLocal quietRemote "cfg".toList (Except.ok (some [rootSession])) []
          ⟨⟨[], []⟩, [], []⟩).world.requests) :=
  ⟨⟨by decide,
    (C10_privilege_gating sampleLocal quietRemote "cfg".toList [userSession] []
      ⟨⟨[], []⟩, [], []⟩ _ userSession rfl).1 (by decide)
      (by intro history ls fi hl hfi _; cases hl; cases hfi)
      (by intro r hr; cases hr)⟩,
   ⟨by decide, by decide,
    (C10_privilege_gating sampleLocal quietRemote "cfg".toList [rootSession] []
      ⟨⟨[], []⟩, [], []⟩ _ rootSession rfl).2 (by decide) (by decide)⟩⟩

/-! ## Theory of the file system model -/

theorem lookup_store_self (p : Loc) (n : Node) (nodes : Nodes) :
    lookup p (store p n nodes) = some n := by
  induction nodes with
  | nil => simp [store, lookup]
  | cons x rest ih =>
    obtain ⟨q, m⟩ := x
    by_cases hq : q = p
    · simp [store, lookup, hq]
    · simp [store, lookup, hq, ih]

theorem lookup_store_ne (p q : Loc) (n : Node) (nodes : Nodes) (h : q ≠ p) :
    lookup q (store p n nodes) = lookup q nodes := by
  induction nodes with
  | nil =>
    have : ¬ p = q := fun e => h e.symm
    simp [store, lookup, this]
  | cons x rest ih =>
    obtain ⟨r, m⟩ := x
    by_cases hr : r = p
    · subst hr
      have : ¬ r = q := fun e => h e.symm
      simp [store, lookup, this]
    · by_cases hrq : r = q
      · subst hrq
        simp [store, lookup, hr]
      · simp [store, lookup, hr, hrq, ih]

theorem store_same (p : Loc) (n : Node) (nodes : Nodes) (h : lookup p nodes = some n) :
    store p n nodes = nodes := by
  induction nodes with
  | nil => simp [lookup] at h
  | cons x rest ih =>
    obtain ⟨q, m⟩ := x
    by_cases hq : q = p
    · simp only [lookup, if_pos hq, Option.some.injEq] at h
      simp [store, hq, h]
    · simp only [lookup, if_neg hq] at h
      simp [store, hq, ih h]

theorem find_store_self (c : Loc) (p : Loc) (n : Node) (nodes : Nodes) (hp : p ≠ []) :
    (FS.mk c (store p n nodes)).find p = some n := by
  simp [FS.find, hp, lookup_store_self]

theorem find_store_ne (c : Loc) (p q : Loc) (n : Node) (nodes : Nodes) (h : q ≠ p) :
    (FS.mk c (store p n nodes)).find q = (FS.mk c nodes).find q := by
  unfold FS.find
  split
  · rfl
  · exact lookup_store_ne p q n nodes h

theorem Ext_refl (fs : FS) : Ext fs fs :=
  ⟨rfl, fun _ h => h, fun _ c h => ⟨c, h⟩⟩

theorem Ext_trans {a b c : FS} (h1 : Ext a b) (h2 : Ext b c) : Ext a c := by
  refine ⟨h2.1.trans h1.1, fun p h => h2.2.1 p (h1.2.1 p h), ?_⟩
  intro p x h
  obtain ⟨x1, hx1⟩ := h1.2.2 p x h
  exact h2.2.2 p x1 hx1

theorem SameDirs_refl (fs : FS) : SameDirs fs fs := ⟨rfl, fun _ h => h⟩

theorem SameDirs_trans {a b c : FS} (h1 : SameDirs a b) (h2 : SameDirs b c) : SameDirs a c :=
  ⟨h2.1.trans h1.1, fun p h => h1.2 p (h2.2 p h)⟩

/-- Storing a node at a free place, or a file over a file, keeps every node. -/
theorem Ext_store (fs : FS) (p : Loc) (n : Node) (hp : p ≠ [])
    (h : fs.find p = none ∨ ∃ c c1, fs.find p = some (Node.file c) ∧ n = Node.file c1) :
    Ext fs ⟨fs.cwd, store p n fs.nodes⟩ := by
  refine ⟨rfl, ?_, ?_⟩
  · intro q hq
    by_cases e : q = p
    · subst e
      rcases h with h | ⟨c, c1, h, _⟩ <;> rw [h] at hq <;> cases hq
    · rw [find_store_ne _ _ _ _ _ e]; exact hq
  · intro q c hq
    by_cases e : q = p
    · subst e
      rcases h with h | ⟨c0, c1, h, hn⟩
      · rw [h] at hq; cases hq
      · exact ⟨c1, by rw [find_store_self _ _ _ _ hp, hn]⟩
    · exact ⟨c, by rw [find_store_ne _ _ _ _ _ e]; exact hq⟩

/-- Storing a file adds no directory. -/
theorem SameDirs_store_file (fs : FS) (p : Loc) (c : Bytes) (hp : p ≠ []) :
    SameDirs fs ⟨fs.cwd, store p (Node.file c) fs.nodes⟩ := by
  refine ⟨rfl, ?_⟩
  intro q hq
  by_cases e : q = p
  · subst e
    rw [find_store_self _ _ _ _ hp] at hq
    cases hq
  · rw [find_store_ne _ _ _ _ _ e] at hq; exact hq

theorem step_ext {fs fs1 : FS} (h : Ext fs fs1) (cur : Loc) (seg : Str) (x : Loc)
    (hs : fs.step cur seg = Except.ok x) : fs1.step cur seg = Except.ok x := by
  unfold FS.step at hs ⊢
  cases hf : fs.find cur with
  | none => rw [hf] at hs; cases hs
  | some n =>
    cases n with
    | file c => rw [hf] at hs; cases hs
    | dir =>
      rw [hf] at hs
      rw [h.2.1 cur hf]
      exact hs

theorem step_ext_error {fs fs1 : FS} (h : Ext fs fs1) (cur : Loc) (seg : Str) (e : Errno)
    (hs : fs.step cur seg = Except.error e) (he : e ≠ Errno.ENOENT) :
    fs1.step cur seg = Except.error e := by
  unfold FS.step at hs ⊢
  cases hf : fs.find cur with
  | none => rw [hf] at hs; cases hs; exact absurd rfl he
  | some n =>
    cases n with
    | file c =>
      rw [hf] at hs
      obtain ⟨c1, hc1⟩ := h.2.2 cur c hf
      rw [hc1]
      exact hs
    | dir =>
      rw [hf] at hs
      simp only [] at hs
      split at hs
      · cases hs
      · split at hs <;> cases hs

theorem walk_ext {fs fs1 : FS} (h : Ext fs fs1) (segs : List Str) :
    ∀ (cur x : Loc), fs.walk cur segs = Except.ok x → fs1.walk cur segs = Except.ok x := by
  induction segs with
  | nil => intro cur x hs; exact hs
  | cons seg rest ih =>
    intro cur x hs
    simp only [FS.walk] at hs ⊢
    cases hstep : fs.step cur seg with
    | error e => rw [hstep] at hs; cases hs
    | ok nxt =>
      rw [hstep] at hs
      rw [step_ext h cur seg nxt hstep]
      exact ih nxt x hs

theorem walk_ext_error {fs fs1 : FS} (h : Ext fs fs1) (segs : List Str) :
    ∀ (cur : Loc) (e : Errno), fs.walk cur segs = Except.error e → e ≠ Errno.ENOENT →
      fs1.walk cur segs = Except.error e := by
  induction segs with
  | nil => intro cur e hs; cases hs
  | cons seg rest ih =>
    intro cur e hs he
    simp only [FS.walk] at hs ⊢
    cases hstep : fs.step cur seg with
    | error e1 =>
      rw [hstep] at hs
      cases hs
      rw [step_ext_error h cur seg e hstep he]
    | ok nxt =>
      rw [hstep] at hs
      rw [step_ext h cur seg nxt hstep]
      exact ih nxt e hs he

theorem start_ext {fs fs1 : FS} (h : fs1.cwd = fs.cwd) (name : Str) :
    fs1.start name = fs.start name := by
  unfold FS.start
  split
  · rfl
  · exact h

/-- A name that is there (or that runs into a file) stays so when nodes are added. -/
theorem Stat_ext {fs fs1 : FS} (h : Ext fs fs1) (name : Str)
    (hs : IsNotExist (Stat fs name) = false) : IsNotExist (Stat fs1 name) = false := by
  unfold Stat at hs ⊢
  split at hs
  · simp [IsNotExist] at hs
  · rename_i hne
    rw [if_neg hne, start_ext h.1]
    cases hw : fs.walk (fs.start name) (Split '/' name) with
    | error e =>
      rw [hw] at hs
      have he : e ≠ Errno.ENOENT := by
        intro e1; subst e1; simp [IsNotExist] at hs
      rw [walk_ext_error h _ _ _ hw he]
      exact hs
    | ok p =>
      rw [hw] at hs
      rw [walk_ext h _ _ _ hw]
      simp only [] at hs ⊢
      cases hf : fs.find p with
      | none => rw [hf] at hs; simp [IsNotExist] at hs
      | some n =>
        cases n with
        | dir => rw [h.2.1 p hf]; rfl
        | file c =>
          obtain ⟨c1, hc1⟩ := h.2.2 p c hf
          rw [hc1]; rfl

theorem Split_ne_nil (sep : Char) (s : Str) : Split sep s ≠ [] := by
  induction s with
  | nil => simp [Split]
  | cons c cs ih =>
    simp only [Split]
    split
    · simp
    · split <;> simp

theorem Split_append_sep (sep : Char) (a b : Str) :
    Split sep (a ++ sep :: b) = Split sep a ++ Split sep b := by
  induction a with
  | nil => simp [Split]
  | cons c cs ih =>
    by_cases hc : c = sep
    · simp [Split, hc, ih]
    · cases hs : Split sep cs with
      | nil => exact absurd hs (Split_ne_nil sep cs)
      | cons p ps =>
        rw [List.cons_append]
        simp only [Split, if_neg hc]
        rw [ih, hs]
        rfl

theorem dropWhile_replicate_nil (k : Nat) (l : List Str) :
    (List.replicate k ([] : Str) ++ l).dropWhile (fun s => decide (s = [])) =
      l.dropWhile (fun s => decide (s = [])) := by
  induction k with
  | zero => simp
  | succ n ih => simp [List.replicate_succ, List.dropWhile_cons, ih]

theorem all_nil_replicate (l : List Str) (h : ∀ x ∈ l, x = []) :
    l = List.replicate l.length [] := by
  induction l with
  | nil => rfl
  | cons x xs ih =>
    have hx : x = [] := h x (List.mem_cons_self _ _)
    subst hx
    rw [List.length_cons, List.replicate_succ]
    congr 1
    exact ih (fun y hy => h y (List.mem_cons_of_mem _ hy))

/-- The components of a name are the trimmed components followed by empty ones. -/
theorem trim_shape (segs : List Str) (last : Str) (revInit : List Str)
    (h : (trimSegs segs).reverse = last :: revInit) :
    last ≠ [] ∧ ∃ k, segs = revInit.reverse ++ last :: List.replicate k [] := by
  unfold trimSegs at h
  rw [List.reverse_reverse] at h
  have hsplit := List.takeWhile_append_dropWhile (fun s : Str => decide (s = [])) segs.reverse
  rw [h] at hsplit
  constructor
  · intro hl
    have hmem : last ∈ segs.reverse.dropWhile (fun s => decide (s = [])) := by
      rw [h]; exact List.mem_cons_self _ _
    have := List.head_dropWhile_not (fun s : Str => decide (s = [])) segs.reverse
      (by rw [h]; simp)
    simp only [h, List.head_cons] at this
    simp [hl] at this
  · have hall : ∀ x ∈ segs.reverse.takeWhile (fun s => decide (s = [])), x = [] := by
      intro x hx
      simpa using List.mem_takeWhile_imp hx
    have hrep := all_nil_replicate _ hall
    have h2 : segs.reverse = List.replicate
        (segs.reverse.takeWhile (fun s => decide (s = []))).length [] ++ last :: revInit := by
      rw [← hrep]; exact hsplit.symm
    obtain ⟨k, hk⟩ : ∃ k, segs.reverse = List.replicate k [] ++ last :: revInit := ⟨_, h2⟩
    refine ⟨k, ?_⟩
    have h3 := congrArg List.reverse hk
    rw [List.reverse_reverse] at h3
    rw [h3]
    simp [List.reverse_replicate]

theorem trim_shape_nil (segs : List Str) (h : (trimSegs segs).reverse = []) :
    ∃ k, segs = List.replicate k [] := by
  unfold trimSegs at h
  rw [List.reverse_reverse] at h
  refine ⟨segs.length, ?_⟩
  apply all_nil_replicate
  intro x hx
  have : ∀ y ∈ segs.reverse, (fun s : Str => decide (s = [])) y = true := by
    simpa [List.dropWhile_eq_nil_iff] using h
  simpa using this x (by simpa using hx)

theorem trim_of_shape (init : List Str) (last : Str) (k : Nat) (hl : last ≠ []) :
    (trimSegs (init ++ last :: List.replicate k [])).reverse = last :: init.reverse := by
  unfold trimSegs
  rw [List.reverse_reverse]
  simp only [List.reverse_append, List.reverse_cons, List.reverse_replicate, List.append_assoc,
    List.singleton_append]
  rw [dropWhile_replicate_nil]
  simp [List.dropWhile_cons, hl]

theorem trim_of_empties (k : Nat) : (trimSegs (List.replicate k ([] : Str))).reverse = [] := by
  unfold trimSegs
  rw [List.reverse_reverse, List.reverse_replicate]
  induction k with
  | zero => rfl
  | succ n ih => simp [List.replicate_succ, List.dropWhile_cons, ih]

theorem walk_append (fs : FS) (a b : List Str) : ∀ cur,
    fs.walk cur (a ++ b) =
      match fs.walk cur a with
      | Except.error e => Except.error e
      | Except.ok x => fs.walk x b := by
  induction a with
  | nil => intro cur; rfl
  | cons s rest ih =>
    intro cur
    simp only [List.cons_append, FS.walk]
    cases fs.step cur s with
    | error e => rfl
    | ok nxt => exact ih nxt

theorem step_dir (fs : FS) (cur : Loc) (seg : Str) (x : Loc)
    (h : fs.step cur seg = Except.ok x) : fs.find cur = some Node.dir := by
  unfold FS.step at h
  cases hf : fs.find cur with
  | none => rw [hf] at h; cases h
  | some n =>
    cases n with
    | file c => rw [hf] at h; cases h
    | dir => rfl

theorem walk_empties (fs : FS) (cur : Loc) (h : fs.find cur = some Node.dir) (k : Nat) :
    fs.walk cur (List.replicate k []) = Except.ok cur := by
  induction k with
  | zero => rfl
  | succ n ih =>
    simp only [List.replicate_succ, FS.walk]
    have : fs.step cur [] = Except.ok cur := by
      unfold FS.step
      rw [h]
      simp
    rw [this]
    exact ih

/-- What it means that the directory holding the last component of a name is found. -/
theorem parent_ok_iff (fs : FS) (name : Str) (par : Loc) (last : Str) :
    fs.parent name = Except.ok (some (par, last)) ↔
      name ≠ [] ∧ ∃ revInit, (trimSegs (Split '/' name)).reverse = last :: revInit ∧
        fs.walk (fs.start name) revInit.reverse = Except.ok par ∧
        fs.find par = some Node.dir := by
  unfold FS.parent
  by_cases hn : name = []
  · simp [hn]
  · simp only [if_neg hn, ne_eq, hn, not_false_eq_true, true_and]
    cases ht : (trimSegs (Split '/' name)).reverse with
    | nil => simp
    | cons l revInit =>
      simp only []
      cases hw : fs.walk (fs.start name) revInit.reverse with
      | error e =>
        simp only []
        constructor
        · intro h; cases h
        · rintro ⟨r, hr, hwr, _⟩
          simp only [List.cons.injEq] at hr
          obtain ⟨_, rfl⟩ := hr
          rw [hw] at hwr; cases hwr
      | ok p =>
        simp only []
        cases hf : fs.find p with
        | none =>
          simp only []
          constructor
          · intro h; cases h
          · rintro ⟨r, hr, hwr, hd⟩
            simp only [List.cons.injEq] at hr
            obtain ⟨_, rfl⟩ := hr
            rw [hw] at hwr; cases hwr
            rw [hf] at hd; cases hd
        | some n =>
          cases n with
          | file c =>
            simp only []
            constructor
            · intro h; cases h
            · rintro ⟨r, hr, hwr, hd⟩
              simp only [List.cons.injEq] at hr
              obtain ⟨_, rfl⟩ := hr
              rw [hw] at hwr; cases hwr
              rw [hf] at hd; cases hd
          | dir =>
            simp only []
            constructor
            · intro h
              simp only [Except.ok.injEq, Option.some.injEq, Prod.mk.injEq] at h
              obtain ⟨rfl, rfl⟩ := h
              exact ⟨revInit, rfl, hw, hf⟩
            · rintro ⟨r, hr, hwr, _⟩
              simp only [List.cons.injEq] at hr
              obtain ⟨rfl, rfl⟩ := hr
              rw [hw] at hwr; cases hwr
              rfl

theorem parent_ext {fs fs1 : FS} (h : Ext fs fs1) (name : Str) (par : Loc) (last : Str)
    (hp : fs.parent name = Except.ok (some (par, last))) :
    fs1.parent name = Except.ok (some (par, last)) := by
  rw [parent_ok_iff] at hp ⊢
  obtain ⟨hn, revInit, ht, hw, hd⟩ := hp
  refine ⟨hn, revInit, ht, ?_, h.2.1 par hd⟩
  rw [start_ext h.1]
  exact walk_ext h _ _ _ hw

theorem step_same {fs fs1 : FS} (h : SameDirs fs fs1) (cur : Loc) (seg : Str) (x : Loc)
    (hs : fs1.step cur seg = Except.ok x) : fs.step cur seg = Except.ok x := by
  have hd := h.2 cur (step_dir fs1 cur seg x hs)
  have hd1 := step_dir fs1 cur seg x hs
  unfold FS.step at hs ⊢
  rw [hd1] at hs
  rw [hd]
  exact hs

theorem walk_same {fs fs1 : FS} (h : SameDirs fs fs1) (segs : List Str) :
    ∀ (cur x : Loc), fs1.walk cur segs = Except.ok x → fs.walk cur segs = Except.ok x := by
  induction segs with
  | nil => intro cur x hs; exact hs
  | cons seg rest ih =>
    intro cur x hs
    simp only [FS.walk] at hs ⊢
    cases hstep : fs1.step cur seg with
    | error e => rw [hstep] at hs; cases hs
    | ok nxt =>
      rw [hstep] at hs
      rw [step_same h cur seg nxt hstep]
      exact ih nxt x hs

theorem parent_same {fs fs1 : FS} (h : SameDirs fs fs1) (name : Str) (par : Loc) (last : Str)
    (hp : fs1.parent name = Except.ok (some (par, last))) :
    fs.parent name = Except.ok (some (par, last)) := by
  rw [parent_ok_iff] at hp ⊢
  obtain ⟨hn, revInit, ht, hw, hd⟩ := hp
  refine ⟨hn, revInit, ht, ?_, h.2 par hd⟩
  rw [start_ext h.1] at hw
  exact walk_same h _ _ _ hw

/-- What it means that `Mkdir` succeeds. -/
theorem Mkdir_ok_iff (fs fs1 : FS) (name : Str) :
    Mkdir fs name = Except.ok fs1 ↔
      ∃ par last, fs.parent name = Except.ok (some (par, last)) ∧
        last ≠ ['.'] ∧ last ≠ ['.', '.'] ∧ fs.find (par ++ [last]) = none ∧
        fs1 = ⟨fs.cwd, store (par ++ [last]) Node.dir fs.nodes⟩ := by
  unfold Mkdir
  cases hp : fs.parent name with
  | error e => simp
  | ok r =>
    cases r with
    | none => simp
    | some pl =>
      obtain ⟨par, last⟩ := pl
      simp only [Except.ok.injEq, Option.some.injEq, Prod.mk.injEq]
      by_cases hl : last = ['.'] ∨ last = ['.', '.']
      · rw [if_pos hl]
        constructor
        · intro h; cases h
        · rintro ⟨p, l, ⟨rfl, rfl⟩, h1, h2, _⟩
          rcases hl with hl | hl
          · exact absurd hl h1
          · exact absurd hl h2
      · rw [if_neg hl]
        push_neg at hl
        cases hf : fs.find (par ++ [last]) with
        | some n =>
          simp only []
          constructor
          · intro h; cases h
          · rintro ⟨p, l, ⟨rfl, rfl⟩, _, _, h3, _⟩
            rw [hf] at h3; cases h3
        | none =>
          simp only [Except.ok.injEq]
          constructor
          · intro h
            exact ⟨par, last, ⟨rfl, rfl⟩, hl.1, hl.2, hf, h.symm⟩
          · rintro ⟨p, l, ⟨rfl, rfl⟩, _, _, _, h4⟩
            exact h4.symm

theorem Mkdir_ext (fs fs1 : FS) (name : Str) (h : Mkdir fs name = Except.ok fs1) :
    Ext fs fs1 := by
  rw [Mkdir_ok_iff] at h
  obtain ⟨par, last, _, _, _, hf, rfl⟩ := h
  exact Ext_store fs _ _ (by simp) (Or.inl hf)

/-- After a successful `Mkdir` the name is there. -/
theorem Stat_after_Mkdir (fs fs1 : FS) (name : Str) (h : Mkdir fs name = Except.ok fs1) :
    IsNotExist (Stat fs1 name) = false := by
  have hext := Mkdir_ext fs fs1 name h
  rw [Mkdir_ok_iff] at h
  obtain ⟨par, last, hp, hl1, hl2, hf, rfl⟩ := h
  rw [parent_ok_iff] at hp
  obtain ⟨hn, revInit, ht, hw, hd⟩ := hp
  obtain ⟨hl0, k, hk⟩ := trim_shape _ _ _ ht
  have hnew : (FS.mk fs.cwd (store (par ++ [last]) Node.dir fs.nodes)).find (par ++ [last])
      = some Node.dir := find_store_self _ _ _ _ (by simp)
  have hwalk : (FS.mk fs.cwd (store (par ++ [last]) Node.dir fs.nodes)).walk
      ((FS.mk fs.cwd (store (par ++ [last]) Node.dir fs.nodes)).start name) (Split '/' name)
      = Except.ok (par ++ [last]) := by
    rw [hk, start_ext hext.1, walk_append, walk_ext hext _ _ _ hw]
    simp only [FS.walk]
    have hstep : (FS.mk fs.cwd (store (par ++ [last]) Node.dir fs.nodes)).step par last
        = Except.ok (par ++ [last]) := by
      unfold FS.step
      rw [hext.2.1 par hd]
      simp [hl0, hl1, hl2]
    rw [hstep]
    exact walk_empties _ _ hnew k
  unfold Stat
  rw [if_neg hn, hwalk]
  simp only [hnew]
  rfl

theorem Join_snoc (track : List Str) (line : Str) (h : track ≠ []) :
    Join (track ++ [line]) ['/'] = Join track ['/'] ++ '/' :: line := by
  unfold Join
  induction track with
  | nil => exact absurd rfl h
  | cons a rest ih =>
    cases rest with
    | nil => simp [List.intercalate, List.intersperse]
    | cons b rest1 =>
      have := ih (by simp)
      simpa [List.intercalate, List.intersperse] using this

theorem Stat_of_walk_dir (fs : FS) (name : Str) (hn : name ≠ []) (p : Loc)
    (hw : fs.walk (fs.start name) (Split '/' name) = Except.ok p)
    (hd : fs.find p = some Node.dir) : IsNotExist (Stat fs name) = false := by
  unfold Stat
  rw [if_neg hn, hw]
  simp only [hd]
  rfl

theorem start_extended (fs : FS) (tag rest : Str) (h : tag ≠ []) :
    fs.start (tag ++ '/' :: rest) = fs.start tag := by
  cases tag with
  | nil => exact absurd rfl h
  | cons c cs =>
    by_cases hc : c = '/'
    · subst hc; rfl
    · simp only [List.cons_append, FS.start]
      split
      · rename_i heq
        simp only [List.cons.injEq] at heq
        exact absurd heq.1 hc
      · split
        · rename_i heq
          simp only [List.cons.injEq] at heq
          exact absurd heq.1 hc
        · rfl

/-- When the parent directory of `tag/rest` is found, either `tag` is an existing
directory, or the parent directory of `tag` is found in the same way. -/
theorem parent_extended (fs : FS) (tag rest : Str) (par : Loc) (last : Str) (ht : tag ≠ [])
    (hp : fs.parent (tag ++ '/' :: rest) = Except.ok (some (par, last))) :
    IsNotExist (Stat fs tag) = false ∨ fs.parent tag = Except.ok (some (par, last)) := by
  rw [parent_ok_iff] at hp
  obtain ⟨_, revInit, htrim, hw, hd⟩ := hp
  obtain ⟨hl0, k, hk⟩ := trim_shape _ _ _ htrim
  rw [Split_append_sep] at hk
  rw [start_extended fs tag rest ht] at hw
  rcases List.append_eq_append_iff.1 hk with ⟨a, ha, hb⟩ | ⟨c, hc, hd2⟩
  · -- the components of the tag are walked before the parent is reached
    left
    rw [ha, walk_append] at hw
    cases hwt : fs.walk (fs.start tag) (Split '/' tag) with
    | error e => rw [hwt] at hw; cases hw
    | ok L =>
      rw [hwt] at hw
      simp only [] at hw
      apply Stat_of_walk_dir fs tag ht L hwt
      cases a with
      | nil =>
        simp only [FS.walk, Except.ok.injEq] at hw
        rw [hw]; exact hd
      | cons s a1 =>
        simp only [FS.walk] at hw
        cases hs : fs.step L s with
        | error e => rw [hs] at hw; cases hw
        | ok nxt => exact step_dir fs L s nxt hs
  · cases c with
    | nil =>
      left
      simp only [List.append_nil] at hc
      rw [← hc] at hw
      exact Stat_of_walk_dir fs tag ht par hw hd
    | cons x c1 =>
      right
      simp only [List.cons_append, List.cons.injEq] at hd2
      obtain ⟨rfl, hrep⟩ := hd2
      have hall : ∀ y ∈ c1, y = [] := by
        intro y hy
        have : y ∈ List.replicate k ([] : Str) := by
          rw [hrep]; exact List.mem_append_left _ hy
        exact (List.mem_replicate.1 this).2
      have hc1 := all_nil_replicate c1 hall
      rw [parent_ok_iff]
      refine ⟨ht, revInit, ?_, hw, hd⟩
      rw [hc, hc1]
      simpa using trim_of_shape revInit.reverse last c1.length hl0

theorem Mkdir_extended (fs fs1 : FS) (tag rest : Str) (ht : tag ≠ [])
    (h : Mkdir fs (tag ++ '/' :: rest) = Except.ok fs1) :
    IsNotExist (Stat fs tag) = false ∨ ∃ fs2, Mkdir fs tag = Except.ok fs2 := by
  rw [Mkdir_ok_iff] at h
  obtain ⟨par, last, hp, h1, h2, hf, _⟩ := h
  rcases parent_extended fs tag rest par last ht hp with hs | hp2
  · exact Or.inl hs
  · exact Or.inr ⟨_, (Mkdir_ok_iff fs _ tag).2 ⟨par, last, hp2, h1, h2, hf, rfl⟩⟩

theorem Mkdir_same {fs fs1 : FS} (hs : SameDirs fs fs1) (he : Ext fs fs1) (name : Str) (x : FS)
    (h : Mkdir fs1 name = Except.ok x) : ∃ y, Mkdir fs name = Except.ok y := by
  rw [Mkdir_ok_iff] at h
  obtain ⟨par, last, hp, h1, h2, hf, _⟩ := h
  refine ⟨_, (Mkdir_ok_iff fs _ name).2 ⟨par, last, parent_same hs name par last hp, h1, h2, ?_, rfl⟩⟩
  cases hfind : fs.find (par ++ [last]) with
  | none => rfl
  | some n =>
    cases n with
    | dir => rw [he.2.1 _ hfind] at hf; cases hf
    | file c =>
      obtain ⟨c1, hc1⟩ := he.2.2 _ c hfind
      rw [hc1] at hf; cases hf

/-! ## The second run of `rebuildDirs` -/

theorem out_append_ne (out : List Printed) (x : Printed) : out ++ [x] ≠ out := by
  intro h
  have := congrArg List.length h
  simp at this

theorem dir_name (track : List Str) (line : Str) :
    Join track ['/'] ++ ['/'] ++ line = Join track ['/'] ++ '/' :: line := by
  simp

theorem rebuildLoop_ext (parts : List Str) :
    ∀ (track : List Str) (w : World), Ext w.fs (rebuildLoop track parts w).fs := by
  induction parts with
  | nil => intro track w; exact Ext_refl _
  | cons line rest ih =>
    intro track w
    cases rest with
    | nil => exact Ext_refl _
    | cons next rest1 =>
      simp only [rebuildLoop]
      split
      · split
        · exact Ext_refl _
        · rename_i fs1 hmk
          exact Ext_trans (Mkdir_ext _ _ _ hmk) (ih _ _)
      · exact ih _ _

theorem rebuildDirs_ext (path fileTag : Str) (w : World) :
    Ext w.fs (rebuildDirs path fileTag w).fs := by
  unfold rebuildDirs
  simp only []
  refine Ext_trans ?_ (rebuildLoop_ext _ _ _)
  split
  · split
    · exact Ext_refl _
    · rename_i fs1 hmk
      exact Mkdir_ext _ _ _ hmk
  · exact Ext_refl _

/-- When the loop of `rebuildDirs` prints nothing, either it leaves the file system
alone, or it makes a directory below the one it starts from. -/
theorem rebuildLoop_first (parts : List Str) :
    ∀ (track : List Str) (w : World), track ≠ [] →
      (rebuildLoop track parts w).out = w.out →
      (rebuildLoop track parts w).fs = w.fs ∨
        ∃ rest fs1, Mkdir w.fs (Join track ['/'] ++ '/' :: rest) = Except.ok fs1 := by
  induction parts with
  | nil => intro track w _ _; exact Or.inl rfl
  | cons line rest ih =>
    intro track w ht hout
    cases rest with
    | nil => exact Or.inl rfl
    | cons next rest1 =>
      simp only [rebuildLoop] at hout ⊢
      split at hout
      · rename_i hne
        rw [if_pos hne]
        cases hmk : Mkdir w.fs (Join track ['/'] ++ ['/'] ++ line) with
        | error e =>
          rw [hmk] at hout
          exact absurd hout (out_append_ne _ _)
        | ok fs1 =>
          right
          refine ⟨line, fs1, ?_⟩
          rw [← dir_name]
          exact hmk
      · rename_i hne
        rw [if_neg hne]
        rcases ih (track ++ [line]) w (by simp) hout with h | ⟨r, fs1, h⟩
        · exact Or.inl h
        · right
          refine ⟨line ++ '/' :: r, fs1, ?_⟩
          rw [Join_snoc track line ht] at h
          simpa using h

/-- When the loop of `rebuildDirs` prints nothing, running it again on a file
system that keeps what it left changes nothing and prints nothing. -/
theorem rebuildLoop_second (parts : List Str) :
    ∀ (track : List Str) (w : World), (rebuildLoop track parts w).out = w.out →
      ∀ (fs1 : FS) (o : List Printed) (r : List Request),
        Ext (rebuildLoop track parts w).fs fs1 →
        rebuildLoop track parts ⟨fs1, o, r⟩ = ⟨fs1, o, r⟩ := by
  induction parts with
  | nil => intro track w _ fs1 o r _; rfl
  | cons line rest ih =>
    intro track w hout fs1 o r hext
    cases rest with
    | nil => rfl
    | cons next rest1 =>
      simp only [rebuildLoop] at hout hext ⊢
      split at hout
      · rename_i hne
        rw [if_pos hne] at hext
        cases hmk : Mkdir w.fs (Join track ['/'] ++ ['/'] ++ line) with
        | error e =>
          rw [hmk] at hout
          exact absurd hout (out_append_ne _ _)
        | ok fs2 =>
          rw [hmk] at hout hext
          simp only [] at hout hext
          have hstat : IsNotExist (Stat fs1 (Join track ['/'] ++ ['/'] ++ line)) = false :=
            Stat_ext (Ext_trans (rebuildLoop_ext _ _ _) hext) _ (Stat_after_Mkdir _ _ _ hmk)
          rw [hstat]
          simp only [Bool.false_eq_true, if_false]
          exact ih _ _ hout fs1 o r hext
      · rename_i hne
        rw [if_neg hne] at hext
        have hstat : IsNotExist (Stat fs1 (Join track ['/'] ++ ['/'] ++ line)) = false :=
          Stat_ext (Ext_trans (rebuildLoop_ext _ _ _) hext) _ (by simpa using hne)
        rw [hstat]
        simp only [Bool.false_eq_true, if_false]
        exact ih _ _ hout fs1 o r hext

/-- When `rebuildDirs` prints nothing, running it again on a file system that keeps
what it left and has no further directory changes nothing and prints nothing. -/
theorem rebuildDirs_second (path fileTag : Str) (w : World)
    (hout : (rebuildDirs path fileTag w).out = w.out)
    (fs1 : FS) (o : List Printed) (r : List Request)
    (hext : Ext (rebuildDirs path fileTag w).fs fs1)
    (hsame : SameDirs (rebuildDirs path fileTag w).fs fs1) :
    rebuildDirs path fileTag ⟨fs1, o, r⟩ = ⟨fs1, o, r⟩ := by
  -- the state of the first run after the tag directory is handled
  obtain ⟨w1, hw1, hw1out, hw1ext⟩ : ∃ w1 : World,
      rebuildDirs path fileTag w = rebuildLoop [fileTag] (Split '/' path) w1 ∧
      w1.out = w.out ∧ Ext w.fs w1.fs := by
    refine ⟨_, rfl, ?_, ?_⟩
    · split
      · split <;> rfl
      · rfl
    · split
      · split
        · exact Ext_refl _
        · rename_i fs2 hmk
          exact Mkdir_ext _ _ _ hmk
      · exact Ext_refl _
  have hloop : (rebuildLoop [fileTag] (Split '/' path) w1).out = w1.out := by
    rw [← hw1, hout, hw1out]
  -- the second run does not make the tag directory
  have htag : (if IsNotExist (Stat fs1 fileTag) = true then
      match Mkdir fs1 fileTag with
      | Except.error _ => (⟨fs1, o, r⟩ : World)
      | Except.ok fs2 => { (⟨fs1, o, r⟩ : World) with fs := fs2 }
    else ⟨fs1, o, r⟩) = ⟨fs1, o, r⟩ := by
    split
    · rename_i hne
      cases hmk1 : Mkdir fs1 fileTag with
      | error e => rfl
      | ok x =>
        exfalso
        have hne3 : IsNotExist (Stat (rebuildDirs path fileTag w).fs fileTag) = true := by
          cases h : IsNotExist (Stat (rebuildDirs path fileTag w).fs fileTag) with
          | true => rfl
          | false => rw [Stat_ext hext _ h] at hne; cases hne
        have hne0 : IsNotExist (Stat w.fs fileTag) = true := by
          cases h : IsNotExist (Stat w.fs fileTag) with
          | true => rfl
          | false => rw [Stat_ext (rebuildDirs_ext path fileTag w) _ h] at hne3; cases hne3
        obtain ⟨y, hy⟩ := Mkdir_same hsame hext fileTag x hmk1
        have htne : fileTag ≠ [] := by
          intro e
          rw [e] at hmk1
          simp [Mkdir, FS.parent] at hmk1
        cases hmk0 : Mkdir w.fs fileTag with
        | ok fs2 =>
          have hw1fs : (rebuildDirs path fileTag w).fs
              = (rebuildLoop [fileTag] (Split '/' path) { w with fs := fs2 }).fs := by
            unfold rebuildDirs
            simp only [hne0, if_true, hmk0]
          have h2 : IsNotExist (Stat (rebuildDirs path fileTag w).fs fileTag) = false := by
            rw [hw1fs]
            exact Stat_ext (rebuildLoop_ext _ _ _) _ (Stat_after_Mkdir _ _ _ hmk0)
          rw [h2] at hne3
          cases hne3
        | error e =>
          have hw1eq : rebuildDirs path fileTag w
              = rebuildLoop [fileTag] (Split '/' path) w := by
            unfold rebuildDirs
            simp only [hne0, if_true, hmk0]
          rw [hw1eq] at hout hy
          rcases rebuildLoop_first (Split '/' path) [fileTag] w (by simp) hout with h | ⟨rest, fs2, h⟩
          · rw [h, hmk0] at hy
            cases hy
          · have hj : Join [fileTag] ['/'] = fileTag := by simp [Join, List.intercalate]
            rw [hj] at h
            rcases Mkdir_extended w.fs fs2 fileTag rest htne h with h3 | ⟨fs3, h3⟩
            · rw [h3] at hne0; cases hne0
            · rw [hmk0] at h3; cases h3
    · rfl
  unfold rebuildDirs
  simp only []
  rw [htag]
  refine rebuildLoop_second (Split '/' path) [fileTag] w1 hloop fs1 o r ?_
  rw [← hw1]
  exact hext

/-! ## The second run of `downloadFile` -/

theorem downloadReply_eq (inflate : Bytes → GzipResult) (reply : DownloadReply)
    (path fileTag : Str) (quiet view : Bool) (w : World) :
    downloadReply inflate reply path fileTag quiet view w =
      storeReply inflate reply.download path fileTag quiet view
        (rebuildDirs path fileTag (announce reply.err path quiet w)) := rfl

theorem announce_swap (err : Option Str) (path : Str) (quiet : Bool) (fs fs1 : FS) :
    announce err path quiet ⟨fs1, [], []⟩ =
      ⟨fs1, (announce err path quiet ⟨fs, [], []⟩).out, []⟩ := by
  unfold announce reportError
  cases quiet <;> cases err with
  | none => rfl
  | some msg =>
    simp only []
    split
    · split <;> rfl
    · rfl

theorem announce_fs (err : Option Str) (path : Str) (quiet : Bool) (w : World) :
    (announce err path quiet w).fs = w.fs := by
  unfold announce
  rw [reportError_fs]
  cases quiet <;> rfl

theorem announce_requests (err : Option Str) (path : Str) (quiet : Bool) (w : World) :
    (announce err path quiet w).requests = w.requests := by
  unfold announce
  rw [reportError_requests]
  cases quiet <;> rfl

theorem rebuildLoop_out_cases (parts : List Str) :
    ∀ (track : List Str) (w : World), (rebuildLoop track parts w).out = w.out ∨
      ∃ m, (rebuildLoop track parts w).out
        = w.out ++ [Printed.text ("Error creating directory: ".toList ++ m)] := by
  induction parts with
  | nil => intro track w; exact Or.inl rfl
  | cons line rest ih =>
    intro track w
    cases rest with
    | nil => exact Or.inl rfl
    | cons next rest1 =>
      simp only [rebuildLoop]
      split
      · split
        · exact Or.inr ⟨_, rfl⟩
        · exact ih _ _
      · exact ih _ _

theorem rebuildDirs_out_cases (path fileTag : Str) (w : World) :
    (rebuildDirs path fileTag w).out = w.out ∨
      ∃ m, (rebuildDirs path fileTag w).out
        = w.out ++ [Printed.text ("Error creating directory: ".toList ++ m)] := by
  have hw1 : (if IsNotExist (Stat w.fs fileTag) = true then
      match Mkdir w.fs fileTag with
      | Except.error _ => w
      | Except.ok fs1 => { w with fs := fs1 }
    else w).out = w.out := by
    split
    · split <;> rfl
    · rfl
  unfold rebuildDirs
  simp only []
  rcases rebuildLoop_out_cases (Split '/' path) [fileTag] (if IsNotExist (Stat w.fs fileTag) = true then
      match Mkdir w.fs fileTag with
      | Except.error _ => w
      | Except.ok fs1 => { w with fs := fs1 }
    else w) with h | ⟨m, h⟩
  · left; rw [h, hw1]
  · right; exact ⟨m, by rw [h, hw1]⟩

theorem isError_directory (m : Str) :
    isError (Printed.text ("Error creating directory: ".toList ++ m)) := by
  simp [isError, String.toList]

/-- What it means that the file is opened for writing. -/
theorem Open_ok (fs fs1 : FS) (name : Str) (h : Loc)
    (ho : OpenFileCreateWronly fs name = Except.ok (fs1, h)) :
    ∃ par last, fs.parent name = Except.ok (some (par, last)) ∧
      ¬ (last = ['.'] ∨ last = ['.', '.'] ∨ trimSegs (Split '/' name) ≠ Split '/' name) ∧
      h = par ++ [last] ∧
      ((∃ c, fs.find h = some (Node.file c) ∧ fs1 = fs) ∨
        (fs.find h = none ∧ fs1 = ⟨fs.cwd, store h (Node.file []) fs.nodes⟩)) := by
  unfold OpenFileCreateWronly at ho
  cases hp : fs.parent name with
  | error e => rw [hp] at ho; cases ho
  | ok r =>
    cases r with
    | none => rw [hp] at ho; cases ho
    | some pl =>
      obtain ⟨par, last⟩ := pl
      rw [hp] at ho
      simp only [] at ho
      split at ho
      · cases ho
      · rename_i hcond
        refine ⟨par, last, rfl, hcond, ?_⟩
        cases hf : fs.find (par ++ [last]) with
        | none =>
          rw [hf] at ho
          simp only [Except.ok.injEq, Prod.mk.injEq] at ho
          obtain ⟨rfl, rfl⟩ := ho
          exact ⟨rfl, Or.inr ⟨hf, rfl⟩⟩
        | some n =>
          cases n with
          | dir => rw [hf] at ho; cases ho
          | file c =>
            rw [hf] at ho
            simp only [Except.ok.injEq, Prod.mk.injEq] at ho
            obtain ⟨rfl, rfl⟩ := ho
            exact ⟨rfl, Or.inl ⟨c, hf, rfl⟩⟩

theorem Open_facts (fs fs1 : FS) (name : Str) (h : Loc)
    (ho : OpenFileCreateWronly fs name = Except.ok (fs1, h)) :
    Ext fs fs1 ∧ SameDirs fs fs1 ∧ h ≠ [] ∧ ∃ c, fs1.find h = some (Node.file c) := by
  obtain ⟨par, last, _, _, rfl, hcase⟩ := Open_ok fs fs1 name h ho
  have hne : par ++ [last] ≠ [] := by simp
  rcases hcase with ⟨c, hf, rfl⟩ | ⟨hf, rfl⟩
  · exact ⟨Ext_refl _, SameDirs_refl _, hne, c, hf⟩
  · exact ⟨Ext_store fs _ _ hne (Or.inl hf), SameDirs_store_file fs _ _ hne, hne, [],
      find_store_self _ _ _ _ hne⟩

/-- A file that was opened for writing is opened again, as it is, in any file system
that keeps the nodes and still has the file. -/
theorem Open_again (fs fs1 fs2 : FS) (name : Str) (h : Loc)
    (ho : OpenFileCreateWronly fs name = Except.ok (fs1, h)) (hext : Ext fs fs2)
    (hfile : ∃ c, fs2.find h = some (Node.file c)) :
    OpenFileCreateWronly fs2 name = Except.ok (fs2, h) := by
  obtain ⟨par, last, hp, hcond, rfl, _⟩ := Open_ok fs fs1 name h ho
  obtain ⟨c, hc⟩ := hfile
  unfold OpenFileCreateWronly
  rw [parent_ext hext name par last hp]
  simp only []
  rw [if_neg hcond, hc]

theorem WriteString_eq (fs : FS) (h : Loc) (c data : Bytes)
    (hf : fs.find h = some (Node.file c)) :
    WriteString fs h data = ⟨fs.cwd, store h (Node.file (data ++ c.drop data.length)) fs.nodes⟩ := by
  unfold WriteString
  rw [hf]

theorem Write_facts (fs : FS) (h : Loc) (c data : Bytes) (hne : h ≠ [])
    (hf : fs.find h = some (Node.file c)) :
    Ext fs (WriteString fs h data) ∧ SameDirs fs (WriteString fs h data) ∧
      (WriteString fs h data).find h = some (Node.file (data ++ c.drop data.length)) := by
  rw [WriteString_eq fs h c data hf]
  exact ⟨Ext_store fs _ _ hne (Or.inr ⟨c, _, hf, rfl⟩), SameDirs_store_file fs _ _ hne,
    find_store_self _ _ _ _ hne⟩

/-- Writing the bytes a file already starts with, over a file that holds nothing
beyond what such a write leaves, changes nothing. -/
theorem Write_again (fs : FS) (h : Loc) (c data : Bytes) (hne : h ≠ [])
    (hf : fs.find h = some (Node.file (data ++ c.drop data.length))) :
    WriteString fs h data = fs := by
  rw [WriteString_eq fs h _ data hf]
  have hl : lookup h fs.nodes = some (Node.file (data ++ c.drop data.length)) := by
    unfold FS.find at hf
    rw [if_neg hne] at hf
    exact hf
  have hd : (data ++ c.drop data.length).drop data.length = c.drop data.length := by
    simp
  rw [hd, store_same h _ fs.nodes hl]

theorem viewFile_fs (name : Str) (w : World) : (viewFile name w).world.fs = w.fs := by
  unfold viewFile
  split
  · rfl
  · rfl
  · simp only []
    split <;> rfl

theorem storeReply_out (inflate : Bytes → GzipResult) (download : Option Download)
    (path fileTag : Str) (quiet view : Bool) (w3 : World) :
    ∃ post, (storeReply inflate download path fileTag quiet view w3).world.out = w3.out ++ post := by
  unfold storeReply
  split
  · exact ⟨[], by simp [Outcome.world]⟩
  · split
    · split
      · split
        · exact ⟨[_], rfl⟩
        · exact ⟨[_], rfl⟩
        · split
          · exact ⟨[_], rfl⟩
          · rename_i data _ _ fs1 file _
            cases quiet <;> cases view
            · exact ⟨[Printed.text ("[*] Download Successful: ".toList ++ path)], rfl⟩
            · obtain ⟨extra, he, _⟩ := viewFile_out (fullPath fileTag path)
                (println ("[*] Download Successful: ".toList ++ path)
                  { w3 with fs := WriteString fs1 file data })
              refine ⟨[Printed.text ("[*] Download Successful: ".toList ++ path)] ++ extra, ?_⟩
              show (viewFile (fullPath fileTag path)
                (println ("[*] Download Successful: ".toList ++ path)
                  { w3 with fs := WriteString fs1 file data })).world.out = _
              rw [he]
              simp [println]
            · exact ⟨[], by simp [Outcome.world]⟩
            · obtain ⟨extra, he, _⟩ := viewFile_out (fullPath fileTag path)
                { w3 with fs := WriteString fs1 file data }
              refine ⟨extra, ?_⟩
              show (viewFile (fullPath fileTag path)
                { w3 with fs := WriteString fs1 file data }).world.out = _
              rw [he]
      · exact ⟨[], by simp [Outcome.world]⟩
    · exact ⟨[], by simp [Outcome.world]⟩

/-- Handling the same response again, in the state the first handling left, ends
in the same way; the first handling added no directory. -/
theorem storeReply_second (inflate : Bytes → GzipResult) (download : Option Download)
    (path fileTag : Str) (quiet view : Bool) (w3 : World) :
    Ext w3.fs (storeReply inflate download path fileTag quiet view w3).world.fs ∧
    SameDirs w3.fs (storeReply inflate download path fileTag quiet view w3).world.fs ∧
    storeReply inflate download path fileTag quiet view
      ⟨(storeReply inflate download path fileTag quiet view w3).world.fs, w3.out, w3.requests⟩
      = storeReply inflate download path fileTag quiet view w3 := by
  unfold storeReply
  split
  · exact ⟨Ext_refl _, SameDirs_refl _, rfl⟩
  · rename_i d
    by_cases hex : d.Exists = true
    · simp only [hex, if_true]
      by_cases henc : d.Encoder = "gzip".toList
      · simp only [henc, if_true]
        cases hg : gunzip inflate d.Data with
        | readerErr msg => exact ⟨Ext_refl _, SameDirs_refl _, rfl⟩
        | copyErr msg => exact ⟨Ext_refl _, SameDirs_refl _, rfl⟩
        | ok data =>
          simp only []
          cases ho : OpenFileCreateWronly w3.fs (fullPath fileTag path) with
          | error e =>
            refine ⟨Ext_refl _, SameDirs_refl _, ?_⟩
            simp only [Outcome.world, println]
            rw [ho]
          | ok r =>
            obtain ⟨fs1, file⟩ := r
            simp only []
            obtain ⟨hext1, hsame1, hne, c, hc⟩ := Open_facts _ _ _ _ ho
            obtain ⟨hext2, hsame2, hfind⟩ := Write_facts fs1 file c data hne hc
            have hS : (if view = true then
                viewFile (fullPath fileTag path)
                  (if (!quiet) = true then
                    println ("[*] Download Successful: ".toList ++ path)
                      { w3 with fs := WriteString fs1 file data }
                  else { w3 with fs := WriteString fs1 file data })
              else Outcome.done ()
                  (if (!quiet) = true then
                    println ("[*] Download Successful: ".toList ++ path)
                      { w3 with fs := WriteString fs1 file data }
                  else { w3 with fs := WriteString fs1 file data })).world.fs
                = WriteString fs1 file data := by
              cases view <;> cases quiet
              · rfl
              · rfl
              · exact viewFile_fs _ _
              · exact viewFile_fs _ _
            rw [hS]
            refine ⟨Ext_trans hext1 hext2, SameDirs_trans hsame1 hsame2, ?_⟩
            have hopen : OpenFileCreateWronly (WriteString fs1 file data) (fullPath fileTag path)
                = Except.ok (WriteString fs1 file data, file) :=
              Open_again _ _ _ _ _ ho (Ext_trans hext1 hext2) ⟨_, hfind⟩
            simp only [hopen]
            rw [Write_again _ file c data hne hfind]
      · simp only [henc, if_false]
        exact ⟨Ext_refl _, SameDirs_refl _, rfl⟩
    · simp only [hex, if_false]
      exact ⟨Ext_refl _, SameDirs_refl _, rfl⟩

/-- When the first run of `downloadFile` makes its directories without error, a
second run with the same inputs ends exactly as the first. -/
theorem downloadReply_second (inflate : Bytes → GzipResult) (reply : DownloadReply)
    (path fileTag : Str) (quiet view : Bool) (fs : FS)
    (hdirs : ∀ p ∈ (downloadReply inflate reply path fileTag quiet view ⟨fs, [], []⟩).world.out,
      ¬ isDirectoryError p) :
    downloadReply inflate reply path fileTag quiet view
      ⟨(downloadReply inflate reply path fileTag quiet view ⟨fs, [], []⟩).world.fs, [], []⟩
      = downloadReply inflate reply path fileTag quiet view ⟨fs, [], []⟩ := by
  rw [downloadReply_eq inflate reply path fileTag quiet view ⟨fs, [], []⟩] at hdirs ⊢
  rw [downloadReply_eq]
  have hout : (rebuildDirs path fileTag (announce reply.err path quiet ⟨fs, [], []⟩)).out
      = (announce reply.err path quiet ⟨fs, [], []⟩).out := by
    rcases rebuildDirs_out_cases path fileTag (announce reply.err path quiet ⟨fs, [], []⟩)
      with h | ⟨m, h⟩
    · exact h
    · exfalso
      obtain ⟨post, hpost⟩ := storeReply_out inflate reply.download path fileTag quiet view
        (rebuildDirs path fileTag (announce reply.err path quiet ⟨fs, [], []⟩))
      refine hdirs (Printed.text ("Error creating directory: ".toList ++ m)) ?_ ?_
      · rw [hpost, h]; simp
      · simp [isDirectoryError, String.toList]
  obtain ⟨hext, hsame, hagain⟩ := storeReply_second inflate reply.download path fileTag quiet view
    (rebuildDirs path fileTag (announce reply.err path quiet ⟨fs, [], []⟩))
  rw [announce_swap reply.err path quiet fs]
  rw [rebuildDirs_second path fileTag (announce reply.err path quiet ⟨fs, [], []⟩) hout _ _ _
    hext hsame]
  have hreq : (rebuildDirs path fileTag (announce reply.err path quiet ⟨fs, [], []⟩)).requests
      = [] := by
    rw [rebuildDirs_requests, announce_requests]
  rw [hout, hreq] at hagain
  exact hagain

/-! ## C3 -/

/-- The report of a directory that cannot be made is an error report. -/
theorem isError_of_directory (p : Printed) (h : isDirectoryError p) : isError p := by
  cases p with
  | text s =>
    obtain ⟨t, ht⟩ := h
    exact Or.inr ⟨"creating directory:".toList ++ t, by rw [← ht]; rfl⟩
  | bytes b => exact h
  | table header rows => exact h

/-- C3 (confirmed): for every tag, remote path, response and local file system, when
a run of `downloadFile` reports no error, a second run with the same inputs leaves
the file system exactly as the first run left it (the same directories, the same
files with the same contents), so it makes no directory, and it reports no
error either: it prints exactly what the first run printed. -/
theorem C3_second_run_changes_nothing (inflate : Bytes → GzipResult) (reply : DownloadReply)
    (path fileTag : Str) (quiet view : Bool) (fs : FS)
    (hok : ∀ p ∈ (downloadReply inflate reply path fileTag quiet view ⟨fs, [], []⟩).world.out,
      ¬ isError p) :
    (downloadReply inflate reply path fileTag quiet view
      ⟨(downloadReply inflate reply path fileTag quiet view ⟨fs, [], []⟩).world.fs, [], []⟩).world.fs
      = (downloadReply inflate reply path fileTag quiet view ⟨fs, [], []⟩).world.fs ∧
    (downloadReply inflate reply path fileTag quiet view
      ⟨(downloadReply inflate reply path fileTag quiet view ⟨fs, [], []⟩).world.fs, [], []⟩).world.fs.dirs
      = (downloadReply inflate reply path fileTag quiet view ⟨fs, [], []⟩).world.fs.dirs ∧
    (downloadReply inflate reply path fileTag quiet view
      ⟨(downloadReply inflate reply path fileTag quiet view ⟨fs, [], []⟩).world.fs, [], []⟩).world.fs.files
      = (downloadReply inflate reply path fileTag quiet view ⟨fs, [], []⟩).world.fs.files ∧
    (∀ p ∈ (downloadReply inflate reply path fileTag quiet view
      ⟨(downloadReply inflate reply path fileTag quiet view ⟨fs, [], []⟩).world.fs,
        [], []⟩).world.out, ¬ isError p) ∧
    (downloadReply inflate reply path fileTag quiet view
      ⟨(downloadReply inflate reply path fileTag quiet view ⟨fs, [], []⟩).world.fs, [], []⟩).world.out
      = (downloadReply inflate reply path fileTag quiet view ⟨fs, [], []⟩).world.out := by
  rw [downloadReply_second inflate reply path fileTag quiet view fs
    (fun p hp hd => hok p hp (isError_of_directory p hd))]
  exact ⟨rfl, rfl, rfl, hok, rfl⟩

/-- C3 (witness): "/etc/passwd" mirrored twice under the tag "10.0.0.5:4444": the
first run prints nothing, and the second leaves the file with its content in
place. -/
theorem C3_second_run_changes_nothing_witness :
    (downloadReply (fun _ => GzipResult.ok (ascii "root:x:0:0\n"))
      ⟨some ⟨true, "gzip".toList, [0x1f, 0x8b, 8, 0, 0, 0, 0, 0, 0, 3, 0]⟩, none⟩
      "/etc/passwd".toList "10.0.0.5:4444".toList true false ⟨⟨[], []⟩, [], []⟩).world.out = [] ∧
    (downloadReply (fun _ => GzipResult.ok (ascii "root:x:0:0\n"))
      ⟨some ⟨true, "gzip".toList, [0x1f, 0x8b, 8, 0, 0, 0, 0, 0, 0, 3, 0]⟩, none⟩
      "/etc/passwd".toList "10.0.0.5:4444".toList true false ⟨⟨[], []⟩, [], []⟩).world.fs.files
      = [(["10.0.0.5:4444".toList, "etc".toList, "passwd".toList], ascii "root:x:0:0\n")] ∧
    (downloadReply (fun _ => GzipResult.ok (ascii "root:x:0:0\n"))
      ⟨some ⟨true, "gzip".toList, [0x1f, 0x8b, 8, 0, 0, 0, 0, 0, 0, 3, 0]⟩, none⟩
      "/etc/passwd".toList "10.0.0.5:4444".toList true false
      ⟨(downloadReply (fun _ => GzipResult.ok (ascii "root:x:0:0\n"))
        ⟨some ⟨true, "gzip".toList, [0x1f, 0x8b, 8, 0, 0, 0, 0, 0, 0, 3, 0]⟩, none⟩
        "/etc/passwd".toList "10.0.0.5:4444".toList true false ⟨⟨[], []⟩, [], []⟩).world.fs,
        [], []⟩).world.fs
      = (downloadReply (fun _ => GzipResult.ok (ascii "root:x:0:0\n"))
        ⟨some ⟨true, "gzip".toList, [0x1f, 0x8b, 8, 0, 0, 0, 0, 0, 0, 3, 0]⟩, none⟩
        "/etc/passwd".toList "10.0.0.5:4444".toList true false ⟨⟨[], []⟩, [], []⟩).world.fs :=
  ⟨by decide, by decide,
    (C3_second_run_changes_nothing (fun _ => GzipResult.ok (ascii "root:x:0:0\n"))
      ⟨some ⟨true, "gzip".toList, [0x1f, 0x8b, 8, 0, 0, 0, 0, 0, 0, 3, 0]⟩, none⟩
      "/etc/passwd".toList "10.0.0.5:4444".toList true false ⟨[], []⟩
      (by
        intro p hp
        rw [show (downloadReply (fun _ => GzipResult.ok (ascii "root:x:0:0\n"))
          ⟨some ⟨true, "gzip".toList, [0x1f, 0x8b, 8, 0, 0, 0, 0, 0, 0, 3, 0]⟩, none⟩
          "/etc/passwd".toList "10.0.0.5:4444".toList true false
          ⟨⟨[], []⟩, [], []⟩).world.out = [] from by decide] at hp
        cases hp)).1⟩

/-! ## A doubled separator names the same file -/

/-- The directory reached by walking `segs` from `cur`, checked to be a directory. -/
theorem walk_checked_skip (fs : FS) (a rest : List Str) (cur : Loc) :
    (match fs.walk cur (a ++ [] :: rest) with
      | Except.error e => (Except.error e : Except Errno Loc)
      | Except.ok par =>
        match fs.find par with
        | none => Except.error Errno.ENOENT
        | some (Node.file _) => Except.error Errno.ENOTDIR
        | some Node.dir => Except.ok par) =
    (match fs.walk cur (a ++ rest) with
      | Except.error e => (Except.error e : Except Errno Loc)
      | Except.ok par =>
        match fs.find par with
        | none => Except.error Errno.ENOENT
        | some (Node.file _) => Except.error Errno.ENOTDIR
        | some Node.dir => Except.ok par) := by
  rw [walk_append, walk_append]
  cases fs.walk cur a with
  | error e => rfl
  | ok L =>
    simp only [FS.walk]
    cases hf : fs.find L with
    | none =>
      have hs : ∀ s, fs.step L s = Except.error Errno.ENOENT := by
        intro s; unfold FS.step; rw [hf]
      rw [hs]
      cases rest with
      | nil => simp [FS.walk, hf]
      | cons s r => simp [FS.walk, hs]
    | some n =>
      cases n with
      | file c =>
        have hs : ∀ s, fs.step L s = Except.error Errno.ENOTDIR := by
          intro s; unfold FS.step; rw [hf]
        rw [hs]
        cases rest with
        | nil => simp [FS.walk, hf]
        | cons s r => simp [FS.walk, hs]
      | dir =>
        have hs : fs.step L [] = Except.ok L := by
          unfold FS.step; rw [hf]; simp
        rw [hs]

theorem parent_of_shape (fs : FS) (name : Str) (hn : name ≠ []) (last : Str)
    (revInit : List Str) (h : (trimSegs (Split '/' name)).reverse = last :: revInit) :
    fs.parent name =
      match (match fs.walk (fs.start name) revInit.reverse with
        | Except.error e => (Except.error e : Except Errno Loc)
        | Except.ok par =>
          match fs.find par with
          | none => Except.error Errno.ENOENT
          | some (Node.file _) => Except.error Errno.ENOTDIR
          | some Node.dir => Except.ok par) with
      | Except.error e => Except.error e
      | Except.ok par => Except.ok (some (par, last)) := by
  unfold FS.parent
  rw [if_neg hn, h]
  simp only []
  cases fs.walk (fs.start name) revInit.reverse with
  | error e => rfl
  | ok par =>
    simp only []
    cases fs.find par with
    | none => rfl
    | some n => cases n <;> rfl

theorem parent_of_empties (fs : FS) (name : Str) (hn : name ≠ [])
    (h : (trimSegs (Split '/' name)).reverse = []) : fs.parent name = Except.ok none := by
  unfold FS.parent
  rw [if_neg hn, h]

theorem start_doubled (fs : FS) (tag rest : Str) :
    fs.start (tag ++ '/' :: '/' :: rest) = fs.start (tag ++ '/' :: rest) := by
  cases tag with
  | nil => rfl
  | cons c cs =>
    rw [start_extended fs (c :: cs) _ (by simp), start_extended fs (c :: cs) _ (by simp)]

theorem trim_eq_of_shape (init : List Str) (last : Str) (k : Nat) (hl : last ≠ []) :
    trimSegs (init ++ last :: List.replicate k []) = init ++ [last] := by
  have h := congrArg List.reverse (trim_of_shape init last k hl)
  simpa using h

theorem trim_ne_iff (init : List Str) (last : Str) (k : Nat) (hl : last ≠ []) :
    trimSegs (init ++ last :: List.replicate k []) ≠ init ++ last :: List.replicate k [] ↔
      k ≠ 0 := by
  rw [trim_eq_of_shape init last k hl]
  cases k with
  | zero => simp
  | succ n => simp [List.replicate_succ]

theorem trim_empties_ne (k : Nat) :
    trimSegs (List.replicate (k + 1) ([] : Str)) ≠ List.replicate (k + 1) [] := by
  have h := congrArg List.reverse (trim_of_empties (k + 1))
  simp only [List.reverse_reverse, List.reverse_nil] at h
  rw [h]
  simp [List.replicate_succ]

theorem replicate_append_nil (j k : Nat) :
    List.replicate j ([] : Str) ++ List.replicate k [] = List.replicate (j + k) [] :=
  (List.replicate_add j k []).symm

theorem replicate_mid (j n : Nat) :
    List.replicate j ([] : Str) ++ [] :: List.replicate n [] = List.replicate (j + n + 1) [] := by
  rw [← List.replicate_succ, replicate_append_nil]
  rfl

/-- Opening for writing depends on the name only through the directory found for
it and through whether the name ends in a separator. -/
theorem Open_congr (fs : FS) (n1 n2 : Str) (h1 : fs.parent n1 = fs.parent n2)
    (h2 : trimSegs (Split '/' n1) ≠ Split '/' n1 ↔ trimSegs (Split '/' n2) ≠ Split '/' n2) :
    OpenFileCreateWronly fs n1 = OpenFileCreateWronly fs n2 := by
  unfold OpenFileCreateWronly
  rw [h1]
  cases fs.parent n2 with
  | error e => rfl
  | ok r =>
    cases r with
    | none => rfl
    | some pl =>
      obtain ⟨par, last⟩ := pl
      simp only []
      by_cases hc : trimSegs (Split '/' n2) ≠ Split '/' n2
      · rw [if_pos (Or.inr (Or.inr (h2.2 hc))), if_pos (Or.inr (Or.inr hc))]
      · have hc1 : ¬ trimSegs (Split '/' n1) ≠ Split '/' n1 := fun h => hc (h2.1 h)
        by_cases hl : last = ['.'] ∨ last = ['.', '.']
        · rw [if_pos (by tauto), if_pos (by tauto)]
        · rw [if_neg (by tauto), if_neg (by tauto)]

/-- A doubled separator after the tag changes nothing: `tag//rest` and `tag/rest`
open the same file. -/
theorem Open_doubled (fs : FS) (tag rest : Str) :
    OpenFileCreateWronly fs (tag ++ '/' :: '/' :: rest) =
      OpenFileCreateWronly fs (tag ++ '/' :: rest) := by
  have hn1 : tag ++ '/' :: '/' :: rest ≠ [] := by simp
  have hn2 : tag ++ '/' :: rest ≠ [] := by simp
  have hs1 : Split '/' (tag ++ '/' :: '/' :: rest) = Split '/' tag ++ [] :: Split '/' rest := by
    rw [Split_append_sep]
    simp [Split]
  have hs2 : Split '/' (tag ++ '/' :: rest) = Split '/' tag ++ Split '/' rest :=
    Split_append_sep _ _ _
  cases hb : (trimSegs (Split '/' rest)).reverse with
  | cons last ri =>
    -- the rest has a component that is not empty
    obtain ⟨hl, k, hk⟩ := trim_shape _ _ _ hb
    have e1 : Split '/' (tag ++ '/' :: '/' :: rest)
        = (Split '/' tag ++ [] :: ri.reverse) ++ last :: List.replicate k [] := by
      rw [hs1, hk]; simp
    have e2 : Split '/' (tag ++ '/' :: rest)
        = (Split '/' tag ++ ri.reverse) ++ last :: List.replicate k [] := by
      rw [hs2, hk]; simp
    apply Open_congr
    · rw [parent_of_shape fs _ hn1 last (Split '/' tag ++ [] :: ri.reverse).reverse
          (by rw [e1]; exact trim_of_shape _ _ _ hl),
        parent_of_shape fs _ hn2 last (Split '/' tag ++ ri.reverse).reverse
          (by rw [e2]; exact trim_of_shape _ _ _ hl)]
      rw [List.reverse_reverse, List.reverse_reverse, start_doubled, walk_checked_skip]
    · rw [e1, e2, trim_ne_iff _ _ _ hl, trim_ne_iff _ _ _ hl]
  | nil =>
    -- the rest is made of separators only
    obtain ⟨k, hk⟩ := trim_shape_nil _ hb
    have hk0 : k ≠ 0 := by
      intro e
      rw [e] at hk
      exact Split_ne_nil _ _ hk
    obtain ⟨m, rfl⟩ : ∃ m, k = m + 1 := ⟨k - 1, by omega⟩
    cases ha : (trimSegs (Split '/' tag)).reverse with
    | nil =>
      obtain ⟨j, hj⟩ := trim_shape_nil _ ha
      have e1 : Split '/' (tag ++ '/' :: '/' :: rest) = List.replicate (j + (m + 1) + 1) [] := by
        rw [hs1, hk, hj, replicate_mid]
      have e2 : Split '/' (tag ++ '/' :: rest) = List.replicate (j + m + 1) [] := by
        rw [hs2, hk, hj, replicate_append_nil]
        rfl
      apply Open_congr
      · rw [parent_of_empties fs _ hn1 (by rw [e1]; exact trim_of_empties _),
          parent_of_empties fs _ hn2 (by rw [e2]; exact trim_of_empties _)]
      · rw [e1, e2]
        exact ⟨fun _ => trim_empties_ne _, fun _ => trim_empties_ne _⟩
    | cons last ri =>
      obtain ⟨hl, j, hj⟩ := trim_shape _ _ _ ha
      have e1 : Split '/' (tag ++ '/' :: '/' :: rest)
          = ri.reverse ++ last :: List.replicate (j + (m + 1) + 1) [] := by
        rw [hs1, hk, hj]
        simp only [List.append_assoc, List.cons_append]
        rw [replicate_mid]
      have e2 : Split '/' (tag ++ '/' :: rest)
          = ri.reverse ++ last :: List.replicate (j + (m + 1)) [] := by
        rw [hs2, hk, hj]
        simp only [List.append_assoc, List.cons_append]
        rw [replicate_append_nil]
      apply Open_congr
      · rw [parent_of_shape fs _ hn1 last ri (by
            rw [e1]; simpa using trim_of_shape ri.reverse last _ hl),
          parent_of_shape fs _ hn2 last ri (by
            rw [e2]; simpa using trim_of_shape ri.reverse last _ hl), start_doubled]
      · rw [e1, e2, trim_ne_iff _ _ _ hl, trim_ne_iff _ _ _ hl]
        constructor <;> intro _ <;> omega

/-! ## C1, the amended statement -/

/-- C1 (amended): for every tag and remote path without a `%`, the local path that
`downloadFile` opens is the tag, one "/", and the path; when the remote path is
absolute, opening that local path is the same as opening the tag followed by the
path, on every file system. -/
theorem C1_local_path (fileTag path : Str) (ht : '%' ∉ fileTag) (hp : '%' ∉ path) :
    fullPath fileTag path = fileTag ++ ['/'] ++ path ∧
    ∀ (fs : FS) (rest : Str), path = '/' :: rest →
      OpenFileCreateWronly fs (fullPath fileTag path) = OpenFileCreateWronly fs (fileTag ++ path) := by
  have h : fullPath fileTag path = fileTag ++ ['/'] ++ path := by
    unfold fullPath
    apply Sprintf_plain
    simp [ht, hp]
  refine ⟨h, ?_⟩
  intro fs rest hr
  rw [h, hr]
  have e : fileTag ++ ['/'] ++ '/' :: rest = fileTag ++ '/' :: '/' :: rest := by simp
  rw [e]
  exact Open_doubled fs fileTag rest

/-- C1 (witness): the amended statement at tag "10.0.0.5:4444", path "/etc/passwd". -/
theorem C1_local_path_witness :
    '%' ∉ "10.0.0.5:4444".toList ∧ '%' ∉ "/etc/passwd".toList ∧
    fullPath "10.0.0.5:4444".toList "/etc/passwd".toList =
      "10.0.0.5:4444".toList ++ ['/'] ++ "/etc/passwd".toList ∧
    ∀ (fs : FS) (rest : Str), "/etc/passwd".toList = '/' :: rest →
      OpenFileCreateWronly fs (fullPath "10.0.0.5:4444".toList "/etc/passwd".toList) =
        OpenFileCreateWronly fs ("10.0.0.5:4444".toList ++ "/etc/passwd".toList) :=
  ⟨by decide, by decide, C1_local_path _ _ (by decide) (by decide)⟩

/-! ## The lookup tables of `resolveBpf` and `resolvePtrace` -/

theorem rangeLookup_mem : ∀ (order : List (Int × Str)) (k : Int) (v : Str),
    (order.map Prod.fst).Nodup → (k, v) ∈ order → rangeLookup order k = v := by
  intro order
  induction order with
  | nil => intro k v _ h; cases h
  | cons x rest ih =>
    intro k v hn hm
    obtain ⟨key, value⟩ := x
    rw [List.map_cons, List.nodup_cons] at hn
    simp only [rangeLookup]
    rcases List.mem_cons.1 hm with h | h
    · cases h; simp
    · have hne : key ≠ k := by
        intro hk
        subst hk
        exact hn.1 (List.mem_map.2 ⟨(key, v), h, rfl⟩)
      rw [if_neg hne]
      exact ih k v hn.2 h

theorem rangeLookup_not_mem : ∀ (order : List (Int × Str)) (k : Int),
    k ∉ order.map Prod.fst → rangeLookup order k = "Value not found".toList := by
  intro order
  induction order with
  | nil => intro k _; rfl
  | cons x rest ih =>
    intro k hk
    obtain ⟨key, value⟩ := x
    simp only [List.map_cons, List.mem_cons, not_or] at hk
    simp only [rangeLookup]
    rw [if_neg (fun h => hk.1 h.symm)]
    exact ih k hk.2

/-- The result of the loop does not depend on the order in which the entries of a
map (keys all different) are visited. -/
theorem rangeLookup_perm (table order : List (Int × Str)) (hn : (table.map Prod.fst).Nodup)
    (hp : order.Perm table) (k : Int) : rangeLookup order k = rangeLookup table k := by
  have hn1 : (order.map Prod.fst).Nodup := (hp.map Prod.fst).nodup_iff.2 hn
  by_cases hk : k ∈ table.map Prod.fst
  · obtain ⟨x, hx, rfl⟩ := List.mem_map.1 hk
    rw [rangeLookup_mem table x.1 x.2 hn hx, rangeLookup_mem order x.1 x.2 hn1 (hp.mem_iff.2 hx)]
  · rw [rangeLookup_not_mem table k hk]
    exact rangeLookup_not_mem order k (fun h => hk ((hp.map Prod.fst).mem_iff.1 h))

theorem resolveBpf_eq (bpfValue : Str) : resolveBpf bpfValue = resolveBpfIn bpfValues bpfValue := by
  unfold resolveBpf resolveBpfIn bpfValues
  simp only [rangeLookup]
  by_cases h0 : (Atoi bpfValue).1 = 0
  · simp [h0]
  by_cases h1 : (Atoi bpfValue).1 = 1
  · simp [h1]
  by_cases h2 : (Atoi bpfValue).1 = 2
  · simp [h2]
  simp only [if_neg h0, if_neg h1, if_neg h2, if_neg (Ne.symm h0), if_neg (Ne.symm h1),
    if_neg (Ne.symm h2)]

theorem resolvePtrace_eq (ptraceValue : Str) :
    resolvePtrace ptraceValue = resolvePtraceIn ptraceValues ptraceValue := by
  unfold resolvePtrace resolvePtraceIn ptraceValues
  simp only [rangeLookup]
  by_cases h0 : (Atoi ptraceValue).1 = 0
  · simp [h0]
  by_cases h1 : (Atoi ptraceValue).1 = 1
  · simp [h1]
  by_cases h2 : (Atoi ptraceValue).1 = 2
  · simp [h2]
  by_cases h3 : (Atoi ptraceValue).1 = 3
  · simp [h3]
  simp only [if_neg h0, if_neg h1, if_neg h2, if_neg h3, if_neg (Ne.symm h0),
    if_neg (Ne.symm h1), if_neg (Ne.symm h2), if_neg (Ne.symm h3)]

/-- C15 (code_bug): both functions discard the error of `strconv.Atoi`, which
returns 0 with it, so a text that is not a number is looked up as key 0: the empty
string, "abc" and "1" followed by a newline (what the control file holds) all give
the description of value 0 and not "Value not found".  A numeral outside the table
("9") does give "Value not found". -/
theorem C15_unparsed_text_reads_as_zero :
    Atoi "1\n".toList = (0, false) ∧
    resolveBpf "1\n".toList = resolveBpf "0".toList ∧
    resolveBpf [] = resolveBpf "0".toList ∧
    resolveBpf "abc".toList = resolveBpf "0".toList ∧
    resolvePtrace "1\n".toList = resolvePtrace "0".toList ∧
    resolvePtrace [] = resolvePtrace "0".toList ∧
    resolvePtrace "abc".toList = resolvePtrace "0".toList ∧
    resolveBpf "0".toList ≠ "Value not found".toList ∧
    resolvePtrace "0".toList ≠ "Value not found".toList ∧
    resolveBpf "1\n".toList ≠ resolveBpf "1".toList ∧
    resolveBpf "9".toList = "Value not found".toList ∧
    resolvePtrace "9".toList = "Value not found".toList := by
  decide

/-- C16 (confirmed): for the decimal numeral of a key of the table, `resolveBpf`
(keys 0, 1, 2) and `resolvePtrace` (keys 0, 1, 2, 3) return the description the
table holds for that key, in whatever order the loop visits the entries of the
map; `resolveBpf("1")` is the description saying that unprivileged users are
completely prohibited from loading BPF programs. -/
theorem C16_numeral_gives_description (order1 order2 : List (Int × Str))
    (h1 : order1.Perm bpfValues) (h2 : order2.Perm ptraceValues) :
    bpfValues.map Prod.fst = [0, 1, 2] ∧ ptraceValues.map Prod.fst = [0, 1, 2, 3] ∧
    (∀ x ∈ bpfValues, resolveBpfIn order1 (showInt x.1) = x.2 ∧ resolveBpf (showInt x.1) = x.2) ∧
    (∀ x ∈ ptraceValues,
      resolvePtraceIn order2 (showInt x.1) = x.2 ∧ resolvePtrace (showInt x.1) = x.2) ∧
    resolveBpfIn order1 "1".toList = "BPF is restricted for unprivileged users -> Unprivileged users are completely prohibited from loading BPF programs or creating BPF maps".toList := by
  have e1 : ∀ v, resolveBpfIn order1 v = resolveBpf v := fun v =>
    (rangeLookup_perm bpfValues order1 (by decide) h1 _).trans (resolveBpf_eq v).symm
  have e2 : ∀ v, resolvePtraceIn order2 v = resolvePtrace v := fun v =>
    (rangeLookup_perm ptraceValues order2 (by decide) h2 _).trans (resolvePtrace_eq v).symm
  refine ⟨rfl, rfl, ?_, ?_, ?_⟩
  · intro x hx
    rw [e1]
    revert x
    decide
  · intro x hx
    rw [e2]
    revert x
    decide
  · rw [e1]
    decide

/-- C16 (witness): the entries visited last to first. -/
theorem C16_numeral_gives_description_witness :
    (bpfValues.reverse.Perm bpfValues ∧ ptraceValues.reverse.Perm ptraceValues) ∧
    resolveBpfIn bpfValues.reverse "1".toList = "BPF is restricted for unprivileged users -> Unprivileged users are completely prohibited from loading BPF programs or creating BPF maps".toList ∧
    resolvePtraceIn ptraceValues.reverse "3".toList = "No ptrace -> This is suitable for systems where debugging and process introspection are entirely unnecessary or prohibited".toList :=
  ⟨⟨List.reverse_perm _, List.reverse_perm _⟩,
    (C16_numeral_gives_description bpfValues.reverse ptraceValues.reverse
      (List.reverse_perm _) (List.reverse_perm _)).2.2.2.2,
    ((C16_numeral_gives_description bpfValues.reverse ptraceValues.reverse
      (List.reverse_perm _) (List.reverse_perm _)).2.2.2.1 (3, _) (by decide)).1⟩

/-! ## C17, C18: what is printed for a response that is not stored -/

theorem errorLines_none (path : Str) : errorLines none path = [] := rfl

/-- A response that is absent, has `Exists` false, or is not tagged "gzip" is not
looked at further: the call ends in the state `rebuildDirs` left. -/
theorem downloadReply_not_stored (inflate : Bytes → GzipResult) (download : Download)
    (err : Option Str) (path fileTag : Str) (quiet view : Bool) (w : World)
    (h : download.Exists = false ∨ download.Encoder ≠ "gzip".toList) :
    downloadReply inflate ⟨some download, err⟩ path fileTag quiet view w
      = Outcome.done () (rebuildDirs path fileTag (announce err path quiet w)) := by
  rw [downloadReply_eq]
  simp only [storeReply]
  rcases h with h | h
  · rw [h]; rfl
  · rw [if_neg h]
    split <;> rfl

/-- C17 (counterexample): a response with exists = true that carries the content
uncompressed (encoder tag "") or under the tag "deflate": `downloadFile` prints
nothing when quiet and only the banner of the request otherwise; no `Unexpected
error` diagnostic is printed. -/
theorem C17_other_encoding_is_silent :
    (downloadReply (fun _ => GzipResult.ok []) ⟨some ⟨true, [], ascii "root:x:0:0"⟩, none⟩
      "/etc/passwd".toList "10.0.0.5:4444".toList true false ⟨⟨[], []⟩, [], []⟩).world.out = [] ∧
    (downloadReply (fun _ => GzipResult.ok []) ⟨some ⟨true, "deflate".toList, ascii "xy"⟩, none⟩
      "/etc/passwd".toList "10.0.0.5:4444".toList false false ⟨⟨[], []⟩, [], []⟩).world.out
      = [Printed.text (List.replicate 70 '='),
         Printed.text "[*] Download Request: /etc/passwd".toList,
         Printed.text (List.replicate 70 '=')] := by
  decide

/-- C17 (amended): for every response with exists = true whose encoder tag is not
"gzip", `downloadFile` does exactly what it does when there is no response at all:
it prints the banner of the request unless quiet, the diagnostic for the error of
the rpc call if there is one, what `rebuildDirs` reports, and returns.  Nothing is
printed about the encoding: an `Unexpected error` diagnostic appears only as the
report of the error of the rpc call, and none appears when that call had no
error. -/
theorem C17_other_encoding_not_reported (inflate : Bytes → GzipResult) (download : Download)
    (err : Option Str) (path fileTag : Str) (quiet view : Bool) (w : World)
    (hex : download.Exists = true) (henc : download.Encoder ≠ "gzip".toList) :
    downloadReply inflate ⟨some download, err⟩ path fileTag quiet view w
      = downloadReply inflate ⟨none, err⟩ path fileTag quiet view w ∧
    (downloadReply inflate ⟨some download, err⟩ path fileTag quiet view w).returned = true ∧
    ∃ pre post,
      (downloadReply inflate ⟨some download, err⟩ path fileTag quiet view w).world.out
        = w.out ++ pre ++ errorLines err path ++ post ∧
      (∀ p ∈ pre ++ post, ¬ isUnexpected p) ∧
      (err = none → errorLines err path = []) := by
  have hd : downloadReply inflate ⟨some download, err⟩ path fileTag quiet view w
      = Outcome.done () (rebuildDirs path fileTag (announce err path quiet w)) := by
    rw [downloadReply_eq]
    simp only [storeReply]
    rw [hex, if_pos rfl, if_neg henc]
  refine ⟨hd, by rw [hd]; rfl, ?_⟩
  obtain ⟨pre, post, hout, hpre, hpost⟩ :=
    downloadReply_out inflate ⟨some download, err⟩ path fileTag quiet view w
  refine ⟨pre, post, hout, ?_, ?_⟩
  · intro p hp
    rcases List.mem_append.1 hp with hp | hp
    · exact (hpre p hp).1
    · exact (hpost p hp).1
  · intro he
    rw [he]
    rfl

/-- C17 (witness): content sent under the tag "deflate", without error of the call. -/
theorem C17_other_encoding_not_reported_witness :
    ((⟨true, "deflate".toList, ascii "xy"⟩ : Download).Exists = true ∧
      (⟨true, "deflate".toList, ascii "xy"⟩ : Download).Encoder ≠ "gzip".toList) ∧
    downloadReply (fun _ => GzipResult.ok []) ⟨some ⟨true, "deflate".toList, ascii "xy"⟩, none⟩
        "/etc/passwd".toList "t".toList false false ⟨⟨[], []⟩, [], []⟩
      = downloadReply (fun _ => GzipResult.ok []) ⟨none, none⟩
        "/etc/passwd".toList "t".toList false false ⟨⟨[], []⟩, [], []⟩ :=
  ⟨⟨rfl, by decide⟩,
    (C17_other_encoding_not_reported (fun _ => GzipResult.ok []) ⟨true, "deflate".toList, ascii "xy"⟩
      none "/etc/passwd".toList "t".toList false false ⟨⟨[], []⟩, [], []⟩ rfl (by decide)).1⟩

/-- C18 (counterexample): a response with exists = false and no error of the rpc
call: `downloadFile` prints nothing when quiet and only the banner of the request
otherwise; no `No such file or directory` diagnostic is printed. -/
theorem C18_absent_file_is_silent :
    (downloadReply (fun _ => GzipResult.ok []) ⟨some ⟨false, [], []⟩, none⟩
      "/etc/hosts.deny".toList "10.0.0.5:4444".toList true false ⟨⟨[], []⟩, [], []⟩).world.out = [] ∧
    (downloadReply (fun _ => GzipResult.ok []) ⟨some ⟨false, [], []⟩, none⟩
      "/etc/hosts.deny".toList "10.0.0.5:4444".toList false false ⟨⟨[], []⟩, [], []⟩).world.out
      = [Printed.text (List.replicate 70 '='),
         Printed.text "[*] Download Request: /etc/hosts.deny".toList,
         Printed.text (List.replicate 70 '=')] := by
  decide

/-- C18 (amended): for every fetch whose response has exists = false, `downloadFile`
prints the `No such file or directory` diagnostic only as the report of the error
of the rpc call: with no such error it prints no diagnostic for the missing file
(only the banner unless quiet, and what `rebuildDirs` reports) and returns; when
the error message has "no such file or directory" as the third of its pieces
between colons, it prints that diagnostic exactly once, naming the remote path. -/
theorem C18_absent_reported_through_error (inflate : Bytes → GzipResult) (download : Download)
    (path fileTag : Str) (quiet view : Bool) (w : World) (hex : download.Exists = false) :
    (∃ post,
      (downloadReply inflate ⟨some download, none⟩ path fileTag quiet view w).world.out
        = w.out ++ post ∧
      (∀ p ∈ post, ¬ isNotFound p ∧ ¬ isUnexpected p) ∧
      (quiet = true → ∀ p ∈ post, isDirectoryError p)) ∧
    (downloadReply inflate ⟨some download, none⟩ path fileTag quiet view w).returned = true ∧
    ∀ msg : Str, (Split ':' msg).length ≥ 3 →
      TrimSpace ((Split ':' msg).getD 2 []) = "no such file or directory".toList →
      ∃ pre post,
        (downloadReply inflate ⟨some download, some msg⟩ path fileTag quiet view w).world.out
          = w.out ++ pre ++ [Printed.text ("[!] No such file or directory: ".toList ++ path)]
            ++ post ∧
        ∀ p ∈ pre ++ post, ¬ isNotFound p := by
  refine ⟨?_, ?_, ?_⟩
  · obtain ⟨pre, post, hout, hpre, hpost⟩ :=
      downloadReply_out inflate ⟨some download, none⟩ path fileTag quiet view w
    refine ⟨pre ++ post, ?_, ?_, ?_⟩
    · rw [hout, errorLines_none]
      simp
    · intro p hp
      rcases List.mem_append.1 hp with hp | hp
      · exact ⟨(hpre p hp).2, (hpre p hp).1⟩
      · exact ⟨(hpost p hp).2, (hpost p hp).1⟩
    · intro hq
      subst hq
      have hd := downloadReply_not_stored inflate download none path fileTag true view w
        (Or.inl hex)
      rw [hd, errorLines_none] at hout
      simp only [Outcome.world, List.append_nil] at hout
      have hann : announce none path true w = w := rfl
      rw [hann] at hout
      rcases rebuildDirs_out_cases path fileTag w with h | ⟨m, h⟩
      · rw [h] at hout
        have : pre ++ post = [] := by
          have := congrArg List.length hout
          simp only [List.length_append] at this
          apply List.eq_nil_of_length_eq_zero
          simp only [List.length_append]
          omega
        rw [this]
        intro p hp
        cases hp
      · rw [h, List.append_assoc] at hout
        have := List.append_cancel_left hout
        rw [← this]
        intro p hp
        simp only [List.mem_singleton] at hp
        subst hp
        simp [isDirectoryError, String.toList]
  · rw [downloadReply_not_stored inflate download none path fileTag quiet view w (Or.inl hex)]
    rfl
  · intro msg h3 hm
    obtain ⟨pre, post, hout, hpre, hpost⟩ :=
      downloadReply_out inflate ⟨some download, some msg⟩ path fileTag quiet view w
    refine ⟨pre, post, ?_, ?_⟩
    · rw [hout]
      have : errorLines (some msg) path
          = [Printed.text ("[!] No such file or directory: ".toList ++ path)] := by
        simp only [errorLines, reportError, Contains_of_pieces msg h3, if_true]
        rw [if_pos ⟨h3, hm⟩]
        rfl
      rw [this]
    · intro p hp
      rcases List.mem_append.1 hp with hp | hp
      · exact (hpre p hp).2
      · exact (hpost p hp).2

/-- C18 (witness): a response with exists = false, without and with the error a
sliver server sends for a missing file. -/
theorem C18_absent_reported_through_error_witness :
    (⟨false, [], []⟩ : Download).Exists = false ∧
    (downloadReply (fun _ => GzipResult.ok []) ⟨some ⟨false, [], []⟩, none⟩
      "/etc/hosts.deny".toList "t".toList true false ⟨⟨[], []⟩, [], []⟩).returned = true :=
  ⟨rfl, (C18_absent_reported_through_error (fun _ => GzipResult.ok []) ⟨false, [], []⟩
    "/etc/hosts.deny".toList "t".toList true false ⟨⟨[], []⟩, [], []⟩ rfl).2.1⟩

/-! ## C13: the order in which `rebuildDirs` makes directories -/

theorem range_pred_cons (line next : Str) (rest : List Str) (f : Nat → Str) :
    (List.range ((line :: next :: rest).length - 1)).map f
      = f 0 :: (List.range ((next :: rest).length - 1)).map (fun i => f (i + 1)) := by
  have h1 : (line :: next :: rest).length - 1 = rest.length + 1 := by simp
  have h2 : (next :: rest).length - 1 = rest.length := by simp
  rw [h1, h2, List.range_succ_eq_map, List.map_cons, List.map_map]
  rfl

/-- The loop of `rebuildDirs` ensures the directories named by its track and the
segments, in order, and stops after the first creation that fails. -/
theorem rebuildLoop_ensures (parts : List Str) :
    ∀ (track : List Str) (w : World), track ≠ [] →
      (rebuildLoop track parts w).fs
        = ensureAll ((List.range (parts.length - 1)).map fun i =>
            Join (track ++ parts.take (i + 1)) ['/']) w.fs := by
  induction parts with
  | nil => intro track w _; rfl
  | cons line rest ih =>
    intro track w ht
    cases rest with
    | nil => rfl
    | cons next rest1 =>
      rw [range_pred_cons]
      have hdir : Join track ['/'] ++ ['/'] ++ line
          = Join (track ++ (line :: next :: rest1).take (0 + 1)) ['/'] := by
        rw [dir_name]
        exact (Join_snoc track line ht).symm
      have hrest : (fun i => Join (track ++ (line :: next :: rest1).take (i + 1 + 1)) ['/'])
          = fun i => Join ((track ++ [line]) ++ (next :: rest1).take (i + 1)) ['/'] := by
        funext i
        simp
      rw [hrest]
      have hne : track ++ [line] ≠ [] := by simp
      simp only [rebuildLoop, ensureAll, ensureDir]
      rw [hdir]
      cases hs : IsNotExist (Stat w.fs (Join (track ++ (line :: next :: rest1).take (0 + 1)) ['/']))
      · simp only [Bool.false_eq_true, if_false]
        exact ih (track ++ [line]) w hne
      · simp only [if_true]
        cases hmk : Mkdir w.fs (Join (track ++ (line :: next :: rest1).take (0 + 1)) ['/']) with
        | error e => rfl
        | ok fs1 => exact ih (track ++ [line]) _ hne

theorem mirrorDirs_eq (fileTag : Str) (segments : List Str) :
    mirrorDirs fileTag segments
      = (List.range (segments.length - 1)).map fun i =>
          Join ([fileTag] ++ segments.take (i + 1)) ['/'] := rfl

/-- What `rebuildDirs` does to the file system, for every tag: the tag directory
is ensured with the result ignored, then the directories of the path are ensured
in order up to the first creation that fails. -/
theorem rebuildDirs_ensures (path fileTag : Str) (w : World) :
    (rebuildDirs path fileTag w).fs
      = ensureAll (mirrorDirs fileTag (Split '/' path)) (ensureTag w.fs fileTag) := by
  unfold rebuildDirs
  simp only []
  rw [rebuildLoop_ensures _ _ _ (by simp), mirrorDirs_eq]
  congr 1
  unfold ensureTag ensureDir
  cases hs : IsNotExist (Stat w.fs fileTag)
  · rfl
  · simp only [if_true]
    cases hmk : Mkdir w.fs fileTag <;> rfl



theorem Join_merge (a b : Str) (l : List Str) :
    Join (a :: b :: l) ['/'] = Join ((a ++ '/' :: b) :: l) ['/'] := by
  cases l <;> simp [Join, List.intercalate, List.intersperse]

/-- Each directory of the list is the one before it (the tag for the first)
followed by "/" and the next segment. -/
theorem mirrorDirs_cons (fileTag line next : Str) (rest : List Str) :
    mirrorDirs fileTag (line :: next :: rest)
      = (fileTag ++ '/' :: line) :: mirrorDirs (fileTag ++ '/' :: line) (next :: rest) := by
  unfold mirrorDirs
  rw [range_pred_cons]
  congr 1
  · simp [Join, List.intercalate, List.intersperse]
  · apply List.map_congr_left
    intro i _
    rw [List.take_succ_cons]
    exact Join_merge fileTag line _

theorem mirrorDirs_extend (fileTag : Str) (segments : List Str) :
    ∀ d ∈ mirrorDirs fileTag segments, ∃ rest, d = fileTag ++ '/' :: rest := by
  induction segments generalizing fileTag with
  | nil => intro d hd; cases hd
  | cons line rest ih =>
    cases rest with
    | nil => intro d hd; cases hd
    | cons next rest1 =>
      intro d hd
      rw [mirrorDirs_cons] at hd
      rcases List.mem_cons.1 hd with hd | hd
      · exact ⟨line, hd⟩
      · obtain ⟨r, hr⟩ := ih (fileTag ++ '/' :: line) d hd
        exact ⟨line ++ '/' :: r, by rw [hr]; simp⟩

/-- Below a directory that is missing and cannot be made, nothing is made. -/
theorem ensureAll_blocked (fileTag : Str) (ht : fileTag ≠ []) (fs : FS)
    (hs : IsNotExist (Stat fs fileTag) = true) (hm : ∀ fs2, Mkdir fs fileTag ≠ Except.ok fs2) :
    ∀ dirs : List Str, (∀ d ∈ dirs, ∃ rest, d = fileTag ++ '/' :: rest) →
      ensureAll dirs fs = fs := by
  intro dirs
  induction dirs with
  | nil => intro _; rfl
  | cons d rest ih =>
    intro hd
    obtain ⟨r, hr⟩ := hd d (List.mem_cons_self _ _)
    have hrest := ih (fun x hx => hd x (List.mem_cons_of_mem _ hx))
    simp only [ensureAll, ensureDir]
    cases hsd : IsNotExist (Stat fs d)
    · simp only [Bool.false_eq_true, if_false]
      exact hrest
    · simp only [if_true]
      cases hmk : Mkdir fs d with
      | error e => rfl
      | ok fs1 =>
        exfalso
        rw [hr] at hmk
        rcases Mkdir_extended fs fs1 fileTag r ht hmk with h | ⟨fs2, h⟩
        · rw [hs] at h
          cases h
        · exact hm fs2 h

/-- For a tag that is not the empty string, `rebuildDirs` ensures the tag
directory and then the directories of the path, in this order, and makes nothing
after the first creation that fails. -/
theorem rebuildDirs_in_order (path fileTag : Str) (w : World) (ht : fileTag ≠ []) :
    (rebuildDirs path fileTag w).fs
      = ensureAll (fileTag :: mirrorDirs fileTag (Split '/' path)) w.fs := by
  rw [rebuildDirs_ensures]
  simp only [ensureAll, ensureTag]
  cases he : ensureDir w.fs fileTag with
  | ok fs1 => rfl
  | error e =>
    simp only []
    unfold ensureDir at he
    cases hs : IsNotExist (Stat w.fs fileTag)
    · rw [hs] at he
      cases he
    · rw [hs, if_pos rfl] at he
      refine ensureAll_blocked fileTag ht w.fs hs ?_ _ (mirrorDirs_extend fileTag _)
      intro fs2 h2
      rw [h2] at he
      cases he

theorem rebuildDirs_fs_congr (path fileTag : Str) (w w1 : World) (h : w1.fs = w.fs) :
    (rebuildDirs path fileTag w1).fs = (rebuildDirs path fileTag w).fs := by
  rw [rebuildDirs_ensures, rebuildDirs_ensures, h]

/-- C13 (code_bug): the result of `os.Mkdir(fileTag, 0777)` is not looked at, so
the loop goes on after a tag directory that could not be made.  With the empty
string as tag, making the tag fails, and for the path "/srv/data/notes.txt" the
code then makes "/srv" and "/srv/data" in the root of the local file system; the
description (ensure the tag first, nothing deeper after the first creation that
fails) makes nothing.  For every tag that is not empty the code does follow the
description: `rebuildDirs_in_order`. -/
theorem C13_failed_tag_does_not_stop :
    Mkdir ⟨[], []⟩ [] = Except.error Errno.ENOENT ∧
    mirrorDirs [] (Split '/' "/srv/data/notes.txt".toList)
      = ["/".toList, "//srv".toList, "//srv/data".toList] ∧
    (rebuildDirs "/srv/data/notes.txt".toList [] ⟨⟨[], []⟩, [], []⟩).fs.dirs
      = [["srv".toList], ["srv".toList, "data".toList]] ∧
    (rebuildDirs "/srv/data/notes.txt".toList [] ⟨⟨[], []⟩, [], []⟩).out = [] ∧
    (ensureAll ([] :: mirrorDirs [] (Split '/' "/srv/data/notes.txt".toList)) ⟨[], []⟩).dirs
      = [] :=
  ⟨rfl, by decide, by decide, by decide, by decide⟩

/-! ## C19, C20 -/

/-- C19 (counterexample): the fetch of "/etc/hosts.deny" with a response that has
exists = false, on a local file system without the mirror: after the call the
directories "10.0.0.5:4444" and "10.0.0.5:4444/etc" exist. -/
theorem C19_absent_file_leaves_directories :
    (FS.mk [] []).dirs = [] ∧
    (downloadReply (fun _ => GzipResult.ok []) ⟨some ⟨false, [], []⟩, none⟩
      "/etc/hosts.deny".toList "10.0.0.5:4444".toList true false ⟨⟨[], []⟩, [], []⟩).world.fs.dirs
      = [["10.0.0.5:4444".toList], ["10.0.0.5:4444".toList, "etc".toList]] := by
  decide

/-- C19 (amended): for every fetch whose response has exists = false, `downloadFile`
creates, changes and removes no file, and every directory and file of before is
still there; the directories may grow: the file system after the call is the one
`rebuildDirs` leaves for the path and the tag, the same as for a file that exists
(for a tag that is not empty: the tag directory and the directories on the way to
the file are ensured in order). -/
theorem C19_absent_makes_only_directories (inflate : Bytes → GzipResult) (download : Download)
    (err : Option Str) (path fileTag : Str) (quiet view : Bool) (w : World)
    (hex : download.Exists = false) :
    (downloadReply inflate ⟨some download, err⟩ path fileTag quiet view w).world.fs
      = (rebuildDirs path fileTag w).fs ∧
    (downloadReply inflate ⟨some download, err⟩ path fileTag quiet view w).world.fs.files
      = w.fs.files ∧
    Ext w.fs (downloadReply inflate ⟨some download, err⟩ path fileTag quiet view w).world.fs ∧
    (fileTag ≠ [] →
      (downloadReply inflate ⟨some download, err⟩ path fileTag quiet view w).world.fs
        = ensureAll (fileTag :: mirrorDirs fileTag (Split '/' path)) w.fs) := by
  have hd := downloadReply_not_stored inflate download err path fileTag quiet view w (Or.inl hex)
  have hfs : (downloadReply inflate ⟨some download, err⟩ path fileTag quiet view w).world.fs
      = (rebuildDirs path fileTag w).fs := by
    rw [hd]
    exact rebuildDirs_fs_congr path fileTag w _ (announce_fs err path quiet w)
  refine ⟨hfs, ?_, ?_, ?_⟩
  · rw [hfs]
    exact rebuildDirs_files path fileTag w
  · rw [hfs]
    exact rebuildDirs_ext path fileTag w
  · intro ht
    rw [hfs]
    exact rebuildDirs_in_order path fileTag w ht

/-- C19 (witness): the fetch of a file that is absent, on an empty mirror. -/
theorem C19_absent_makes_only_directories_witness :
    (⟨false, [], []⟩ : Download).Exists = false ∧
    (downloadReply (fun _ => GzipResult.ok []) ⟨some ⟨false, [], []⟩, none⟩
      "/etc/hosts.deny".toList "t".toList true false ⟨⟨[], []⟩, [], []⟩).world.fs
      = (rebuildDirs "/etc/hosts.deny".toList "t".toList ⟨⟨[], []⟩, [], []⟩).fs :=
  ⟨rfl, (C19_absent_makes_only_directories (fun _ => GzipResult.ok []) ⟨false, [], []⟩ none
    "/etc/hosts.deny".toList "t".toList true false ⟨⟨[], []⟩, [], []⟩ rfl).1⟩

theorem andThen_done {α β : Type} (a : α) (w : World) (f : α → World → Outcome β) :
    (Outcome.done a w).andThen f = f a w := rfl

theorem main_selected (env : Local) (rpc : Remote) (session : Session) (stdin : List Str)
    (w : World) :
    main env rpc "cfg".toList (Except.ok (some [session])) stdin w
      = seq (survey env rpc session) (println "[*] Connected to sliver server".toList w) := by
  have h : ∀ w1, selectSession [session] stdin w1 = Outcome.done session w1 := fun _ => rfl
  unfold main
  have hc : ¬ "cfg".toList = ([] : Str) := by decide
  rw [if_neg hc]
  simp only [h]
  exact andThen_done _ _ _


/-- C20 (code_bug): with an empty session list the test `len(sessions.Sessions) > 1`
fails and `main` reads `sessions.Sessions[0]`: the run stops on the index panic
right after "[*] Connected to sliver server", with no message of its own and no
request sent.  With exactly one session that session is the target of the whole
run, and the choice reads no input.  The same statements stand in `main` of the
`ps` and `netstat` watchers. -/
theorem C20_empty_session_list_panics :
    (∀ (stdin : List Str) (w : World), selectSession [] stdin w = Outcome.crash w) ∧
    (∀ (env : Local) (rpc : Remote) (stdin : List Str) (w : World),
      main env rpc "cfg".toList (Except.ok (some [])) stdin w
        = Outcome.crash (println "[*] Connected to sliver server".toList w)) ∧
    (∀ (session : Session) (stdin : List Str) (w : World),
      selectSession [session] stdin w = Outcome.done session w) ∧
    (∀ (env : Local) (rpc : Remote) (session : Session) (stdin : List Str) (w : World),
      main env rpc "cfg".toList (Except.ok (some [session])) stdin w
        = seq (survey env rpc session) (println "[*] Connected to sliver server".toList w)) :=
  ⟨fun _ _ => rfl, fun _ _ _ _ => rfl, fun _ _ _ => rfl, main_selected⟩

/-! ## C14: the bytes that reach the file -/

/-- A file found after `Mkdir` was there before, with the same content. -/
theorem Mkdir_find_back (fs fs1 : FS) (name : Str) (h : Mkdir fs name = Except.ok fs1)
    (q : Loc) (c : Bytes) (hq : fs1.find q = some (Node.file c)) :
    fs.find q = some (Node.file c) := by
  rw [Mkdir_ok_iff] at h
  obtain ⟨par, last, _, _, _, _, hfs⟩ := h
  subst hfs
  by_cases hqp : q = par ++ [last]
  · subst hqp
    rw [find_store_self _ _ _ _ (by simp)] at hq
    cases hq
  · rw [find_store_ne _ _ _ _ _ hqp] at hq
    exact hq

theorem ensureDir_find_back (fs fs1 : FS) (dir : Str) (h : ensureDir fs dir = Except.ok fs1)
    (q : Loc) (c : Bytes) (hq : fs1.find q = some (Node.file c)) :
    fs.find q = some (Node.file c) := by
  unfold ensureDir at h
  cases hs : IsNotExist (Stat fs dir)
  · rw [hs] at h
    simp only [Bool.false_eq_true, if_false] at h
    cases h
    exact hq
  · rw [hs, if_pos rfl] at h
    exact Mkdir_find_back fs fs1 dir h q c hq

theorem ensureAll_find_back (dirs : List Str) : ∀ (fs : FS) (q : Loc) (c : Bytes),
    (ensureAll dirs fs).find q = some (Node.file c) → fs.find q = some (Node.file c) := by
  induction dirs with
  | nil => intro fs q c h; exact h
  | cons d rest ih =>
    intro fs q c h
    simp only [ensureAll] at h
    cases he : ensureDir fs d with
    | error e => rw [he] at h; exact h
    | ok fs1 =>
      rw [he] at h
      exact ensureDir_find_back fs fs1 d he q c (ih fs1 q c h)

/-- `rebuildDirs` makes no file: a file found after it was there before. -/
theorem rebuildDirs_find_back (path fileTag : Str) (w : World) (q : Loc) (c : Bytes)
    (h : (rebuildDirs path fileTag w).fs.find q = some (Node.file c)) :
    w.fs.find q = some (Node.file c) := by
  rw [rebuildDirs_ensures] at h
  have h1 := ensureAll_find_back _ _ q c h
  unfold ensureTag at h1
  cases he : ensureDir w.fs fileTag with
  | error e => rw [he] at h1; exact h1
  | ok fs1 =>
    rw [he] at h1
    exact ensureDir_find_back w.fs fs1 fileTag he q c h1

/-- C14 (confirmed): for every response with exists = true and encoder "gzip":
when the payload decompresses to the bytes `b` and the destination is opened at a
place where no file was before the call, the file there holds exactly `b` after the
call (with or without `view`, quiet or not); when decompression fails, no file is
created or changed and the file system is the one `rebuildDirs` left. -/
theorem C14_bytes_persist (inflate : Bytes → GzipResult) (download : Download)
    (err : Option Str) (path fileTag : Str) (quiet view : Bool) (w : World)
    (hex : download.Exists = true) (henc : download.Encoder = "gzip".toList) :
    (∀ (b : Bytes) (fs1 : FS) (file : Loc), gunzip inflate download.Data = GzipResult.ok b →
      OpenFileCreateWronly (rebuildDirs path fileTag w).fs (fullPath fileTag path)
        = Except.ok (fs1, file) →
      w.fs.find file = none →
      (downloadReply inflate ⟨some download, err⟩ path fileTag quiet view w).world.fs.find file
        = some (Node.file b)) ∧
    ((∀ b, gunzip inflate download.Data ≠ GzipResult.ok b) →
      (downloadReply inflate ⟨some download, err⟩ path fileTag quiet view w).world.fs
        = (rebuildDirs path fileTag w).fs ∧
      (downloadReply inflate ⟨some download, err⟩ path fileTag quiet view w).world.fs.files
        = w.fs.files) := by
  have hfs : (rebuildDirs path fileTag (announce err path quiet w)).fs
      = (rebuildDirs path fileTag w).fs :=
    rebuildDirs_fs_congr path fileTag w _ (announce_fs err path quiet w)
  rw [downloadReply_eq]
  simp only [storeReply]
  rw [hex, if_pos rfl, if_pos henc]
  constructor
  · intro b fs1 file hg ho hnew
    rw [hg]
    simp only []
    rw [hfs, ho]
    simp only []
    obtain ⟨par, last, _, _, hfile, hcase⟩ := Open_ok _ fs1 _ file ho
    have hne : file ≠ [] := by rw [hfile]; simp
    have hw : (WriteString fs1 file b).find file = some (Node.file b) := by
      rcases hcase with ⟨c, hc, _⟩ | ⟨_, hfs1⟩
      · rw [rebuildDirs_find_back path fileTag w file c hc] at hnew
        cases hnew
      · have hf : fs1.find file = some (Node.file []) := by
          rw [hfs1]
          exact find_store_self _ _ _ _ hne
        rw [WriteString_eq fs1 file [] b hf]
        simp only [List.drop_nil, List.append_nil]
        exact find_store_self _ _ _ _ hne
    cases quiet <;> cases view
    · exact hw
    · show (viewFile _ _).world.fs.find file = _
      rw [viewFile_fs]
      exact hw
    · exact hw
    · show (viewFile _ _).world.fs.find file = _
      rw [viewFile_fs]
      exact hw
  · intro hfail
    cases hg : gunzip inflate download.Data with
    | ok b => exact absurd hg (hfail b)
    | readerErr msg =>
      simp only [Outcome.world, println]
      exact ⟨hfs, by rw [hfs]; exact rebuildDirs_files path fileTag w⟩
    | copyErr msg =>
      simp only [Outcome.world, println]
      exact ⟨hfs, by rw [hfs]; exact rebuildDirs_files path fileTag w⟩


/-- C14 (witness): the fetch of "/etc/passwd" into an empty mirror, the payload
decompressing to "root:x:0:0" and a newline. -/
theorem C14_bytes_persist_witness :
    ((⟨true, "gzip".toList, [0x1f, 0x8b, 8, 0, 0, 0, 0, 0, 0, 3, 0]⟩ : Download).Exists = true ∧
      gunzip (fun _ => GzipResult.ok (ascii "root:x:0:0\n")) [0x1f, 0x8b, 8, 0, 0, 0, 0, 0, 0, 3, 0]
        = GzipResult.ok (ascii "root:x:0:0\n") ∧
      (FS.mk [] []).find ["t".toList, "etc".toList, "passwd".toList] = none) ∧
    (downloadReply (fun _ => GzipResult.ok (ascii "root:x:0:0\n"))
      ⟨some ⟨true, "gzip".toList, [0x1f, 0x8b, 8, 0, 0, 0, 0, 0, 0, 3, 0]⟩, none⟩
      "/etc/passwd".toList "t".toList true false ⟨⟨[], []⟩, [], []⟩).world.fs.find
        ["t".toList, "etc".toList, "passwd".toList]
      = some (Node.file (ascii "root:x:0:0\n")) :=
  ⟨⟨rfl, by decide, by decide⟩,
    (C14_bytes_persist (fun _ => GzipResult.ok (ascii "root:x:0:0\n"))
      ⟨true, "gzip".toList, [0x1f, 0x8b, 8, 0, 0, 0, 0, 0, 0, 3, 0]⟩ none
      "/etc/passwd".toList "t".toList true false ⟨⟨[], []⟩, [], []⟩ rfl rfl).1
      (ascii "root:x:0:0\n")
      ⟨[], [(["t".toList], Node.dir), (["t".toList, "etc".toList], Node.dir),
        (["t".toList, "etc".toList, "passwd".toList], Node.file [])]⟩
      ["t".toList, "etc".toList, "passwd".toList] (by decide) rfl (by decide)⟩

/-! ## C11, C12: the requests of the sweeps -/

/-- Without `view`, `downloadFile` returns to its caller, having sent one download
request. -/
theorem downloadFile_done (env : Local) (rpc : Remote) (path fileTag : Str) (quiet : Bool)
    (w : World) : ∃ w1, downloadFile env rpc path fileTag quiet false w = Outcome.done () w1 ∧
      w1.requests = w.requests ++ [Request.Download path] := by
  have hreq := downloadFile_requests env rpc path fileTag quiet false w
  have hdone : ∃ w1, downloadFile env rpc path fileTag quiet false w = Outcome.done () w1 := by
    unfold downloadFile
    rw [downloadReply_eq]
    simp only [storeReply]
    split
    · exact ⟨_, rfl⟩
    · split
      · split
        · split
          · exact ⟨_, rfl⟩
          · exact ⟨_, rfl⟩
          · split
            · exact ⟨_, rfl⟩
            · exact ⟨_, rfl⟩
        · exact ⟨_, rfl⟩
      · exact ⟨_, rfl⟩
  obtain ⟨w1, h1⟩ := hdone
  refine ⟨w1, h1, ?_⟩
  rw [h1] at hreq
  exact hreq

/-- A loop that downloads `path x` for the elements `x` that pass a test returns,
having sent these downloads in the order of the list. -/
theorem forEach_downloads {α : Type} (env : Local) (rpc : Remote) (fileTag : Str)
    (p : α → Bool) (path : α → Str) (xs : List α) : ∀ w : World, ∃ w1,
    forEach xs (fun x w2 =>
      if p x then downloadFile env rpc (path x) fileTag true false w2
      else Outcome.done () w2) w = Outcome.done () w1 ∧
    w1.requests = w.requests ++ (xs.filter p).map fun x => Request.Download (path x) := by
  induction xs with
  | nil => intro w; exact ⟨w, rfl, by simp⟩
  | cons x rest ih =>
    intro w
    cases hp : p x
    · obtain ⟨w1, h1, h2⟩ := ih w
      refine ⟨w1, ?_, ?_⟩
      · simp only [forEach, List.map_cons, seq, hp, Bool.false_eq_true, if_false,
          Outcome.andThen]
        exact h1
      · rw [h2, List.filter_cons_of_neg (by simp [hp])]
    · obtain ⟨wd, hd, hdr⟩ := downloadFile_done env rpc (path x) fileTag true w
      obtain ⟨w1, h1, h2⟩ := ih wd
      refine ⟨w1, ?_, ?_⟩
      · simp only [forEach, List.map_cons, seq, hp, if_true, hd, Outcome.andThen]
        exact h1
      · rw [h2, hdr, List.filter_cons_of_pos (by simp [hp])]
        simp

/-- A listing that is answered without error text is returned by
`rawListDirectory`, with the request recorded. -/
theorem rawListDirectory_done (rpc : Remote) (path : Str) (w : World)
    (h : listingReturned rpc w.requests path) : ∃ w1,
    rawListDirectory rpc path w = Outcome.done (listed rpc w.requests path) w1 ∧
    w1.requests = w.requests ++ [Request.Ls path] := by
  obtain ⟨ls, hls, hr⟩ := h
  have hreq := rawListDirectory_requests rpc path w
  have hdone : ∃ w1, rawListDirectory rpc path w
      = Outcome.done (listed rpc w.requests path) w1 := by
    unfold rawListDirectory listed
    simp only [hls]
    rcases hr with hr | hr
    · rw [hr]
      exact ⟨_, rfl⟩
    · rw [hr]
      exact ⟨_, rfl⟩
  obtain ⟨w1, h1⟩ := hdone
  refine ⟨w1, h1, ?_⟩
  rw [h1] at hreq
  exact hreq


/-- The sweep of a listing that is returned and whose file names hold no "%": the
listing request, then one download of `dir`, "/" and the name for every entry
that is not a directory, in listing order; the sweep returns. -/
theorem sweep_requests (env : Local) (rpc : Remote) (fileTag title path dir : Str) (w : World)
    (hl : listingReturned rpc w.requests path) (hd : '%' ∉ dir)
    (hn : ∀ fi ∈ listed rpc w.requests path, fi.IsDir = false → '%' ∉ fi.Name) :
    ∃ w1, sweep env rpc fileTag title path (dir ++ ['/']) w = Outcome.done () w1 ∧
      w1.requests
        = w.requests ++ Request.Ls path :: sweepDownloads dir (listed rpc w.requests path) := by
  have hl1 : listingReturned rpc (makeBorder title w).requests path := hl
  obtain ⟨w1, h1, hr1⟩ := rawListDirectory_done rpc path (makeBorder title w) hl1
  have hreq : (makeBorder title w).requests = w.requests := rfl
  rw [hreq] at h1 hr1
  obtain ⟨w2, h2, hr2⟩ := forEach_downloads env rpc fileTag (fun fi : FileInfo => !fi.IsDir)
    (fun fi => Sprintf (dir ++ ['/'] ++ fi.Name)) (listed rpc w.requests path) w1
  refine ⟨w2, ?_, ?_⟩
  · unfold sweep
    simp only [h1, Outcome.andThen]
    exact h2
  · rw [hr2, hr1, List.append_assoc, List.singleton_append]
    congr 2
    unfold sweepDownloads
    apply List.map_congr_left
    intro fi hfi
    rw [List.mem_filter] at hfi
    have hdir : fi.IsDir = false := by simpa using hfi.2
    rw [Sprintf_plain]
    intro hmem
    simp only [List.mem_append, List.mem_singleton] at hmem
    rcases hmem with (hmem | hmem) | hmem
    · exact hd hmem
    · cases hmem
    · exact hn fi hfi.1 hdir hmem

theorem forEach_cons {α : Type} (x : α) (xs : List α) (body : α → Step) (w : World) :
    forEach (x :: xs) body w = (body x w).andThen fun _ w1 => forEach xs body w1 := rfl

/-- The loop over the names of the history files downloads the entry when its name
is one of them, once. -/
theorem forEach_histFiles (name : Str) (body : Step) (hb : ∀ w, ∃ w1, body w = Outcome.done () w1) :
    ∀ (names : List Str), names.Nodup → ∀ w : World,
      forEach names (fun histFile w4 =>
        if name = histFile then body w4 else Outcome.done () w4) w
        = if name ∈ names then body w else Outcome.done () w := by
  intro names
  induction names with
  | nil => intro _ w; rfl
  | cons a rest ih =>
    intro hnd w
    rw [List.nodup_cons] at hnd
    by_cases ha : name = a
    · subst ha
      obtain ⟨w1, h1⟩ := hb w
      have hrest := ih hnd.2 w1
      rw [if_neg hnd.1] at hrest
      simp only [forEach, List.map_cons, seq, if_true, Outcome.andThen, h1, List.mem_cons,
        true_or]
      exact hrest
    · have hrest := ih hnd.2 w
      simp only [forEach, List.map_cons, seq, if_neg ha, Outcome.andThen, List.mem_cons,
        ha, false_or]
      exact hrest

theorem histFiles_plain : ∀ n ∈ histFiles, '%' ∉ n := by decide

theorem histFiles_nodup : histFiles.Nodup := by decide

/-- The visit of the home directories whose names hold no "%", when every listing
is returned: the requests are the ones `historyRequests` names, and the loop
returns. -/
theorem homes_requests (env : Local) (rpc : Remote) (fileTag : Str)
    (hl : ∀ history path, listingReturned rpc history path) (users : List Str) :
    (∀ u ∈ users, '%' ∉ u) → ∀ w : World, ∃ w1,
    forEach users (fun i w2 =>
      (rawListDirectory rpc (Sprintf ("/home/".toList ++ i)) w2).andThen fun homeDirectory w3 =>
        forEach homeDirectory (fun history =>
          forEach histFiles (fun histFile w4 =>
            if history.Name = histFile then
              downloadFile env rpc
                (Sprintf (Sprintf (Sprintf ("/home/".toList ++ i) ++ ['/']) ++ history.Name))
                fileTag true false w4
            else Outcome.done () w4)) w3) w = Outcome.done () w1 ∧
    w1.requests = w.requests ++ historyRequests rpc users w.requests := by
  induction users with
  | nil => intro _ w; exact ⟨w, rfl, by simp [historyRequests]⟩
  | cons u rest ih =>
    intro hu w
    have hup : '%' ∉ "/home/".toList ++ u := by
      intro hmem
      rcases List.mem_append.1 hmem with h | h
      · revert h; decide
      · exact hu u (List.mem_cons_self _ _) h
    have hup2 : '%' ∉ "/home/".toList ++ u ++ ['/'] := by
      intro hmem
      rcases List.mem_append.1 hmem with h | h
      · exact hup h
      · revert h; decide
    obtain ⟨w3, h3, hr3⟩ := rawListDirectory_done rpc ("/home/".toList ++ u) w (hl _ _)
    have hinner : ∀ history : FileInfo,
        forEach histFiles (fun histFile w4 =>
            if history.Name = histFile then
              downloadFile env rpc
                (Sprintf (Sprintf ("/home/".toList ++ u ++ ['/']) ++ history.Name))
                fileTag true false w4
            else Outcome.done () w4)
          = fun w4 => if decide (history.Name ∈ histFiles) then
              downloadFile env rpc ("/home/".toList ++ u ++ ['/'] ++ history.Name)
                fileTag true false w4
            else Outcome.done () w4 := by
      intro history
      funext w4
      rw [forEach_histFiles history.Name _
        (fun w => (downloadFile_done env rpc _ fileTag true w).imp fun _ h => h.1)
        histFiles histFiles_nodup w4]
      by_cases hm : history.Name ∈ histFiles
      · rw [if_pos hm, if_pos (by simpa using hm), Sprintf_plain _ hup2, Sprintf_plain]
        intro hmem
        rcases List.mem_append.1 hmem with h | h
        · exact hup2 h
        · exact histFiles_plain _ hm h
      · rw [if_neg hm, if_neg (by simpa using hm)]
    obtain ⟨w5, h5, hr5⟩ := forEach_downloads env rpc fileTag
      (fun fi : FileInfo => decide (fi.Name ∈ histFiles))
      (fun fi => "/home/".toList ++ u ++ ['/'] ++ fi.Name)
      (listed rpc w.requests ("/home/".toList ++ u)) w3
    obtain ⟨w6, h6, hr6⟩ := ih (fun x hx => hu x (List.mem_cons_of_mem _ hx)) w5
    refine ⟨w6, ?_, ?_⟩
    · rw [forEach_cons]
      rw [Sprintf_plain _ hup, h3]
      simp only [Outcome.andThen, hinner]
      rw [h5]
      exact h6
    · rw [hr6, hr5, hr3]
      simp [historyRequests, List.append_assoc]

/-- The history sweep when every listing is returned and no entry of "/home" has a
"%" in its name: the listing of "/home", then the requests `historyRequests`
names for its entries, and the sweep returns. -/
theorem findHistoriesUser_requests (env : Local) (rpc : Remote) (fileTag : Str) (w : World)
    (hl : ∀ history path, listingReturned rpc history path)
    (hu : ∀ fi ∈ listed rpc w.requests "/home".toList, '%' ∉ fi.Name) :
    ∃ w1, findHistoriesUser env rpc fileTag "/home".toList w = Outcome.done () w1 ∧
      w1.requests = w.requests ++ Request.Ls "/home".toList ::
        historyRequests rpc ((listed rpc w.requests "/home".toList).map fun fi => fi.Name)
          (w.requests ++ [Request.Ls "/home".toList]) := by
  obtain ⟨w1, h1, hr1⟩ := rawListDirectory_done rpc "/home".toList w (hl _ _)
  obtain ⟨w2, h2, hr2⟩ := homes_requests env rpc fileTag hl
    ((listed rpc w.requests "/home".toList).map fun fi => fi.Name)
    (by
      intro u hu1
      obtain ⟨fi, hfi, rfl⟩ := List.mem_map.1 hu1
      exact hu fi hfi) w1
  refine ⟨w2, ?_, ?_⟩
  · unfold findHistoriesUser
    simp only [h1, Outcome.andThen]
    exact h2
  · rw [hr2, hr1]
    simp

/-- The three directory sweeps, for a listing that is returned and whose file names
hold no "%": the listing request and then the described downloads, one
"<dir>/<name>" per entry that is not a directory, in listing order. -/
theorem directory_sweeps_requests (env : Local) (rpc : Remote) (fileTag : Str) (w : World) :
    (listingReturned rpc w.requests "/etc/*.conf".toList →
      (∀ fi ∈ listed rpc w.requests "/etc/*.conf".toList, fi.IsDir = false → '%' ∉ fi.Name) →
      ∃ w1, getEctConf env rpc fileTag w = Outcome.done () w1 ∧
        w1.requests = w.requests ++ Request.Ls "/etc/*.conf".toList ::
          sweepDownloads "/etc".toList (listed rpc w.requests "/etc/*.conf".toList)) ∧
    (listingReturned rpc w.requests "/etc/systemd/*.conf".toList →
      (∀ fi ∈ listed rpc w.requests "/etc/systemd/*.conf".toList,
        fi.IsDir = false → '%' ∉ fi.Name) →
      ∃ w1, getSystemdConf env rpc fileTag w = Outcome.done () w1 ∧
        w1.requests = w.requests ++ Request.Ls "/etc/systemd/*.conf".toList ::
          sweepDownloads "/etc/systemd".toList
            (listed rpc w.requests "/etc/systemd/*.conf".toList)) ∧
    (listingReturned rpc w.requests "/lib/systemd/system".toList →
      (∀ fi ∈ listed rpc w.requests "/lib/systemd/system".toList,
        fi.IsDir = false → '%' ∉ fi.Name) →
      ∃ w1, getLibSystemdSystem env rpc fileTag w = Outcome.done () w1 ∧
        w1.requests = w.requests ++ Request.Ls "/lib/systemd/system".toList ::
          sweepDownloads "/lib/systemd/system".toList
            (listed rpc w.requests "/lib/systemd/system".toList)) :=
  ⟨fun hl hn => sweep_requests env rpc fileTag _ _ "/etc".toList w hl (by decide) hn,
   fun hl hn => sweep_requests env rpc fileTag _ _ "/etc/systemd".toList w hl (by decide) hn,
   fun hl hn => sweep_requests env rpc fileTag _ _ "/lib/systemd/system".toList w hl
     (by decide) hn⟩

set_option maxRecDepth 100000 in
/-- C11 (code_bug): the paths are built with `fmt.Sprintf(a + b)`, the text as
format, so a "%" in the name of an entry of "/home" is read as a verb.  With the
user directory "r%d" the code does not list "/home/r%d" but
"/home/r%!d(MISSING)"; that listing fails and the run ends there, and
"/home/r%d/.bash_history" is never requested, where the description names the
listing of "/home/r%d" and that download.  For the user "alice" the requests are
the described ones, and so they are for all names without "%"
(`findHistoriesUser_requests`). -/
theorem C11_percent_in_user_name :
    (findHistoriesUser sampleLocal (homeRemote "alice".toList) "10.0.0.5:4444".toList
      "/home".toList ⟨⟨[], []⟩, [], []⟩).world.requests
      = [Request.Ls "/home".toList, Request.Ls "/home/alice".toList,
         Request.Download "/home/alice/.bash_history".toList] ∧
    historyRequests (homeRemote "r%d".toList) ["r%d".toList] [Request.Ls "/home".toList]
      = [Request.Ls "/home/r%d".toList, Request.Download "/home/r%d/.bash_history".toList] ∧
    (findHistoriesUser sampleLocal (homeRemote "r%d".toList) "10.0.0.5:4444".toList
      "/home".toList ⟨⟨[], []⟩, [], []⟩).world.requests
      = [Request.Ls "/home".toList, Request.Ls "/home/r%!d(MISSING)".toList] ∧
    (findHistoriesUser sampleLocal (homeRemote "r%d".toList) "10.0.0.5:4444".toList
      "/home".toList ⟨⟨[], []⟩, [], []⟩).returned = false := by
  decide

set_option maxRecDepth 100000 in
/-- C12 (code_bug): the paths are built with `fmt.Sprintf(dir + name)`, the text as
format, so a "%" in a listed name is read as a verb.  For a listing that holds the
files "resolv.conf" and "app%d.conf" and the directory "conf.d", the three sweeps
request "resolv.conf" under their directory, no download for the directory, and
for the second file a path with "app%!d(MISSING).conf" in place of the described
"<dir>/app%d.conf".  For listings whose file names hold no "%" the requests are
the described ones (`sweep_requests`). -/
theorem C12_percent_in_file_name :
    sweepDownloads "/etc".toList
        [⟨"resolv.conf".toList, false, 920, 0, "-rw-r--r--".toList⟩,
         ⟨"conf.d".toList, true, 4096, 0, "drwxr-xr-x".toList⟩,
         ⟨"app%d.conf".toList, false, 64, 0, "-rw-r--r--".toList⟩]
      = [Request.Download "/etc/resolv.conf".toList, Request.Download "/etc/app%d.conf".toList] ∧
    (getEctConf sampleLocal (remoteListing
        [⟨"resolv.conf".toList, false, 920, 0, "-rw-r--r--".toList⟩,
         ⟨"conf.d".toList, true, 4096, 0, "drwxr-xr-x".toList⟩,
         ⟨"app%d.conf".toList, false, 64, 0, "-rw-r--r--".toList⟩])
      "10.0.0.5:4444".toList ⟨⟨[], []⟩, [], []⟩).world.requests
      = [Request.Ls "/etc/*.conf".toList, Request.Download "/etc/resolv.conf".toList,
         Request.Download "/etc/app%!d(MISSING).conf".toList] ∧
    (getSystemdConf sampleLocal (remoteListing
        [⟨"resolv.conf".toList, false, 920, 0, "-rw-r--r--".toList⟩,
         ⟨"conf.d".toList, true, 4096, 0, "drwxr-xr-x".toList⟩,
         ⟨"app%d.conf".toList, false, 64, 0, "-rw-r--r--".toList⟩])
      "10.0.0.5:4444".toList ⟨⟨[], []⟩, [], []⟩).world.requests
      = [Request.Ls "/etc/systemd/*.conf".toList,
         Request.Download "/etc/systemd/resolv.conf".toList,
         Request.Download "/etc/systemd/app%!d(MISSING).conf".toList] ∧
    (getLibSystemdSystem sampleLocal (remoteListing
        [⟨"resolv.conf".toList, false, 920, 0, "-rw-r--r--".toList⟩,
         ⟨"conf.d".toList, true, 4096, 0, "drwxr-xr-x".toList⟩,
         ⟨"app%d.conf".toList, false, 64, 0, "-rw-r--r--".toList⟩])
      "10.0.0.5:4444".toList ⟨⟨[], []⟩, [], []⟩).world.requests
      = [Request.Ls "/lib/systemd/system".toList,
         Request.Download "/lib/systemd/system/resolv.conf".toList,
         Request.Download "/lib/systemd/system/app%!d(MISSING).conf".toList] := by
  decide

/-! ## C21: the directories made and the file opened -/

theorem Join_cons_cons (a b : Str) (l : List Str) :
    Join (a :: b :: l) ['/'] = a ++ '/' :: Join (b :: l) ['/'] := by
  simp [Join, List.intercalate, List.intersperse]

/-- Joining the pieces of a text split on "/" gives the text back. -/
theorem Join_Split (s : Str) : Join (Split '/' s) ['/'] = s := by
  induction s with
  | nil => rfl
  | cons c cs ih =>
    by_cases hc : c = '/'
    · subst hc
      simp only [Split, if_true]
      cases hs : Split '/' cs with
      | nil => exact absurd hs (Split_ne_nil _ _)
      | cons p ps =>
        rw [Join_cons_cons, ← hs, ih]
        rfl
    · simp only [Split, if_neg hc]
      cases hs : Split '/' cs with
      | nil => exact absurd hs (Split_ne_nil _ _)
      | cons p ps =>
        rw [hs] at ih
        simp only []
        cases ps with
        | nil =>
          have : p = cs := by simpa [Join, List.intercalate, List.intersperse] using ih
          subst this
          simp [Join, List.intercalate, List.intersperse]
        | cons q qs =>
          rw [Join_cons_cons] at ih
          rw [Join_cons_cons, List.cons_append, ih]

/-- No piece of a text split on a separator holds the separator. -/
theorem Split_pieces (sep : Char) (s : Str) : ∀ p ∈ Split sep s, sep ∉ p := by
  induction s with
  | nil => intro p hp; simp [Split] at hp; subst hp; simp
  | cons c cs ih =>
    intro p hp
    by_cases hc : c = sep
    · simp only [Split, if_pos hc] at hp
      rcases List.mem_cons.1 hp with h | h
      · subst h; simp
      · exact ih p h
    · simp only [Split, if_neg hc] at hp
      cases hs : Split sep cs with
      | nil => exact absurd hs (Split_ne_nil _ _)
      | cons q qs =>
        rw [hs] at hp ih
        simp only [] at hp
        rcases List.mem_cons.1 hp with h | h
        · subst h
          intro hm
          rcases List.mem_cons.1 hm with h1 | h1
          · exact hc h1.symm
          · exact ih q (List.mem_cons_self _ _) h1
        · exact ih p (List.mem_cons_of_mem _ h)

theorem getLastD_mem {α : Type} : ∀ (l : List α) (a : α), l.getLastD a ∈ a :: l := by
  intro l
  induction l with
  | nil => intro a; simp
  | cons b rest ih =>
    intro a
    rw [List.getLastD_cons]
    exact List.mem_cons_of_mem _ (ih b)

theorem lastSegment_plain (path : Str) : '/' ∉ lastSegment path := by
  unfold lastSegment
  cases hs : Split '/' path with
  | nil => exact absurd hs (Split_ne_nil _ _)
  | cons p ps =>
    rw [List.getLastD_cons]
    have hm := getLastD_mem ps p
    rw [← hs] at hm
    exact Split_pieces '/' path _ hm

/-- The tag, "/" and the joined segments are the deepest directory, "/" and the
last segment. -/
theorem deepest_and_last : ∀ (segments : List Str) (fileTag : Str), segments ≠ [] →
    fileTag ++ '/' :: Join segments ['/']
      = (mirrorDirs fileTag segments).getLastD fileTag ++ '/' :: segments.getLastD [] := by
  intro segments
  induction segments with
  | nil => intro _ h; exact absurd rfl h
  | cons line rest ih =>
    intro fileTag _
    cases rest with
    | nil => simp [mirrorDirs, Join, List.intercalate, List.intersperse]
    | cons next rest1 =>
      rw [mirrorDirs_cons, List.getLastD_cons, List.getLastD_cons, List.getLastD_cons,
        Join_cons_cons]
      have h := ih (fileTag ++ '/' :: line) (by simp)
      rw [List.getLastD_cons] at h
      rw [← h]
      simp

/-- For every tag and path: the tag, "/" and the path are the deepest directory of
`rebuildDirs`, "/" and the last segment of the path. -/
theorem tag_path_split (fileTag path : Str) :
    fileTag ++ ['/'] ++ path = deepestDir fileTag path ++ '/' :: lastSegment path := by
  unfold deepestDir lastSegment
  rw [← deepest_and_last (Split '/' path) fileTag (Split_ne_nil _ _), Join_Split]
  simp

/-- Where a directory exists, a name made of it, "/" and one more segment has that
directory as its parent. -/
theorem parent_of_dir (fs : FS) (dir last : Str) (hd : Stat fs dir = Except.ok Node.dir)
    (hl : last ≠ []) (hs : '/' ∉ last) :
    ∃ p, fs.walk (fs.start dir) (Split '/' dir) = Except.ok p ∧
      fs.parent (dir ++ '/' :: last) = Except.ok (some (p, last)) ∧
      fs.find p = some Node.dir ∧
      trimSegs (Split '/' (dir ++ '/' :: last)) = Split '/' (dir ++ '/' :: last) := by
  have hne : dir ≠ [] := by
    intro h
    rw [h] at hd
    simp [Stat] at hd
  unfold Stat at hd
  rw [if_neg hne] at hd
  cases hw : fs.walk (fs.start dir) (Split '/' dir) with
  | error e => rw [hw] at hd; cases hd
  | ok p =>
    rw [hw] at hd
    simp only [] at hd
    cases hf : fs.find p with
    | none => rw [hf] at hd; cases hd
    | some n =>
      rw [hf] at hd
      simp only [] at hd
      have hn : n = Node.dir := by
        cases hd
        rfl
      subst hn
      have hsplit : Split '/' (dir ++ '/' :: last) = Split '/' dir ++ [last] := by
        rw [Split_append_sep, Split_of_not_mem _ _ hs]
      have htrim : (trimSegs (Split '/' dir ++ [last])).reverse
          = last :: (Split '/' dir).reverse := by
        simpa using trim_of_shape (Split '/' dir) last 0 hl
      refine ⟨p, rfl, ?_, hf, ?_⟩
      · rw [parent_ok_iff]
        refine ⟨by simp, (Split '/' dir).reverse, ?_, ?_, hf⟩
        · rw [hsplit]
          exact htrim
        · rw [start_extended fs dir last hne, List.reverse_reverse]
          exact hw
      · rw [hsplit]
        have := congrArg List.reverse htrim
        simpa using this

set_option maxRecDepth 100000 in
/-- C21 (counterexample): two fetches of "/etc/passwd" after whose `rebuildDirs`
the parent directory of the write target does not exist.  With a regular file
standing under the name of the tag, `rebuildDirs` makes nothing and reports
nothing, and the open call fails on "10.0.0.5:4444//etc/passwd": the parent
directory does not exist.  With the tag "[fe80::1%eth0]:8888" (an address with a
zone), `rebuildDirs` makes "[fe80::1%eth0]:8888/etc" and the file is opened under
another name, "[fe80::1%!e(MISSING)th0]:8888//etc/passwd", whose parent does not
exist. -/
theorem C21_rebuilt_but_no_parent :
    (rebuildDirs "/etc/passwd".toList "10.0.0.5:4444".toList
      ⟨⟨[], [(["10.0.0.5:4444".toList], Node.file [])]⟩, [], []⟩)
      = ⟨⟨[], [(["10.0.0.5:4444".toList], Node.file [])]⟩, [], []⟩ ∧
    deepestDir "10.0.0.5:4444".toList "/etc/passwd".toList = "10.0.0.5:4444//etc".toList ∧
    (downloadReply (fun _ => GzipResult.ok (ascii "x"))
      ⟨some ⟨true, "gzip".toList, [0x1f, 0x8b, 8, 0, 0, 0, 0, 0, 0, 3, 0]⟩, none⟩
      "/etc/passwd".toList "10.0.0.5:4444".toList true false
      ⟨⟨[], [(["10.0.0.5:4444".toList], Node.file [])]⟩, [], []⟩).world.out
      = [Printed.text
          "[!] Error creating file: open 10.0.0.5:4444//etc/passwd: not a directory".toList] ∧
    deepestDir "[fe80::1%eth0]:8888".toList "/etc/passwd".toList
      = "[fe80::1%eth0]:8888//etc".toList ∧
    fullPath "[fe80::1%eth0]:8888".toList "/etc/passwd".toList
      = "[fe80::1%!e(MISSING)th0]:8888//etc/passwd".toList ∧
    (downloadReply (fun _ => GzipResult.ok (ascii "x"))
      ⟨some ⟨true, "gzip".toList, [0x1f, 0x8b, 8, 0, 0, 0, 0, 0, 0, 3, 0]⟩, none⟩
      "/etc/passwd".toList "[fe80::1%eth0]:8888".toList true false ⟨⟨[], []⟩, [], []⟩).world
      = ⟨⟨[], [(["[fe80::1%eth0]:8888".toList], Node.dir),
          (["[fe80::1%eth0]:8888".toList, "etc".toList], Node.dir)]⟩,
        [Printed.text "[!] Error creating file: open [fe80::1%!e(MISSING)th0]:8888//etc/passwd: no such file or directory".toList],
        []⟩ := by
  decide

/-- C21 (amended): for every tag and path without "%", the path `downloadFile`
opens is the deepest directory `rebuildDirs` works on (the last of tag/s0, ...,
tag/s0/.../s(n-2), ensured in that order after the tag; the tag itself when the
path has no "/"), then "/" and the last segment of the path.  So on every file
system where that directory exists as a directory, the parent directory of the
write target exists: it is that directory (the last segment not being empty). -/
theorem C21_writer_creator_agreement (fileTag path : Str)
    (ht : '%' ∉ fileTag) (hp : '%' ∉ path) :
    (∀ w : World, (rebuildDirs path fileTag w).fs
      = ensureAll (mirrorDirs fileTag (Split '/' path)) (ensureTag w.fs fileTag)) ∧
    ('/' ∉ path → deepestDir fileTag path = fileTag) ∧
    fullPath fileTag path = deepestDir fileTag path ++ '/' :: lastSegment path ∧
    ∀ fs : FS, Stat fs (deepestDir fileTag path) = Except.ok Node.dir →
      lastSegment path ≠ [] →
      ∃ p, fs.walk (fs.start (deepestDir fileTag path)) (Split '/' (deepestDir fileTag path))
          = Except.ok p ∧
        fs.parent (fullPath fileTag path) = Except.ok (some (p, lastSegment path)) ∧
        fs.find p = some Node.dir := by
  have hfull : fullPath fileTag path = deepestDir fileTag path ++ '/' :: lastSegment path := by
    unfold fullPath
    rw [Sprintf_plain, tag_path_split]
    intro hm
    simp only [List.mem_append, List.mem_singleton] at hm
    rcases hm with (hm | hm) | hm
    · exact ht hm
    · cases hm
    · exact hp hm
  refine ⟨fun w => rebuildDirs_ensures path fileTag w, ?_, hfull, ?_⟩
  · intro hs
    unfold deepestDir
    rw [Split_of_not_mem _ _ hs]
    rfl
  · intro fs hd hl
    obtain ⟨p, hw, hpar, hf, _⟩ :=
      parent_of_dir fs (deepestDir fileTag path) (lastSegment path) hd hl (lastSegment_plain path)
    rw [← hfull] at hpar
    exact ⟨p, hw, hpar, hf⟩

/-- C21 (witness): the fetch of "/etc/passwd" under the tag "t" into an empty
mirror: after `rebuildDirs` the directory "t//etc" exists and is the parent of the
file that is opened. -/
theorem C21_writer_creator_agreement_witness :
    ('%' ∉ "t".toList ∧ '%' ∉ "/etc/passwd".toList ∧
      lastSegment "/etc/passwd".toList ≠ []) ∧
    fullPath "t".toList "/etc/passwd".toList = "t//etc".toList ++ '/' :: "passwd".toList ∧
    ∃ p, (rebuildDirs "/etc/passwd".toList "t".toList ⟨⟨[], []⟩, [], []⟩).fs.parent
        (fullPath "t".toList "/etc/passwd".toList)
          = Except.ok (some (p, lastSegment "/etc/passwd".toList)) ∧
      (rebuildDirs "/etc/passwd".toList "t".toList ⟨⟨[], []⟩, [], []⟩).fs.find p
        = some Node.dir :=
  ⟨⟨by decide, by decide, by decide⟩,
    (C21_writer_creator_agreement "t".toList "/etc/passwd".toList (by decide) (by decide)).2.2.1,
    ((C21_writer_creator_agreement "t".toList "/etc/passwd".toList (by decide) (by decide)).2.2.2
      (rebuildDirs "/etc/passwd".toList "t".toList ⟨⟨[], []⟩, [], []⟩).fs rfl (by decide)).imp
      fun _ h => ⟨h.2.1, h.2.2⟩⟩

/-! ## C22, C23: the connection table and the process table -/

/-- The rows cannot be built as soon as one entry has no process. -/
theorem connectionRows_bare (targetSession : Session) :
    ∀ entries : List SockTabEntry, (∃ entry ∈ entries, entry.Process = none) →
      connectionRows targetSession entries = none := by
  intro entries
  induction entries with
  | nil => intro h; obtain ⟨e, he, _⟩ := h; cases he
  | cons entry rest ih =>
    intro h
    simp only [connectionRows]
    cases hp : entry.Process with
    | none =>
      have : connectionRow targetSession entry = none := by
        simp only [connectionRow, hp]
      rw [this]
    | some p =>
      obtain ⟨e, he, hn⟩ := h
      rcases List.mem_cons.1 he with h1 | h1
      · subst h1
        rw [hp] at hn
        cases hn
      · rw [ih ⟨e, h1, hn⟩]
        cases connectionRow targetSession entry <;> rfl

/-- With a connection table that holds an entry without process, `getConnections`
stops on the nil dereference and prints no table. -/
theorem getConnections_bare (targetSession : Session) (rpc : Remote) (w : World)
    (entries : List SockTabEntry)
    (hr : (rpc.Netstat (makeBorder "Connections".toList w).requests).netstat = some entries)
    (hb : ∃ entry ∈ entries, entry.Process = none) :
    ∃ w1, getConnections targetSession rpc w = Outcome.crash w1 ∧
      ∀ header rows, Printed.table header rows ∈ w1.out → Printed.table header rows ∈ w.out := by
  unfold getConnections
  simp only [hr, connectionRows_bare targetSession entries hb]
  refine ⟨_, rfl, ?_⟩
  intro header rows hm
  cases he : (rpc.Netstat (makeBorder "Connections".toList w).requests).err with
  | none =>
    rw [he] at hm
    simp only [makeBorder, println, List.mem_append, List.mem_singleton] at hm
    rcases hm with ((h | h) | h) | h
    · exact h
    · cases h
    · cases h
    · cases h
  | some e =>
    rw [he] at hm
    simp only [makeBorder, println, List.mem_append, List.mem_singleton] at hm
    rcases hm with (((h | h) | h) | h) | h
    · exact h
    · cases h
    · cases h
    · cases h
    · cases h

set_option maxRecDepth 100000 in
/-- C22 (code_bug): the test of the session PID reads `entry.Process.Pid` without
the nil test made three lines above it, so for every entry without process no row
is built: the run stops on the nil dereference.  With a connection table that
holds such an entry between two entries with a process, `getConnections` prints
the banner and no table, and `main` ends there, the connection request being its
last.  Entries with a process do give the described rows: plain cells, or
highlighted ones for the PID of the session. -/
theorem C22_entry_without_process_panics :
    (∀ (targetSession : Session) (localAddr remoteAddr : SockAddr) (state protocol : Str),
      connectionRow targetSession ⟨localAddr, remoteAddr, state, protocol, none⟩ = none) ∧
    (∃ w1, getConnections userSession remoteWithBareSocket ⟨⟨[], []⟩, [], []⟩
      = Outcome.crash w1) ∧
    (getConnections userSession remoteWithBareSocket ⟨⟨[], []⟩, [], []⟩).world.out
      = [Printed.text (List.replicate 70 '='), Printed.text "[*] Connections".toList,
         Printed.text (List.replicate 70 '=')] ∧
    (main sampleLocal remoteWithBareSocket "cfg".toList (Except.ok (some [userSession])) []
      ⟨⟨[], []⟩, [], []⟩).returned = false ∧
    (main sampleLocal remoteWithBareSocket "cfg".toList (Except.ok (some [userSession])) []
      ⟨⟨[], []⟩, [], []⟩).world.requests.getLast? = some Request.Netstat ∧
    connectionRow userSession ⟨⟨"10.0.0.5".toList, 22⟩, ⟨"10.0.0.9".toList, 50122⟩,
        "ESTABLISHED".toList, "tcp".toList, some sampleProcess⟩
      = some ["tcp".toList, "10.0.0.5:22".toList, "10.0.0.9:50122".toList,
          "ESTABLISHED".toList, "812/sshd".toList] ∧
    connectionRow userSession ⟨⟨"10.0.0.5".toList, 4444⟩, ⟨"10.0.0.1".toList, 8888⟩,
        "ESTABLISHED".toList, "tcp".toList, some ⟨4242, 1, "alice".toList, "implant".toList, []⟩⟩
      = some [Green ++ "tcp".toList ++ Normal, Green ++ "10.0.0.5:4444".toList ++ Normal,
          Green ++ "10.0.0.1:8888".toList ++ Normal, Green ++ "ESTABLISHED".toList ++ Normal,
          Green ++ "4242/implant".toList ++ Normal] :=
  ⟨fun _ _ _ _ _ => rfl, ⟨_, rfl⟩, by decide, by decide, by decide, by decide, by decide⟩

/-- The process table `processList` prints: the header "PPID", "PID", "User",
"Command" over one row of `procRow` for every process, in the order of the reply. -/
theorem processList_table (rpc : Remote) (w w1 : World) (processes : List Process)
    (hdone : processList rpc w = Outcome.done () w1)
    (hps : (rpc.Ps (makeBorder "Process List".toList w).requests).ps = some processes) :
    w1.out.getLast? = some (Printed.table processHeader
      (processes.map fun proc => procRow proc true)) := by
  unfold processList at hdone
  simp only [hps] at hdone
  cases hdone
  simp

/-- C23 (code_bug): the header of the process table starts "PPID", "PID", and
`procRow` starts every row with the PID and then the parent PID, so the two columns
are swapped: for every process the cell under "PPID" is its PID and the cell under
"PID" is its parent PID (each followed by the colour reset).  The cells under
"User" and "Command" are the described ones.  For "sshd" with PID 812 and parent
PID 1 the table shows 812 under "PPID" and 1 under "PID". -/
theorem C23_pid_columns_swapped :
    (∀ proc : Process,
      cellUnder processHeader (procRow proc true) "PPID".toList
        = some (showInt proc.Pid ++ Normal) ∧
      cellUnder processHeader (procRow proc true) "PID".toList
        = some (showInt proc.Ppid ++ Normal) ∧
      cellUnder processHeader (procRow proc true) "User".toList = some (proc.Owner ++ Normal) ∧
      cellUnder processHeader (procRow proc true) "Command".toList
        = some ((if proc.CmdLine.length ≥ 2 then Join proc.CmdLine [' '] else proc.Executable)
            ++ Normal)) ∧
    (processList remoteWithProcess ⟨⟨[], []⟩, [], []⟩).world.out.getLast?
      = some (Printed.table ["PPID".toList, "PID".toList, "User".toList, "Command".toList]
          [["812".toList ++ Normal, "1".toList ++ Normal, "root".toList ++ Normal,
            "/usr/sbin/sshd -D".toList ++ Normal]]) ∧
    cellUnder processHeader (procRow sampleProcess true) "PPID".toList
      = some ("812".toList ++ Normal) ∧
    cellUnder processHeader (procRow sampleProcess true) "PID".toList
      = some ("1".toList ++ Normal) ∧
    cellUnder processHeader
        (procRow ⟨812, 1, "root".toList, "sshd".toList, ["sshd".toList]⟩ true) "Command".toList
      = some ("sshd".toList ++ Normal) :=
  ⟨fun _ => ⟨rfl, rfl, rfl, rfl⟩, by decide, by decide, by decide, by decide⟩

end Survey
